import Mathlib

/-!
# Tic-tac-toe solver and code generator (`src/main.c`)

A shallow embedding of the board primitives, of the minimax solver and of the
code generator of `src/main.c`, followed by theorems about them.

Conventions of the embedding:

* `Sym` (`int8_t`) and `int` values are mathematical integers. The only
  arithmetic the program performs on them is `r * BOARD_SIZE + c` and score
  comparisons; the product is taken without wrap-around (signed overflow is
  undefined in C), which is exact for every coordinate of magnitude below
  `2^31 / 3`.
* A `Board` is its array of nine cells, indexed by `Fin 9`.
* `Board *` arguments that are only read are passed by value; the one mutating
  function, `board_set_sym_mut`, returns the board it leaves behind the pointer.
* The recursion of `get_best_move_and_score` is driven by a fuel argument that
  bounds the call depth: `none` means the depth bound was hit. `generate_turn`
  has such a bound for its own nesting and passes a second one to the solver.
* Output is the sequence of `printf` calls, each recorded with its format
  string and its integer arguments.
-/

namespace TicTacToe

/-! ## Symbols and moves -/

/-- Symbols: `typedef int8_t Sym;`. -/
abbrev Sym := Int

/-- The C macro `SYM_INVALID`. -/
abbrev SYM_INVALID : Sym := -1
/-- The C macro `SYM_EMPTY`. -/
abbrev SYM_EMPTY : Sym := 0
/-- The C macro `SYM_SELF`. -/
abbrev SYM_SELF : Sym := 1
/-- The C macro `SYM_OPP`. -/
abbrev SYM_OPP : Sym := 2

/-- The function `sym_invert`: the `switch` swaps the two player symbols and
returns anything else unchanged. -/
def sym_invert (sym : Sym) : Sym :=
  if sym = SYM_SELF then SYM_OPP
  else if sym = SYM_OPP then SYM_SELF
  else sym

/-- The function `sym_is_player`. -/
def sym_is_player (sym : Sym) : Bool :=
  sym == SYM_SELF || sym == SYM_OPP

/-- The C struct `Move`. -/
structure Move where
  r : Int
  c : Int
  deriving DecidableEq, Repr

/-- The C macro `MOVE_INVALID`. -/
abbrev MOVE_INVALID : Move := ⟨-1, -1⟩

/-- The function `move_create`. -/
def move_create (r c : Int) : Move := ⟨r, c⟩

/-- The function `move_is_valid`. -/
def move_is_valid (move : Move) : Bool :=
  decide (move.r ≥ 0) && decide (move.c ≥ 0)

/-! ## Boards -/

/-- The C macro `BOARD_SIZE`. -/
abbrev BOARD_SIZE : Int := 3
/-- The C macro `BOARD_SIZE_SQ`. -/
abbrev BOARD_SIZE_SQ : Int := BOARD_SIZE * BOARD_SIZE

/-- The C struct `Board`: `Sym cells[BOARD_SIZE_SQ]`. -/
structure Board where
  cells : Fin 9 → Sym

/-- The function `board_create`: every cell is `SYM_EMPTY`. -/
def board_create : Board := ⟨fun _ => SYM_EMPTY⟩

/-- The function `board_clone`: a `memcpy` of the nine cells. -/
def board_clone (board : Board) : Board := ⟨fun i => board.cells i⟩

/-- The function `board_get_sym`: the guard is on the flat index
`r * BOARD_SIZE + c`, not on `r` and `c` separately. -/
def board_get_sym (board : Board) (r c : Int) : Sym :=
  let index := r * BOARD_SIZE + c
  if h : index < 0 ∨ index ≥ BOARD_SIZE_SQ then SYM_INVALID
  else board.cells ⟨index.toNat, by simp only [BOARD_SIZE_SQ, BOARD_SIZE] at h; omega⟩

/-- The function `board_set_sym_mut`, returning the board it leaves behind its
pointer argument. The guard is the one of `board_get_sym`. -/
def board_set_sym_mut (board : Board) (r c : Int) (sym : Sym) : Board :=
  let index := r * BOARD_SIZE + c
  if h : index < 0 ∨ index ≥ BOARD_SIZE_SQ then board
  else
    ⟨Function.update board.cells
      ⟨index.toNat, by simp only [BOARD_SIZE_SQ, BOARD_SIZE] at h; omega⟩ sym⟩

/-- The function `board_set_sym`: clone the receiver, then set the cell of the
clone. -/
def board_set_sym (board : Board) (r c : Int) (sym : Sym) : Board :=
  board_set_sym_mut (board_clone board) r c sym

/-- The values taken by a loop `for (int i = 0; i < BOARD_SIZE; i++)`. -/
abbrev loopFrom0 : List Int := [0, 1, 2]

/-- The values taken by a loop `for (int i = 1; i < BOARD_SIZE; i++)`. -/
abbrev loopFrom1 : List Int := [1, 2]

/-- One line test of `board_get_winner`: `first` is the first cell of the line,
`rest` reads the cell at position `i` of the line for `i = 1, 2`. The result is
`some first` when the C code reaches `return first`, and `none` when it goes on
to the next line (`first` is Empty, or some later cell differs). -/
def checkLine (first : Sym) (rest : Int → Sym) : Option Sym :=
  if first = SYM_EMPTY then none
  else if loopFrom1.all (fun i => decide (rest i = first)) then some first
  else none

/-- The function `board_get_winner`: rows, then columns, then the two
diagonals; the first complete line decides. -/
def board_get_winner (board : Board) : Sym :=
  match loopFrom0.findSome? (fun r =>
      checkLine (board_get_sym board r 0) (fun c => board_get_sym board r c)) with
  | some first => first
  | none =>
    match loopFrom0.findSome? (fun c =>
        checkLine (board_get_sym board 0 c) (fun r => board_get_sym board r c)) with
    | some first => first
    | none =>
      match checkLine (board_get_sym board 0 0) (fun i => board_get_sym board i i) with
      | some first => first
      | none =>
        match checkLine (board_get_sym board 0 (BOARD_SIZE - 1))
            (fun i => board_get_sym board i (BOARD_SIZE - 1 - i)) with
        | some first => first
        | none => SYM_EMPTY

/-- The function `board_move_is_possible`. -/
def board_move_is_possible (board : Board) (r c : Int) : Bool :=
  decide (board_get_sym board r c = SYM_EMPTY)

/-- The function `board_is_full`: `false` as soon as a cell is Empty. -/
def board_is_full (board : Board) : Bool :=
  !(loopFrom0.any fun r => loopFrom0.any fun c =>
      decide (board_get_sym board r c = SYM_EMPTY))

/-- The function `board_get_winner_or_tie`. -/
def board_get_winner_or_tie (board : Board) : Sym :=
  let winner := board_get_winner board
  if winner = SYM_EMPTY ∧ board_is_full board = true then SYM_INVALID
  else winner

/-! ## The solver -/

/-- The C struct `ScoredMove`. -/
structure ScoredMove where
  move : Move
  score : Int
  deriving DecidableEq, Repr

/-- The C constant `INT_MIN` (32-bit `int`). -/
abbrev INT_MIN : Int := -2147483648
/-- The C constant `INT_MAX` (32-bit `int`). -/
abbrev INT_MAX : Int := 2147483647

/-- The function `get_best_move_and_score`. The first argument bounds the depth
of the recursion; the accumulator of the two nested loops is the pair
`(move, value)` of the C code. -/
def get_best_move_and_score : Nat → Board → Sym → Sym → Option ScoredMove
  | 0, _, _, _ => none
  | fuel + 1, board, sym, maximizing_sym =>
    let winner := board_get_winner board
    if winner = maximizing_sym then some ⟨MOVE_INVALID, 1⟩
    else if winner = sym_invert maximizing_sym then some ⟨MOVE_INVALID, -1⟩
    else if board_is_full board then some ⟨MOVE_INVALID, 0⟩
    else if sym = maximizing_sym then
      -- Maximizing branch
      loopFrom0.foldlM (fun acc r => loopFrom0.foldlM (fun acc c =>
        if !board_move_is_possible board r c then some acc
        else
          (get_best_move_and_score fuel (board_set_sym board r c sym)
              (sym_invert sym) maximizing_sym).bind fun res =>
            if res.score > acc.score then some ⟨move_create r c, res.score⟩
            else some acc) acc) ⟨MOVE_INVALID, INT_MIN⟩
    else
      -- Minimizing branch
      loopFrom0.foldlM (fun acc r => loopFrom0.foldlM (fun acc c =>
        if !board_move_is_possible board r c then some acc
        else
          (get_best_move_and_score fuel (board_set_sym board r c sym)
              (sym_invert sym) maximizing_sym).bind fun res =>
            if res.score < acc.score then some ⟨move_create r c, res.score⟩
            else some acc) acc) ⟨MOVE_INVALID, INT_MAX⟩

/-- The function `get_best_move`. -/
def get_best_move (fuel : Nat) (board : Board) (sym maximizing_sym : Sym) : Option Move :=
  (get_best_move_and_score fuel board sym maximizing_sym).map (fun res => res.move)

/-! ## Output: the trace of `printf` calls -/

/-- One call of `printf`: its format string and its integer arguments. The
output of the program is the sequence of its `printf` calls. -/
structure PrintfCall where
  fmt : String
  args : List Int
  deriving DecidableEq, Repr

/-- A call `printf(s)` with a format that takes no argument. -/
def emit (s : String) : PrintfCall := ⟨s, []⟩

/-- The function `board_print`, as the `printf` calls it makes. A symbol that is
none of the three `case` labels prints nothing. -/
def board_print (board : Board) : List PrintfCall :=
  loopFrom0.flatMap fun r =>
    (loopFrom0.flatMap fun c =>
      (if board_get_sym board r c = SYM_EMPTY then [emit " "]
       else if board_get_sym board r c = SYM_SELF then [emit "X"]
       else if board_get_sym board r c = SYM_OPP then [emit "O"]
       else []) ++
      (if c < BOARD_SIZE - 1 then [emit "|"] else [])) ++
    [emit "\n"] ++
    (if r < BOARD_SIZE - 1 then
      (loopFrom0.flatMap fun i =>
        [emit "-"] ++ (if i < BOARD_SIZE - 1 then [emit "+"] else [])) ++
      [emit "\n"]
     else [])

/-- The function `generate_board_print`, as the `printf` calls it makes: per
row, the opening of a `printf` statement, one three-character piece per cell,
and the closing of the statement. -/
def generate_board_print (board : Board) : List PrintfCall :=
  loopFrom0.flatMap fun r =>
    [emit "printf(\""] ++
    (loopFrom0.flatMap fun c =>
      if board_get_sym board r c = SYM_SELF then [emit " X "]
      else if board_get_sym board r c = SYM_OPP then [emit " O "]
      else [emit " - "]) ++
    [emit "\\n\");\n"]

/-- The call `printf("    printf(\"Tie!\\n\");\n")`. -/
def emitTie : PrintfCall := emit "    printf(\"Tie!\\n\");\n"
/-- The call `printf("    printf(\"You lose!\\n\");\n")`. -/
def emitYouLose : PrintfCall := emit "    printf(\"You lose!\\n\");\n"
/-- The call `printf("    printf(\"You win!\\n\");\n")`. -/
def emitYouWin : PrintfCall := emit "    printf(\"You win!\\n\");\n"
/-- The call `printf("    printf(\"Computer's move: %d,%d\\n\");\n", r, c)`. -/
def emitComputerMove (move : Move) : PrintfCall :=
  ⟨"    printf(\"Computer's move: %d,%d\\n\");\n", [move.r, move.c]⟩
/-- The call `printf("if (input.r == %d && input.c == %d) {\n", r, c)`. -/
def emitIf (r c : Int) : PrintfCall :=
  ⟨"if (input.r == %d && input.c == %d) \x7b\n", [r, c]⟩

/-- The body of the inner loop of `generate_turn` for the cell `(r, c)`:
the `printf` calls of one iteration. `nested` is the recursive call of
`generate_turn` (with the same `auto_player`), `solverFuel` the depth bound
given to the solver; the result is `none` when either runs out of depth. -/
def generate_turn_cell (nested : Board → Option (List PrintfCall)) (solverFuel : Nat)
    (board : Board) (auto_player : Sym) (is_first_iter : Bool) (r c : Int) :
    Option (List PrintfCall) :=
  let user_player := sym_invert auto_player
  let head := (if !is_first_iter then [emit "else "] else []) ++ [emitIf r c]
  if !board_move_is_possible board r c then
    some (head ++
      [emit "    printf(\"Move is not possible\\n\");\n", emit "    continue;\n"] ++
      [emit "\x7d\n"])
  else
    let user_move_board := board_set_sym board r c user_player
    (get_best_move solverFuel user_move_board auto_player auto_player).bind fun my_move =>
      let my_move_board := board_set_sym user_move_board my_move.r my_move.c auto_player
      let winner := board_get_winner_or_tie my_move_board
      let upto := head ++ generate_board_print user_move_board ++
        [emitComputerMove my_move] ++ generate_board_print my_move_board
      let close := [emit "    break;\n", emit "\x7d\n"]
      if winner = SYM_INVALID then some (upto ++ [emitTie] ++ close)
      else if winner = SYM_SELF then some (upto ++ [emitYouLose] ++ close)
      else if winner = SYM_OPP then some (upto ++ [emitYouWin] ++ close)
      else (nested my_move_board).map fun out => upto ++ out ++ close

/-- The function `generate_turn`, as the `printf` calls it makes. The first
argument bounds the nesting depth of the recursion, the second is the depth
bound given to each call of the solver. The state of the two loops is the
output so far and the flag `is_first_iter`. -/
def generate_turn : Nat → Nat → Board → Sym → Option (List PrintfCall)
  | 0, _, _, _ => none
  | depth + 1, solverFuel, board, auto_player =>
    (loopFrom0.foldlM (fun st r => loopFrom0.foldlM (fun st c =>
        (generate_turn_cell (fun b => generate_turn depth solverFuel b auto_player)
            solverFuel board auto_player st.2 r c).map
          fun out => (st.1 ++ out, false)) st)
      ([emit "while (1) \x7b\n", emit "input = get_input();\n"], true)).map
    fun st => st.1 ++
      [emit "else \x7b\n", emit "    printf(\"Move is not possible\\n\");\n",
       emit "    continue;\n", emit "\x7d\n", emit "\x7d\n"]

/-- The fixed text that `generate_code` prints before the generated turns: the
C string `code`. -/
def generatedPrelude : String :=
  "#include <stdio.h>\n" ++
  "\n" ++
  "typedef struct \x7b int r, c; \x7d Move;\n" ++
  "\n" ++
  "Move get_input(void) \x7b\n" ++
  "    int r, c;\n" ++
  "    while (1) \x7b\n" ++
  "        r = -1;\n" ++
  "        c = -1;\n" ++
  "        printf(\"Enter row,column: \");\n" ++
  "        scanf(\"%d,%d\", &r, &c);\n" ++
  "        if (r < 0 || c < 0 || r > 2 || c > 2) \x7b\n" ++
  "            printf(\"Invalid move\\n\");\n" ++
  "            continue;\n" ++
  "        \x7d\n" ++
  "        break;\n" ++
  "    \x7d\n" ++
  "    return (Move)\x7b.r = r, .c = c\x7d;\n" ++
  "\x7d\n" ++
  "\n" ++
  "int main(void) \x7b\n" ++
  "    printf(\"You are O, the computer is X.\\n\");\n" ++
  "    Move input = (Move)\x7b.r = -1, .c = -1\x7d;\n"

/-- The function `generate_code`, as the `printf` calls it makes; the call
`printf("%s", code)` is recorded with the text `code` as its format. -/
def generate_code (depth solverFuel : Nat) : Option (List PrintfCall) :=
  (generate_turn depth solverFuel board_create SYM_SELF).map fun out =>
    [emit generatedPrelude] ++ out ++ [emit "\x7d\n"]

/-! ## Vocabulary of the specification -/

/-- The nine coordinate pairs in row-major order: the order in which the two
nested `for` loops over `r` and `c` visit the cells. -/
def cells9 : List (Int × Int) :=
  [(0, 0), (0, 1), (0, 2), (1, 0), (1, 1), (1, 2), (2, 0), (2, 1), (2, 2)]

/-- Row-major order on coordinate pairs: `r` ascending, then `c` ascending. -/
def rowMajorLt (p q : Int × Int) : Prop :=
  p.1 < q.1 ∨ (p.1 = q.1 ∧ p.2 < q.2)

instance (p q : Int × Int) : Decidable (rowMajorLt p q) := by
  unfold rowMajorLt; infer_instance

/-- A coordinate in the closed range `[0, 2]`. -/
def inRange (i : Int) : Prop := 0 ≤ i ∧ i ≤ 2

instance (i : Int) : Decidable (inRange i) := by
  unfold inRange; infer_instance

/-- A board all of whose cells are Empty, Self or Opponent. -/
def validBoard (b : Board) : Prop :=
  ∀ i : Fin 9, b.cells i = SYM_EMPTY ∨ b.cells i = SYM_SELF ∨ b.cells i = SYM_OPP

instance (b : Board) : Decidable (validBoard b) := by
  unfold validBoard; infer_instance

/-- A player symbol: Self or Opponent. -/
def isPlayer (s : Sym) : Prop := s = SYM_SELF ∨ s = SYM_OPP

instance (s : Sym) : Decidable (isPlayer s) := by
  unfold isPlayer; infer_instance

/-- The number of Empty cells of a board. -/
def countEmpty (b : Board) : Nat :=
  (Finset.univ.filter fun i : Fin 9 => b.cells i = SYM_EMPTY).card

/-- The board with the given nine cells, listed in row-major order. -/
def mk9 (a0 a1 a2 a3 a4 a5 a6 a7 a8 : Sym) : Board :=
  ⟨fun i =>
    match i.val with
    | 0 => a0 | 1 => a1 | 2 => a2 | 3 => a3 | 4 => a4 | 5 => a5 | 6 => a6 | 7 => a7
    | _ => a8⟩

/-- The receiver of `board_set_sym` once the call has returned: the function
writes only through the pointer to its local clone `new_board`, never through
`board`. -/
def board_set_sym_receiver (board : Board) (r c : Int) (sym : Sym) : Board :=
  let new_board := board_clone board
  let _written := board_set_sym_mut new_board r c sym
  board

/-- A line of three cells, given by the coordinates of its cells. -/
structure Line where
  p0 : Int × Int
  p1 : Int × Int
  p2 : Int × Int
  deriving DecidableEq, Repr

/-- The eight lines in the scan order of the specification: the rows top to
bottom, the columns left to right, the main diagonal, the anti-diagonal. -/
def winLines : List Line :=
  [⟨(0, 0), (0, 1), (0, 2)⟩, ⟨(1, 0), (1, 1), (1, 2)⟩, ⟨(2, 0), (2, 1), (2, 2)⟩,
   ⟨(0, 0), (1, 0), (2, 0)⟩, ⟨(0, 1), (1, 1), (2, 1)⟩, ⟨(0, 2), (1, 2), (2, 2)⟩,
   ⟨(0, 0), (1, 1), (2, 2)⟩, ⟨(0, 2), (1, 1), (2, 0)⟩]

/-- A line is complete when it holds three identical non-Empty symbols. -/
def lineComplete (b : Board) (l : Line) : Prop :=
  board_get_sym b l.p0.1 l.p0.2 ≠ SYM_EMPTY ∧
  board_get_sym b l.p1.1 l.p1.2 = board_get_sym b l.p0.1 l.p0.2 ∧
  board_get_sym b l.p2.1 l.p2.2 = board_get_sym b l.p0.1 l.p0.2

instance (b : Board) (l : Line) : Decidable (lineComplete b l) := by
  unfold lineComplete; infer_instance

/-- The board with exactly the cells of line `l` holding `s`, all others Empty. -/
def lineBoard (l : Line) (s : Sym) : Board :=
  board_set_sym (board_set_sym (board_set_sym board_create l.p0.1 l.p0.2 s) l.p1.1 l.p1.2 s)
    l.p2.1 l.p2.2 s

/-- What one line contributes to the scan of `board_get_winner`: its symbol when
the line is complete. -/
def lineResult (b : Board) (l : Line) : Option Sym :=
  if lineComplete b l then some (board_get_sym b l.p0.1 l.p0.2) else none

/-- Scenario B of the specification: `X X _ / O O _ / _ _ _`. -/
def scenarioB : Board := mk9 1 1 0 2 2 0 0 0 0

/-- Scenario D of the specification: `X O X / O X O / O X O`. -/
def scenarioD : Board := mk9 1 2 1 2 1 2 2 1 2

/-- A board with one X, at row 1, column 2. -/
def boardX12 : Board := mk9 0 0 0 0 0 1 0 0 0

/-! ## Vocabulary for the solver's loops -/

/-- One iteration of the solver's double loop at the cell `rc` with accumulator
`acc` (the pair `move`, `value` of the C code): `possible rc` is the test
`board_move_is_possible`, `child rc` the result of the recursive call on the
board with `rc` played, and `better new old` the comparison `new_value > value`
(maximizing branch) or `new_value < value` (minimizing branch). -/
def scanStep (better : Int → Int → Bool) (possible : Int × Int → Bool)
    (child : Int × Int → Option ScoredMove) (acc : ScoredMove) (rc : Int × Int) :
    Option ScoredMove :=
  if !possible rc then some acc
  else (child rc).bind fun res =>
    if better res.score acc.score then some ⟨move_create rc.1 rc.2, res.score⟩ else some acc

/-- The test `board_move_is_possible(board, r, c)` at the cell `rc`. -/
def possibleAt (b : Board) (rc : Int × Int) : Bool :=
  board_move_is_possible b rc.1 rc.2

/-- The recursive call of `get_best_move_and_score` for the cell `rc`: the
solver run on the board with `sym` played at `rc`, the other symbol to move. -/
def childResult (fuel : Nat) (b : Board) (sym m : Sym) (rc : Int × Int) : Option ScoredMove :=
  get_best_move_and_score fuel (board_set_sym b rc.1 rc.2 sym) (sym_invert sym) m
/-! ## Legal play -/

/-- The legal game states reachable from the empty board, each with the symbol
that moves next: either player may start, the players alternate, a move puts
the mover's symbol on an Empty cell, and no move is made once there is a winner
or the board is full. -/
inductive LegalState : Board → Sym → Prop
  | start (p : Sym) (hp : isPlayer p) : LegalState board_create p
  | move (b : Board) (p : Sym) (r c : Int) (h : LegalState b p)
      (hw : board_get_winner b = SYM_EMPTY) (hf : board_is_full b = false)
      (hr : inRange r) (hc : inRange c) (he : board_get_sym b r c = SYM_EMPTY) :
      LegalState (board_set_sym b r c p) (sym_invert p)

/-- The symbol a line holds: the content of its first cell. -/
def lineSym (b : Board) (l : Line) : Sym := board_get_sym b l.p0.1 l.p0.2

/-- The result of the winner scan for an arbitrary order `ls` of the lines: the
symbol of the first complete line, Empty if there is none. -/
def scanWinner (b : Board) (ls : List Line) : Sym :=
  ((ls.find? (fun l => decide (lineComplete b l))).map (lineSym b)).getD SYM_EMPTY

/-- A legal final position with two complete lines: `X X X / X O O / X O O`. -/
def twoLinesBoard : Board := mk9 1 1 1 1 2 2 1 2 2

/-! ## The generator as the specification describes it -/

/-- The opening of an emitted turn: the retry loop and the input-acquisition
marker. -/
def turnOpen : List PrintfCall :=
  [emit "while (1) \x7b\n", emit "input = get_input();\n"]

/-- The default branch of an emitted turn and the closing of its retry loop. -/
def turnDefault : List PrintfCall :=
  [emit "else \x7b\n", emit "    printf(\"Move is not possible\\n\");\n",
   emit "    continue;\n", emit "\x7d\n", emit "\x7d\n"]

/-- The branch of the else-if chain for the cell `rc`, following the words of
the specification (`emitTurn`, step 2): the key of the branch; for an occupied
cell "move not possible" and `continue`; otherwise the rendering of
`userBoard`, the announcement of `bestMove(userBoard, autoSymbol, autoSymbol)`,
the rendering of `autoBoard`, then by the outcome of `autoBoard` one of the
three literals or the nested turn for `autoBoard`; and the branch terminator. -/
def specBranch (nested : Board → Option (List PrintfCall)) (solverFuel : Nat)
    (board : Board) (autoSymbol : Sym) (rc : Int × Int) : Option (List PrintfCall) :=
  let key := (if rc = (0, 0) then [] else [emit "else "]) ++ [emitIf rc.1 rc.2]
  if board_get_sym board rc.1 rc.2 ≠ SYM_EMPTY then
    some (key ++ [emit "    printf(\"Move is not possible\\n\");\n", emit "    continue;\n",
      emit "\x7d\n"])
  else
    let userBoard := board_set_sym board rc.1 rc.2 (sym_invert autoSymbol)
    match get_best_move solverFuel userBoard autoSymbol autoSymbol with
    | none => none
    | some bestMove =>
      let autoBoard := board_set_sym userBoard bestMove.r bestMove.c autoSymbol
      let shown := key ++ generate_board_print userBoard ++ [emitComputerMove bestMove] ++
        generate_board_print autoBoard
      let terminator := [emit "    break;\n", emit "\x7d\n"]
      if board_get_winner_or_tie autoBoard = SYM_INVALID then
        some (shown ++ [emitTie] ++ terminator)
      else if board_get_winner_or_tie autoBoard = autoSymbol then
        some (shown ++ [emitYouLose] ++ terminator)
      else if board_get_winner_or_tie autoBoard = sym_invert autoSymbol then
        some (shown ++ [emitYouWin] ++ terminator)
      else
        (nested autoBoard).map fun out => shown ++ out ++ terminator

/-- The emitted turn as the specification describes it (`emitTurn`): the
opening, the nine branches in row-major order, the default branch and the
closing. -/
def specTurn : Nat → Nat → Board → Sym → Option (List PrintfCall)
  | 0, _, _, _ => none
  | depth + 1, solverFuel, board, autoSymbol =>
    (cells9.mapM (specBranch (fun b => specTurn depth solverFuel b autoSymbol)
        solverFuel board autoSymbol)).map
      fun branches => turnOpen ++ branches.flatten ++ turnDefault

/-! ## The traversal of the generator -/

/-- The board after the human move at `rc`: `user_move_board`. -/
def userBoard (auto : Sym) (b : Board) (rc : Int × Int) : Board :=
  board_set_sym b rc.1 rc.2 (sym_invert auto)

/-- The board after the reply `mv` of the automatic player: `my_move_board`. -/
def autoBoard (auto : Sym) (b : Board) (rc : Int × Int) (mv : Move) : Board :=
  board_set_sym (userBoard auto b rc) mv.r mv.c auto

/-- The guard of the recursive call in `generate_turn`: the outcome is none of
the three values tested before the final `else`. -/
def recurses (a : Board) : Prop :=
  board_get_winner_or_tie a ≠ SYM_INVALID ∧ board_get_winner_or_tie a ≠ SYM_SELF ∧
  board_get_winner_or_tie a ≠ SYM_OPP

instance (a : Board) : Decidable (recurses a) := by
  unfold recurses; infer_instance

/-- The boards on which `generate_turn` is called during its run on a first
board: the first board itself, and the board of each recursive call, made for
an Empty cell `rc` of a board already reached, with the reply `mv` returned by
`get_best_move`, when the outcome after the reply leads to the final `else`. -/
inductive GenReach (solverFuel : Nat) (auto : Sym) : Board → Board → Prop
  | refl (b : Board) : GenReach solverFuel auto b b
  | step (b b2 : Board) (rc : Int × Int) (mv : Move) (hrc : rc ∈ cells9)
      (hp : possibleAt b rc = true)
      (hmv : get_best_move solverFuel (userBoard auto b rc) auto auto = some mv)
      (hrec : recurses (autoBoard auto b rc mv))
      (h : GenReach solverFuel auto (autoBoard auto b rc mv) b2) :
      GenReach solverFuel auto b b2

/-- The board of the traversal from the empty board on which the human fills
the last Empty cell: `O O X / X X O / O X _`. -/
def lastCellBoard : Board := mk9 2 2 1 1 1 2 2 1 0

/-- A board on which, with Opponent as the automatic player, both Empty cells
end the game: `O O _ / X X O / X O _`. -/
def oppAutoBoard : Board := mk9 2 2 0 1 1 2 1 2 0

/-- The key of the branch for the cell `(r, c)`: `else ` unless the iteration is
the first, and the `if` on the coordinates. -/
def branchHead (is_first_iter : Bool) (r c : Int) : List PrintfCall :=
  (if !is_first_iter then [emit "else "] else []) ++ [emitIf r c]

/-- The terminator of a branch that plays a move. -/
def branchClose : List PrintfCall := [emit "    break;\n", emit "\x7d\n"]

/-- The branch emitted for an occupied cell. -/
def branchOccupied (is_first_iter : Bool) (r c : Int) : List PrintfCall :=
  branchHead is_first_iter r c ++
    [emit "    printf(\"Move is not possible\\n\");\n", emit "    continue;\n"] ++
    [emit "\x7d\n"]

/-- What a branch that plays a move emits before its outcome: the key, the
rendering of the user board, the announcement of the reply, the rendering of
the board after the reply. -/
def branchShown (auto : Sym) (b : Board) (is_first_iter : Bool) (rc : Int × Int)
    (mv : Move) : List PrintfCall :=
  branchHead is_first_iter rc.1 rc.2 ++ generate_board_print (userBoard auto b rc) ++
    [emitComputerMove mv] ++ generate_board_print (autoBoard auto b rc mv)

/-- What `generate_turn` emits for the outcome of the board `a` after the
reply: one of the three literals, or the nested turn. -/
def branchOutcome (nested : Board → Option (List PrintfCall)) (a : Board) :
    Option (List PrintfCall) :=
  if board_get_winner_or_tie a = SYM_INVALID then some [emitTie]
  else if board_get_winner_or_tie a = SYM_SELF then some [emitYouLose]
  else if board_get_winner_or_tie a = SYM_OPP then some [emitYouWin]
  else nested a

/-- No branch of `generate_turn` on the board `b`, run with Self as the
automatic player, ends with Opponent as the winner: for every Empty cell and
the reply the solver returns for it, the outcome after the reply is not
Opponent. -/
def noOpponentWin (solverFuel : Nat) (b : Board) : Prop :=
  ∀ rc ∈ cells9, possibleAt b rc = true →
    ∀ mv, get_best_move solverFuel (userBoard SYM_SELF b rc) SYM_SELF SYM_SELF = some mv →
      board_get_winner_or_tie (autoBoard SYM_SELF b rc mv) ≠ SYM_OPP

/-! ## Rendered text -/

/-- The text printed by a sequence of `printf` calls whose formats hold no
conversion: the characters of the formats, one call after the other. -/
def printedText (calls : List PrintfCall) : List Char :=
  calls.flatMap fun call => call.fmt.data

/-- One character of C source read by `runStatements`. The mode is the position
in the statement `printf("…");` followed by a newline: 0 to 7 inside the opening
`printf("`, 8 inside the string literal, 9 after a backslash in the literal, 10
to 12 for `)`, `;` and the newline. The result is the next mode and the
characters printed: a character of the literal prints itself, and the escapes
`\n`, `\\` and `\"` print a newline, a backslash and a quote. -/
def stepChar (mode : Nat) (c : Char) : Option (Nat × List Char) :=
  match mode with
  | 0 => if c = 'p' then some (1, []) else none
  | 1 => if c = 'r' then some (2, []) else none
  | 2 => if c = 'i' then some (3, []) else none
  | 3 => if c = 'n' then some (4, []) else none
  | 4 => if c = 't' then some (5, []) else none
  | 5 => if c = 'f' then some (6, []) else none
  | 6 => if c = '(' then some (7, []) else none
  | 7 => if c = '"' then some (8, []) else none
  | 8 => if c = '"' then some (10, []) else if c = '\\' then some (9, []) else some (8, [c])
  | 9 =>
    if c = 'n' then some (8, ['\n']) else if c = '\\' then some (8, ['\\'])
    else if c = '"' then some (8, ['"']) else none
  | 10 => if c = ')' then some (11, []) else none
  | 11 => if c = ';' then some (12, []) else none
  | 12 => if c = '\n' then some (0, []) else none
  | _ => none

/-- The text printed by C source made of statements `printf("…");`, each
followed by a newline, read from the given mode; `none` when the source is not
of that form. -/
def runStatements (mode : Nat) : List Char → Option (List Char)
  | [] => if mode = 0 then some [] else none
  | c :: cs =>
    match stepChar mode c with
    | none => none
    | some (mode2, printed) => (runStatements mode2 cs).map fun rest => printed ++ rest

/-- Reading a piece of C source: the mode reached and the characters printed. -/
def runPiece (mode : Nat) : List Char → Option (Nat × List Char)
  | [] => some (mode, [])
  | c :: cs =>
    match stepChar mode c with
    | none => none
    | some (mode2, printed) =>
      (runPiece mode2 cs).map fun res => (res.1, printed ++ res.2)

/-- A cell as the specification renders it: blank for Empty, `X` for Self, `O`
for Opponent. -/
def specCell (s : Sym) : List Char :=
  if s = SYM_SELF then ['X'] else if s = SYM_OPP then ['O'] else [' ']

/-- A row as the specification renders it: the three cells separated by `|`. -/
def specRow (b : Board) (r : Int) : List Char :=
  specCell (board_get_sym b r 0) ++ ['|'] ++ specCell (board_get_sym b r 1) ++ ['|'] ++
    specCell (board_get_sym b r 2) ++ ['\n']

/-- The board rendering of the specification: three rows, with one `-+-+-`
separator row between each pair of rows. -/
def specRendering (b : Board) : List Char :=
  specRow b 0 ++ "-+-+-\n".data ++ specRow b 1 ++ "-+-+-\n".data ++ specRow b 2

/-- A cell as the emitted statements print it. -/
def genCell (s : Sym) : List Char :=
  if s = SYM_SELF then [' ', 'X', ' '] else if s = SYM_OPP then [' ', 'O', ' ']
  else [' ', '-', ' ']

/-- A row as the emitted statements print it: the three cells, unseparated. -/
def genRow (b : Board) (r : Int) : List Char :=
  genCell (board_get_sym b r 0) ++ genCell (board_get_sym b r 1) ++
    genCell (board_get_sym b r 2) ++ ['\n']

/-- The board as the emitted statements print it: three rows, no separator
row. -/
def genRendering (b : Board) : List Char :=
  genRow b 0 ++ genRow b 1 ++ genRow b 2

/-! ## An evaluation-friendly form of the solver

`fastSolve` is `get_best_move_and_score` on a board given by its nine cells,
written without coordinate arithmetic so that it evaluates quickly. It is a
proof device: `fastSolve_eq` proves it equal to the solver on `mk9`. -/

/-- Evaluate the symbol `s` before handing it to `k`; equal to `k s`. -/
def forceSym {α : Type} (s : Sym) (k : Sym → α) : α :=
  if s = 0 then k 0 else if s = 1 then k 1 else if s = 2 then k 2 else k s

/-- The winner of the board with cells `a0 … a8`: the eight line tests of
`board_get_winner` in its scan order. -/
def winner9 (a0 a1 a2 a3 a4 a5 a6 a7 a8 : Sym) : Sym :=
  if a0 ≠ SYM_EMPTY ∧ a1 = a0 ∧ a2 = a0 then a0 else
  if a3 ≠ SYM_EMPTY ∧ a4 = a3 ∧ a5 = a3 then a3 else
  if a6 ≠ SYM_EMPTY ∧ a7 = a6 ∧ a8 = a6 then a6 else
  if a0 ≠ SYM_EMPTY ∧ a3 = a0 ∧ a6 = a0 then a0 else
  if a1 ≠ SYM_EMPTY ∧ a4 = a1 ∧ a7 = a1 then a1 else
  if a2 ≠ SYM_EMPTY ∧ a5 = a2 ∧ a8 = a2 then a2 else
  if a0 ≠ SYM_EMPTY ∧ a4 = a0 ∧ a8 = a0 then a0 else
  if a2 ≠ SYM_EMPTY ∧ a4 = a2 ∧ a6 = a2 then a2 else
  SYM_EMPTY

/-- Whether the board with cells `a0 … a8` has no Empty cell. -/
def full9 (a0 a1 a2 a3 a4 a5 a6 a7 a8 : Sym) : Bool :=
  !(decide (a0 = SYM_EMPTY) || decide (a1 = SYM_EMPTY) || decide (a2 = SYM_EMPTY) ||
    decide (a3 = SYM_EMPTY) || decide (a4 = SYM_EMPTY) || decide (a5 = SYM_EMPTY) ||
    decide (a6 = SYM_EMPTY) || decide (a7 = SYM_EMPTY) || decide (a8 = SYM_EMPTY))

/-- One iteration of the maximizing loop, at a cell given by its content, its
coordinates and the result of the recursive call for it. -/
def stepMax (cell : Sym) (mv : Move) (child : Option ScoredMove) (acc : ScoredMove) :
    Option ScoredMove :=
  if cell = SYM_EMPTY then
    child.bind fun res => if res.score > acc.score then some ⟨mv, res.score⟩ else some acc
  else some acc

/-- One iteration of the minimizing loop. -/
def stepMin (cell : Sym) (mv : Move) (child : Option ScoredMove) (acc : ScoredMove) :
    Option ScoredMove :=
  if cell = SYM_EMPTY then
    child.bind fun res => if res.score < acc.score then some ⟨mv, res.score⟩ else some acc
  else some acc

/-- The solver on the board with cells `a0 … a8`. -/
def fastSolve : Nat → Sym → Sym → Sym → Sym → Sym → Sym → Sym → Sym → Sym → Sym → Sym →
    Option ScoredMove
  | 0, _, _, _, _, _, _, _, _, _, _, _ => none
  | fuel + 1, a0, a1, a2, a3, a4, a5, a6, a7, a8, sym, m =>
    let winner := winner9 a0 a1 a2 a3 a4 a5 a6 a7 a8
    if winner = m then some ⟨MOVE_INVALID, 1⟩
    else if winner = sym_invert m then some ⟨MOVE_INVALID, -1⟩
    else if full9 a0 a1 a2 a3 a4 a5 a6 a7 a8 then some ⟨MOVE_INVALID, 0⟩
    else forceSym (sym_invert sym) fun nxt =>
      if sym = m then
        (some (⟨MOVE_INVALID, INT_MIN⟩ : ScoredMove))
          |>.bind (stepMax a0 ⟨0, 0⟩ (fastSolve fuel sym a1 a2 a3 a4 a5 a6 a7 a8 nxt m))
          |>.bind (stepMax a1 ⟨0, 1⟩ (fastSolve fuel a0 sym a2 a3 a4 a5 a6 a7 a8 nxt m))
          |>.bind (stepMax a2 ⟨0, 2⟩ (fastSolve fuel a0 a1 sym a3 a4 a5 a6 a7 a8 nxt m))
          |>.bind (stepMax a3 ⟨1, 0⟩ (fastSolve fuel a0 a1 a2 sym a4 a5 a6 a7 a8 nxt m))
          |>.bind (stepMax a4 ⟨1, 1⟩ (fastSolve fuel a0 a1 a2 a3 sym a5 a6 a7 a8 nxt m))
          |>.bind (stepMax a5 ⟨1, 2⟩ (fastSolve fuel a0 a1 a2 a3 a4 sym a6 a7 a8 nxt m))
          |>.bind (stepMax a6 ⟨2, 0⟩ (fastSolve fuel a0 a1 a2 a3 a4 a5 sym a7 a8 nxt m))
          |>.bind (stepMax a7 ⟨2, 1⟩ (fastSolve fuel a0 a1 a2 a3 a4 a5 a6 sym a8 nxt m))
          |>.bind (stepMax a8 ⟨2, 2⟩ (fastSolve fuel a0 a1 a2 a3 a4 a5 a6 a7 sym nxt m))
      else
        (some (⟨MOVE_INVALID, INT_MAX⟩ : ScoredMove))
          |>.bind (stepMin a0 ⟨0, 0⟩ (fastSolve fuel sym a1 a2 a3 a4 a5 a6 a7 a8 nxt m))
          |>.bind (stepMin a1 ⟨0, 1⟩ (fastSolve fuel a0 sym a2 a3 a4 a5 a6 a7 a8 nxt m))
          |>.bind (stepMin a2 ⟨0, 2⟩ (fastSolve fuel a0 a1 sym a3 a4 a5 a6 a7 a8 nxt m))
          |>.bind (stepMin a3 ⟨1, 0⟩ (fastSolve fuel a0 a1 a2 sym a4 a5 a6 a7 a8 nxt m))
          |>.bind (stepMin a4 ⟨1, 1⟩ (fastSolve fuel a0 a1 a2 a3 sym a5 a6 a7 a8 nxt m))
          |>.bind (stepMin a5 ⟨1, 2⟩ (fastSolve fuel a0 a1 a2 a3 a4 sym a6 a7 a8 nxt m))
          |>.bind (stepMin a6 ⟨2, 0⟩ (fastSolve fuel a0 a1 a2 a3 a4 a5 sym a7 a8 nxt m))
          |>.bind (stepMin a7 ⟨2, 1⟩ (fastSolve fuel a0 a1 a2 a3 a4 a5 a6 sym a8 nxt m))
          |>.bind (stepMin a8 ⟨2, 2⟩ (fastSolve fuel a0 a1 a2 a3 a4 a5 a6 a7 sym nxt m))

/-! ## An evaluation-friendly check of the generator's traversal

`fastTraverse` walks the boards on which `generate_turn` is called, on boards
given by their nine cells, and checks that no branch ends with Opponent as the
winner. It is a proof device: `fastTraverse_sound` relates it to `GenReach`. -/

/-- Apply `k` to the nine cells `a0 … a8` with the cell of flat index `idx`
replaced by `s`; the cells are unchanged when `idx` is outside `[0, 8]`. -/
def withSet9 {α : Type} (k : Sym → Sym → Sym → Sym → Sym → Sym → Sym → Sym → Sym → α)
    (a0 a1 a2 a3 a4 a5 a6 a7 a8 : Sym) (idx : Int) (s : Sym) : α :=
  if idx = 0 then k s a1 a2 a3 a4 a5 a6 a7 a8
  else if idx = 1 then k a0 s a2 a3 a4 a5 a6 a7 a8
  else if idx = 2 then k a0 a1 s a3 a4 a5 a6 a7 a8
  else if idx = 3 then k a0 a1 a2 s a4 a5 a6 a7 a8
  else if idx = 4 then k a0 a1 a2 a3 s a5 a6 a7 a8
  else if idx = 5 then k a0 a1 a2 a3 a4 s a6 a7 a8
  else if idx = 6 then k a0 a1 a2 a3 a4 a5 s a7 a8
  else if idx = 7 then k a0 a1 a2 a3 a4 a5 a6 s a8
  else if idx = 8 then k a0 a1 a2 a3 a4 a5 a6 a7 s
  else k a0 a1 a2 a3 a4 a5 a6 a7 a8

/-- The check of one branch of the traversal, for the board `u0 … u8` reached
by the human move: the solver's reply is played for Self; the branch fails when
Opponent has won, ends when Self has won or the game is tied, and otherwise
continues with `next` on the board after the reply. -/
def fastBranch (next : Sym → Sym → Sym → Sym → Sym → Sym → Sym → Sym → Sym → Bool)
    (u0 u1 u2 u3 u4 u5 u6 u7 u8 : Sym) : Bool :=
  match fastSolve 10 u0 u1 u2 u3 u4 u5 u6 u7 u8 1 1 with
  | none => false
  | some sm =>
    withSet9 (fun c0 c1 c2 c3 c4 c5 c6 c7 c8 =>
      if winner9 c0 c1 c2 c3 c4 c5 c6 c7 c8 = 2 then false
      else if winner9 c0 c1 c2 c3 c4 c5 c6 c7 c8 = 1 then true
      else if winner9 c0 c1 c2 c3 c4 c5 c6 c7 c8 = 0 ∧
          full9 c0 c1 c2 c3 c4 c5 c6 c7 c8 = true then true
      else next c0 c1 c2 c3 c4 c5 c6 c7 c8)
      u0 u1 u2 u3 u4 u5 u6 u7 u8 (sm.move.r * 3 + sm.move.c) 1

/-- The check of the traversal of `generate_turn` from the board `a0 … a8` with
Self as the automatic player: every Empty cell is tried as the human move. -/
def fastTraverse : Nat → Sym → Sym → Sym → Sym → Sym → Sym → Sym → Sym → Sym → Bool
  | 0, _, _, _, _, _, _, _, _, _ => false
  | d + 1, a0, a1, a2, a3, a4, a5, a6, a7, a8 =>
    (if a0 = 0 then fastBranch (fastTraverse d) 2 a1 a2 a3 a4 a5 a6 a7 a8 else true) &&
    (if a1 = 0 then fastBranch (fastTraverse d) a0 2 a2 a3 a4 a5 a6 a7 a8 else true) &&
    (if a2 = 0 then fastBranch (fastTraverse d) a0 a1 2 a3 a4 a5 a6 a7 a8 else true) &&
    (if a3 = 0 then fastBranch (fastTraverse d) a0 a1 a2 2 a4 a5 a6 a7 a8 else true) &&
    (if a4 = 0 then fastBranch (fastTraverse d) a0 a1 a2 a3 2 a5 a6 a7 a8 else true) &&
    (if a5 = 0 then fastBranch (fastTraverse d) a0 a1 a2 a3 a4 2 a6 a7 a8 else true) &&
    (if a6 = 0 then fastBranch (fastTraverse d) a0 a1 a2 a3 a4 a5 2 a7 a8 else true) &&
    (if a7 = 0 then fastBranch (fastTraverse d) a0 a1 a2 a3 a4 a5 a6 2 a8 else true) &&
    (if a8 = 0 then fastBranch (fastTraverse d) a0 a1 a2 a3 a4 a5 a6 a7 2 else true)

/-! ## Basic facts about boards -/

theorem board_get_sym_of_index (b : Board) (r c : Int)
    (h : 0 ≤ r * 3 + c ∧ r * 3 + c < 9) :
    board_get_sym b r c = b.cells ⟨(r * 3 + c).toNat, by omega⟩ := by
  have hn : ¬ (r * BOARD_SIZE + c < 0 ∨ r * BOARD_SIZE + c ≥ BOARD_SIZE_SQ) := by
    simp only [BOARD_SIZE_SQ, BOARD_SIZE]; omega
  simp only [board_get_sym, dif_neg hn]

theorem board_set_sym_of_index (b : Board) (r c : Int) (s : Sym)
    (h : 0 ≤ r * 3 + c ∧ r * 3 + c < 9) :
    board_set_sym b r c s = ⟨Function.update b.cells ⟨(r * 3 + c).toNat, by omega⟩ s⟩ := by
  have hn : ¬ (r * BOARD_SIZE + c < 0 ∨ r * BOARD_SIZE + c ≥ BOARD_SIZE_SQ) := by
    simp only [BOARD_SIZE_SQ, BOARD_SIZE]; omega
  simp only [board_set_sym, board_set_sym_mut, board_clone, dif_neg hn]

theorem index_of_inRange {r c : Int} (hr : inRange r) (hc : inRange c) :
    0 ≤ r * 3 + c ∧ r * 3 + c < 9 := by
  unfold inRange at hr hc; omega

theorem mem_cells9_iff (rc : Int × Int) : rc ∈ cells9 ↔ inRange rc.1 ∧ inRange rc.2 := by
  obtain ⟨r, c⟩ := rc
  constructor
  · intro h
    simp only [cells9, List.mem_cons, List.mem_singleton, List.not_mem_nil, or_false,
      Prod.mk.injEq] at h
    unfold inRange
    omega
  · rintro ⟨⟨h1, h2⟩, h3, h4⟩
    simp only [cells9, List.mem_cons, List.mem_singleton, List.not_mem_nil, or_false,
      Prod.mk.injEq]
    omega

/-- C6: for in-range coordinates, reading back the cell just set by
`board_set_sym` gives the symbol written, every other in-range cell reads as on
the original board, and the receiver is left unchanged. -/
theorem board_set_sym_get (b : Board) (s : Sym) (r c r2 c2 : Int)
    (hr : inRange r) (hc : inRange c) (hr2 : inRange r2) (hc2 : inRange c2) :
    board_get_sym (board_set_sym b r c s) r c = s ∧
    ((r2, c2) ≠ (r, c) →
      board_get_sym (board_set_sym b r c s) r2 c2 = board_get_sym b r2 c2) ∧
    board_set_sym_receiver b r c s = b := by
  have h1 := index_of_inRange hr hc
  have h2 := index_of_inRange hr2 hc2
  refine ⟨?_, ?_, rfl⟩
  · rw [board_set_sym_of_index b r c s h1, board_get_sym_of_index _ r c h1]
    exact Function.update_same _ _ _
  · intro hne
    rw [board_set_sym_of_index b r c s h1, board_get_sym_of_index _ r2 c2 h2,
      board_get_sym_of_index b r2 c2 h2]
    apply Function.update_noteq
    intro h
    apply hne
    have hv := Fin.mk.inj h
    unfold inRange at hr hc hr2 hc2
    have hrr : r2 = r := by omega
    have hcc : c2 = c := by omega
    rw [hrr, hcc]

theorem board_set_sym_get_witness :
    board_get_sym (board_set_sym scenarioB 0 2 SYM_SELF) 0 2 = SYM_SELF ∧
    ((1, 1) ≠ ((0 : Int), (2 : Int)) →
      board_get_sym (board_set_sym scenarioB 0 2 SYM_SELF) 1 1 = board_get_sym scenarioB 1 1) ∧
    board_set_sym_receiver scenarioB 0 2 SYM_SELF = scenarioB :=
  board_set_sym_get scenarioB SYM_SELF 0 2 1 1 (by decide) (by decide) (by decide) (by decide)

/-- C7: at row 0, column 5 (column out of range) `board_get_sym` does not
return `SYM_INVALID`: the flat index 5 passes the guard and the content of
cell (1, 2) is returned. -/
theorem board_get_sym_column_out_of_range :
    ¬ inRange 5 ∧ board_get_sym boardX12 0 5 = SYM_SELF ∧
    board_get_sym boardX12 0 5 ≠ SYM_INVALID ∧
    board_get_sym boardX12 0 5 = board_get_sym boardX12 1 2 := by
  decide

/-- C8: at row 0, column 5 (column out of range) `board_set_sym` is not a
no-op: the flat index 5 passes the guard and cell (1, 2) is overwritten. -/
theorem board_set_sym_column_out_of_range :
    ¬ inRange 5 ∧ board_get_sym board_create 1 2 = SYM_EMPTY ∧
    board_get_sym (board_set_sym board_create 0 5 SYM_SELF) 1 2 = SYM_SELF ∧
    board_set_sym board_create 0 5 SYM_SELF ≠ board_create := by
  refine ⟨by decide, by decide, by decide, ?_⟩
  intro h
  have h2 : board_get_sym (board_set_sym board_create 0 5 SYM_SELF) 1 2 =
      board_get_sym board_create 1 2 := by rw [h]
  revert h2
  decide

/-! ## Win detection -/

theorem get_0_0 (b : Board) : board_get_sym b 0 0 = b.cells 0 := rfl
theorem get_0_1 (b : Board) : board_get_sym b 0 1 = b.cells 1 := rfl
theorem get_0_2 (b : Board) : board_get_sym b 0 2 = b.cells 2 := rfl
theorem get_1_0 (b : Board) : board_get_sym b 1 0 = b.cells 3 := rfl
theorem get_1_1 (b : Board) : board_get_sym b 1 1 = b.cells 4 := rfl
theorem get_1_2 (b : Board) : board_get_sym b 1 2 = b.cells 5 := rfl
theorem get_2_0 (b : Board) : board_get_sym b 2 0 = b.cells 6 := rfl
theorem get_2_1 (b : Board) : board_get_sym b 2 1 = b.cells 7 := rfl
theorem get_2_2 (b : Board) : board_get_sym b 2 2 = b.cells 8 := rfl

theorem forall_fin9 (p : Fin 9 → Prop) :
    (∀ i, p i) ↔ p 0 ∧ p 1 ∧ p 2 ∧ p 3 ∧ p 4 ∧ p 5 ∧ p 6 ∧ p 7 ∧ p 8 := by
  constructor
  · intro h
    exact ⟨h 0, h 1, h 2, h 3, h 4, h 5, h 6, h 7, h 8⟩
  · rintro ⟨h0, h1, h2, h3, h4, h5, h6, h7, h8⟩ i
    fin_cases i
    · exact h0
    · exact h1
    · exact h2
    · exact h3
    · exact h4
    · exact h5
    · exact h6
    · exact h7
    · exact h8

theorem checkLine_eq_lineResult (b : Board) (l : Line) (rest : Int → Sym)
    (h1 : rest 1 = board_get_sym b l.p1.1 l.p1.2) (h2 : rest 2 = board_get_sym b l.p2.1 l.p2.2) :
    checkLine (board_get_sym b l.p0.1 l.p0.2) rest = lineResult b l := by
  simp only [checkLine, lineResult, lineComplete, loopFrom1, List.all_cons, List.all_nil,
    Bool.and_true, Bool.and_eq_true, decide_eq_true_eq, h1, h2]
  by_cases h0 : board_get_sym b l.p0.1 l.p0.2 = SYM_EMPTY
  · simp [h0]
  · simp [h0]

theorem board_get_winner_eq_findSome (b : Board) :
    board_get_winner b = (winLines.findSome? (lineResult b)).getD SYM_EMPTY := by
  have hrow : ∀ r : Int, checkLine (board_get_sym b r 0) (fun c => board_get_sym b r c) =
      lineResult b ⟨(r, 0), (r, 1), (r, 2)⟩ :=
    fun r => checkLine_eq_lineResult b ⟨(r, 0), (r, 1), (r, 2)⟩ _ rfl rfl
  have hcol : ∀ c : Int, checkLine (board_get_sym b 0 c) (fun r => board_get_sym b r c) =
      lineResult b ⟨(0, c), (1, c), (2, c)⟩ :=
    fun c => checkLine_eq_lineResult b ⟨(0, c), (1, c), (2, c)⟩ _ rfl rfl
  have hd1 : checkLine (board_get_sym b 0 0) (fun i => board_get_sym b i i) =
      lineResult b ⟨(0, 0), (1, 1), (2, 2)⟩ :=
    checkLine_eq_lineResult b ⟨(0, 0), (1, 1), (2, 2)⟩ _ rfl rfl
  have hd2 : checkLine (board_get_sym b 0 (BOARD_SIZE - 1))
      (fun i => board_get_sym b i (BOARD_SIZE - 1 - i)) =
      lineResult b ⟨(0, 2), (1, 1), (2, 0)⟩ :=
    checkLine_eq_lineResult b ⟨(0, 2), (1, 1), (2, 0)⟩ _ rfl rfl
  simp only [board_get_winner, winLines, List.findSome?, loopFrom0, hrow, hcol, hd1, hd2]
  cases lineResult b ⟨(0, 0), (0, 1), (0, 2)⟩ <;>
  cases lineResult b ⟨(1, 0), (1, 1), (1, 2)⟩ <;>
  cases lineResult b ⟨(2, 0), (2, 1), (2, 2)⟩ <;>
  cases lineResult b ⟨(0, 0), (1, 0), (2, 0)⟩ <;>
  cases lineResult b ⟨(0, 1), (1, 1), (2, 1)⟩ <;>
  cases lineResult b ⟨(0, 2), (1, 2), (2, 2)⟩ <;>
  cases lineResult b ⟨(0, 0), (1, 1), (2, 2)⟩ <;>
  cases lineResult b ⟨(0, 2), (1, 1), (2, 0)⟩ <;> rfl

theorem findSome_ite {α β : Type} (p : α → Prop) [DecidablePred p] (f : α → β) (l : List α) :
    l.findSome? (fun a => if p a then some (f a) else none) =
      (l.find? (fun a => decide (p a))).map f := by
  induction l with
  | nil => rfl
  | cons a t ih =>
    by_cases h : p a
    · simp [List.findSome?, List.find?, h]
    · simp [List.findSome?, List.find?, h, ih]

theorem board_get_winner_eq_find (b : Board) :
    board_get_winner b =
      ((winLines.find? (fun l => decide (lineComplete b l))).map
        (fun l => board_get_sym b l.p0.1 l.p0.2)).getD SYM_EMPTY := by
  rw [board_get_winner_eq_findSome]
  unfold lineResult
  rw [findSome_ite]

/-- C9: `board_get_winner` returns Empty iff none of the eight lines is
complete; otherwise it returns the symbol of the first complete line in the
scan order rows, columns, main diagonal, anti-diagonal; and the board with
exactly one line filled with a player symbol `s` has winner `s`. -/
theorem board_get_winner_spec (b : Board) :
    (board_get_winner b = SYM_EMPTY ↔ ∀ l ∈ winLines, ¬ lineComplete b l) ∧
    (∀ l, winLines.find? (fun l => decide (lineComplete b l)) = some l →
      board_get_winner b = board_get_sym b l.p0.1 l.p0.2) ∧
    (∀ l ∈ winLines, ∀ s : Sym, isPlayer s → board_get_winner (lineBoard l s) = s) := by
  refine ⟨?_, ?_, ?_⟩
  · rw [board_get_winner_eq_find]
    cases hf : winLines.find? (fun l => decide (lineComplete b l)) with
    | none =>
      simp only [Option.map_none', Option.getD_none, true_iff]
      intro l hl
      have := List.find?_eq_none.mp hf l hl
      simpa using this
    | some l =>
      have hc : lineComplete b l := by simpa using List.find?_some hf
      have hm : l ∈ winLines := List.mem_of_find?_eq_some hf
      simp only [Option.map_some', Option.getD_some]
      constructor
      · intro h; exact absurd h hc.1
      · intro h; exact absurd hc (h l hm)
  · intro l hl
    rw [board_get_winner_eq_find, hl]
    rfl
  · intro l hl s hs
    simp only [winLines, List.mem_cons, List.mem_singleton, List.not_mem_nil, or_false] at hl
    rcases hl with rfl | rfl | rfl | rfl | rfl | rfl | rfl | rfl <;>
      rcases hs with rfl | rfl <;> decide

theorem board_get_winner_spec_witness :
    board_get_winner (lineBoard ⟨(0, 2), (1, 1), (2, 0)⟩ SYM_OPP) = SYM_OPP :=
  (board_get_winner_spec board_create).2.2 ⟨(0, 2), (1, 1), (2, 0)⟩ (by decide) SYM_OPP
    (by decide)

theorem board_get_winner_valid (b : Board) (hv : validBoard b) :
    board_get_winner b = SYM_EMPTY ∨ isPlayer (board_get_winner b) := by
  rw [board_get_winner_eq_find]
  cases hf : winLines.find? (fun l => decide (lineComplete b l)) with
  | none => left; rfl
  | some l =>
    have hc : lineComplete b l := by simpa using List.find?_some hf
    have hm : l ∈ winLines := List.mem_of_find?_eq_some hf
    simp only [Option.map_some', Option.getD_some]
    right
    have h0 := hc.1
    simp only [winLines, List.mem_cons, List.mem_singleton, List.not_mem_nil, or_false] at hm
    unfold isPlayer
    rcases hm with rfl | rfl | rfl | rfl | rfl | rfl | rfl | rfl
    · have := hv 0; simp only [get_0_0] at h0 ⊢; tauto
    · have := hv 3; simp only [get_1_0] at h0 ⊢; tauto
    · have := hv 6; simp only [get_2_0] at h0 ⊢; tauto
    · have := hv 0; simp only [get_0_0] at h0 ⊢; tauto
    · have := hv 1; simp only [get_0_1] at h0 ⊢; tauto
    · have := hv 2; simp only [get_0_2] at h0 ⊢; tauto
    · have := hv 0; simp only [get_0_0] at h0 ⊢; tauto
    · have := hv 2; simp only [get_0_2] at h0 ⊢; tauto

theorem board_is_full_iff (b : Board) :
    board_is_full b = true ↔ ∀ i : Fin 9, b.cells i ≠ SYM_EMPTY := by
  rw [forall_fin9]
  simp only [board_is_full, loopFrom0, List.any_cons, List.any_nil, Bool.or_false,
    get_0_0, get_0_1, get_0_2, get_1_0, get_1_1, get_1_2, get_2_0, get_2_1, get_2_2,
    Bool.not_eq_true', Bool.or_eq_false_iff, decide_eq_false_iff_not, ne_eq]
  tauto

/-- C10: on a board of Empty/Self/Opponent cells, `board_get_winner_or_tie`
returns the Tie sentinel iff there is no winner and the board is full (no cell
Empty), returns Empty iff there is no winner and some cell is Empty, and
otherwise returns the winning player symbol; the three kinds of result are
distinct values. Scenario D has no winner, is full, and its outcome is Tie. -/
theorem board_get_winner_or_tie_spec (b : Board) (hv : validBoard b) :
    (board_get_winner_or_tie b = SYM_INVALID ↔
      board_get_winner b = SYM_EMPTY ∧ board_is_full b = true) ∧
    (board_is_full b = true ↔ ∀ i : Fin 9, b.cells i ≠ SYM_EMPTY) ∧
    (board_get_winner_or_tie b = SYM_EMPTY ↔
      board_get_winner b = SYM_EMPTY ∧ ∃ i : Fin 9, b.cells i = SYM_EMPTY) ∧
    (board_get_winner_or_tie b ≠ SYM_INVALID → board_get_winner_or_tie b ≠ SYM_EMPTY →
      board_get_winner_or_tie b = board_get_winner b ∧ isPlayer (board_get_winner b)) ∧
    (board_get_winner_or_tie b = SYM_INVALID ∨ board_get_winner_or_tie b = SYM_EMPTY ∨
      isPlayer (board_get_winner_or_tie b)) ∧
    (board_get_winner scenarioD = SYM_EMPTY ∧ board_is_full scenarioD = true ∧
      board_get_winner_or_tie scenarioD = SYM_INVALID) := by
  have hw := board_get_winner_valid b hv
  have hfull := board_is_full_iff b
  have hnf : board_is_full b ≠ true ↔ ∃ i : Fin 9, b.cells i = SYM_EMPTY := by
    rw [Ne, hfull]; push_neg; rfl
  unfold isPlayer at hw ⊢
  refine ⟨?_, hfull, ?_, ?_, ?_, by decide⟩
  · unfold board_get_winner_or_tie
    by_cases h : board_get_winner b = SYM_EMPTY ∧ board_is_full b = true
    · simp only [h, and_self, if_true]
    · simp only [if_neg h, h, iff_false]
      rcases hw with hw | hw | hw
      · rw [hw]; decide
      · rw [hw]; decide
      · rw [hw]; decide
  · unfold board_get_winner_or_tie
    rw [← hnf]
    by_cases h : board_get_winner b = SYM_EMPTY ∧ board_is_full b = true
    · rw [if_pos h]
      constructor
      · intro h0; exact absurd h0 (by decide)
      · intro h0; exact absurd h.2 h0.2
    · rw [if_neg h]
      constructor
      · intro h0
        exact ⟨h0, fun hf => h ⟨h0, hf⟩⟩
      · intro h0; exact h0.1
  · intro h1 h2
    unfold board_get_winner_or_tie at h1 h2 ⊢
    by_cases h : board_get_winner b = SYM_EMPTY ∧ board_is_full b = true
    · rw [if_pos h] at h1; exact absurd rfl h1
    · rw [if_neg h] at h2 ⊢
      refine ⟨rfl, ?_⟩
      rcases hw with hw | hw
      · exact absurd hw h2
      · exact hw
  · unfold board_get_winner_or_tie
    by_cases h : board_get_winner b = SYM_EMPTY ∧ board_is_full b = true
    · rw [if_pos h]; left; rfl
    · rw [if_neg h]; right; exact hw

theorem board_get_winner_or_tie_spec_witness :
    validBoard scenarioB ∧ board_get_winner_or_tie scenarioB = SYM_EMPTY :=
  ⟨by decide,
    (board_get_winner_or_tie_spec scenarioB (by decide)).2.2.1.mpr
      ⟨by decide, ⟨2, by decide⟩⟩⟩

/-! ## The solver: one level of the recursion -/

theorem nested_fold (f : ScoredMove → Int → Int → Option ScoredMove) (init : ScoredMove) :
    loopFrom0.foldlM (fun acc r => loopFrom0.foldlM (fun acc c => f acc r c) acc) init =
      cells9.foldlM (fun acc rc => f acc rc.1 rc.2) init := by
  simp only [loopFrom0, cells9, List.foldlM_cons, List.foldlM_nil, bind_assoc, pure_bind, bind_pure]

theorem gbms_succ (fuel : Nat) (b : Board) (sym m : Sym) :
    get_best_move_and_score (fuel + 1) b sym m =
      if board_get_winner b = m then some ⟨MOVE_INVALID, 1⟩
      else if board_get_winner b = sym_invert m then some ⟨MOVE_INVALID, -1⟩
      else if board_is_full b = true then some ⟨MOVE_INVALID, 0⟩
      else if sym = m then
        cells9.foldlM (scanStep (fun x y => decide (x > y)) (possibleAt b)
          (childResult fuel b sym m)) ⟨MOVE_INVALID, INT_MIN⟩
      else
        cells9.foldlM (scanStep (fun x y => decide (x < y)) (possibleAt b)
          (childResult fuel b sym m)) ⟨MOVE_INVALID, INT_MAX⟩ := by
  rw [get_best_move_and_score]
  simp only [nested_fold]
  split_ifs <;> first
    | rfl
    | (congr 1; funext acc rc
       simp only [scanStep, possibleAt, childResult, decide_eq_true_eq])

theorem scan_fold (better : Int → Int → Bool) (possible : Int × Int → Bool)
    (child : Int × Int → Option ScoredMove) (sc : Int × Int → Int)
    (htrans : ∀ a b c, better a b = true → better b c = true → better a c = true)
    (hneg : ∀ a b c, better a b = false → better c b = true → better c a = true)
    (L : List (Int × Int))
    (hchild : ∀ rc ∈ L, possible rc = true → ∃ res, child rc = some res ∧ res.score = sc rc)
    (acc0 : ScoredMove) :
    ∃ acc, L.foldlM (scanStep better possible child) acc0 = some acc ∧
      ((acc = acc0 ∧ ∀ rc ∈ L, possible rc = true → better (sc rc) acc0.score = false) ∨
       (∃ l1 x l2, L = l1 ++ x :: l2 ∧ possible x = true ∧
          acc = ⟨move_create x.1 x.2, sc x⟩ ∧ better (sc x) acc0.score = true ∧
          (∀ y ∈ l1, possible y = true → better (sc x) (sc y) = true) ∧
          (∀ y ∈ l2, possible y = true → better (sc y) (sc x) = false))) := by
  induction L generalizing acc0 with
  | nil => exact ⟨acc0, rfl, Or.inl ⟨rfl, fun _ h => absurd h (List.not_mem_nil _)⟩⟩
  | cons a t ih =>
    have hct : ∀ rc ∈ t, possible rc = true → ∃ res, child rc = some res ∧ res.score = sc rc :=
      fun rc h => hchild rc (List.mem_cons_of_mem _ h)
    rw [List.foldlM_cons]
    cases hp : possible a with
    | false =>
      have hstep : scanStep better possible child acc0 a = some acc0 := by
        simp only [scanStep, hp, Bool.not_false, if_true]
      rw [hstep]
      obtain ⟨acc, hacc, hcase⟩ := ih hct acc0
      refine ⟨acc, hacc, ?_⟩
      rcases hcase with ⟨he, hall⟩ | ⟨l1, x, l2, hL, hx, hax, hbx, h1, h2⟩
      · left
        refine ⟨he, ?_⟩
        intro rc hrc hprc
        rcases List.mem_cons.mp hrc with rfl | hrc
        · rw [hp] at hprc; exact absurd hprc (by decide)
        · exact hall rc hrc hprc
      · right
        refine ⟨a :: l1, x, l2, by rw [hL]; rfl, hx, hax, hbx, ?_, h2⟩
        intro y hy hpy
        rcases List.mem_cons.mp hy with rfl | hy
        · rw [hp] at hpy; exact absurd hpy (by decide)
        · exact h1 y hy hpy
    | true =>
      obtain ⟨res, hres, hsc⟩ := hchild a (List.mem_cons_self _ _) hp
      cases hb : better (sc a) acc0.score with
      | true =>
        have hstep : scanStep better possible child acc0 a =
            some ⟨move_create a.1 a.2, sc a⟩ := by
          simp only [scanStep, hp, Bool.not_true, hres, Option.bind, hsc, hb, if_true]
          rfl
        rw [hstep]
        obtain ⟨acc, hacc, hcase⟩ := ih hct ⟨move_create a.1 a.2, sc a⟩
        refine ⟨acc, hacc, Or.inr ?_⟩
        rcases hcase with ⟨he, hall⟩ | ⟨l1, x, l2, hL, hx, hax, hbx, h1, h2⟩
        · exact ⟨[], a, t, rfl, hp, he, hb, fun _ h => absurd h (List.not_mem_nil _), hall⟩
        · refine ⟨a :: l1, x, l2, by rw [hL]; rfl, hx, hax, htrans _ _ _ hbx hb, ?_, h2⟩
          intro y hy hpy
          rcases List.mem_cons.mp hy with rfl | hy
          · exact hbx
          · exact h1 y hy hpy
      | false =>
        have hstep : scanStep better possible child acc0 a = some acc0 := by
          simp only [scanStep, hp, Bool.not_true, hres, Option.bind, hsc, hb]
          rfl
        rw [hstep]
        obtain ⟨acc, hacc, hcase⟩ := ih hct acc0
        refine ⟨acc, hacc, ?_⟩
        rcases hcase with ⟨he, hall⟩ | ⟨l1, x, l2, hL, hx, hax, hbx, h1, h2⟩
        · left
          refine ⟨he, ?_⟩
          intro rc hrc hprc
          rcases List.mem_cons.mp hrc with rfl | hrc
          · exact hb
          · exact hall rc hrc hprc
        · right
          refine ⟨a :: l1, x, l2, by rw [hL]; rfl, hx, hax, hbx, ?_, h2⟩
          intro y hy hpy
          rcases List.mem_cons.mp hy with rfl | hy
          · exact hneg _ _ _ hb hbx
          · exact h1 y hy hpy

/-! ## Termination measure -/

theorem countEmpty_update (b : Board) (j : Fin 9) (s : Sym)
    (hj : b.cells j = SYM_EMPTY) (hs : s ≠ SYM_EMPTY) :
    countEmpty ⟨Function.update b.cells j s⟩ + 1 = countEmpty b := by
  unfold countEmpty
  have hset : (Finset.univ.filter fun i : Fin 9 => Function.update b.cells j s i = SYM_EMPTY) =
      (Finset.univ.filter fun i : Fin 9 => b.cells i = SYM_EMPTY).erase j := by
    ext i
    simp only [Finset.mem_filter, Finset.mem_univ, true_and, Finset.mem_erase]
    by_cases hij : i = j
    · subst hij
      simp only [Function.update_same, ne_eq, not_true_eq_false, false_and, iff_false]
      exact hs
    · simp only [Function.update_noteq hij, ne_eq, hij, not_false_eq_true, true_and]
  have hmem : j ∈ Finset.univ.filter fun i : Fin 9 => b.cells i = SYM_EMPTY := by
    simp only [Finset.mem_filter, Finset.mem_univ, true_and]
    exact hj
  rw [hset, Finset.card_erase_of_mem hmem]
  have hpos : 0 < (Finset.univ.filter fun i : Fin 9 => b.cells i = SYM_EMPTY).card :=
    Finset.card_pos.mpr ⟨j, hmem⟩
  omega

theorem possibleAt_iff (b : Board) (rc : Int × Int) :
    possibleAt b rc = true ↔ board_get_sym b rc.1 rc.2 = SYM_EMPTY := by
  simp only [possibleAt, board_move_is_possible, decide_eq_true_eq]

theorem countEmpty_set (b : Board) (rc : Int × Int) (s : Sym) (hrc : rc ∈ cells9)
    (hp : possibleAt b rc = true) (hs : s ≠ SYM_EMPTY) :
    countEmpty (board_set_sym b rc.1 rc.2 s) + 1 = countEmpty b := by
  have hr := (mem_cells9_iff rc).mp hrc
  have hi := index_of_inRange hr.1 hr.2
  rw [board_set_sym_of_index b rc.1 rc.2 s hi]
  apply countEmpty_update _ _ _ _ hs
  rw [← board_get_sym_of_index b rc.1 rc.2 hi]
  exact (possibleAt_iff b rc).mp hp

theorem sym_invert_ne_empty (s : Sym) (hs : s ≠ SYM_EMPTY) : sym_invert s ≠ SYM_EMPTY := by
  unfold sym_invert
  split_ifs
  · decide
  · decide
  · exact hs

theorem exists_possible_of_not_full (b : Board) (h : board_is_full b = false) :
    ∃ rc ∈ cells9, possibleAt b rc = true := by
  simp only [board_is_full, loopFrom0, List.any_cons, List.any_nil, Bool.or_false,
    Bool.not_eq_false', Bool.or_eq_true, decide_eq_true_eq] at h
  simp only [possibleAt, board_move_is_possible, decide_eq_true_eq, cells9, List.mem_cons,
    List.mem_singleton, List.not_mem_nil, or_false, exists_eq_or_imp, exists_eq_left]
  tauto

/-! ## One level of the solver, given that the recursive calls return -/

theorem gbms_step_of_children (n : Nat) (b : Board) (sym m : Sym)
    (hw1 : board_get_winner b ≠ m) (hw2 : board_get_winner b ≠ sym_invert m)
    (hnf : board_is_full b = false)
    (hchild : ∀ rc ∈ cells9, possibleAt b rc = true →
      ∃ res, childResult n b sym m rc = some res ∧ -1 ≤ res.score ∧ res.score ≤ 1) :
    ∃ l1 x l2 res, cells9 = l1 ++ x :: l2 ∧ possibleAt b x = true ∧
      childResult n b sym m x = some res ∧
      get_best_move_and_score (n + 1) b sym m = some ⟨move_create x.1 x.2, res.score⟩ ∧
      (∀ y ∈ l1, possibleAt b y = true → ∃ ry, childResult n b sym m y = some ry ∧
        if sym = m then ry.score < res.score else res.score < ry.score) ∧
      (∀ y ∈ l2, possibleAt b y = true → ∃ ry, childResult n b sym m y = some ry ∧
        if sym = m then ry.score ≤ res.score else res.score ≤ ry.score) := by
  have hnf2 : ¬ board_is_full b = true := by rw [hnf]; decide
  obtain ⟨z, hz, hpz⟩ := exists_possible_of_not_full b hnf
  obtain ⟨rz, hrz, hz1, hz2⟩ := hchild z hz hpz
  -- the score of each recursive call, as a total function
  have hsc : ∀ rc ∈ cells9, possibleAt b rc = true →
      ∃ res, childResult n b sym m rc = some res ∧
        res.score = ((childResult n b sym m rc).map (fun r => r.score)).getD 0 := by
    intro rc hrc hp
    obtain ⟨res, hres, _⟩ := hchild rc hrc hp
    exact ⟨res, hres, by rw [hres]; rfl⟩
  have hval : ∀ rc ∈ cells9, possibleAt b rc = true → ∀ res,
      childResult n b sym m rc = some res →
        ((childResult n b sym m rc).map (fun r => r.score)).getD 0 = res.score := by
    intro rc _ _ res hres
    rw [hres]; rfl
  rw [gbms_succ, if_neg hw1, if_neg hw2, if_neg hnf2]
  by_cases hsm : sym = m
  · rw [if_pos hsm]
    obtain ⟨acc, hacc, hcase⟩ := scan_fold (fun x y => decide (x > y)) (possibleAt b)
      (childResult n b sym m)
      (fun rc => ((childResult n b sym m rc).map (fun r => r.score)).getD 0)
      (by intro a b c h1 h2; simp only [decide_eq_true_eq] at *; omega)
      (by intro a b c h1 h2; simp only [decide_eq_true_eq, decide_eq_false_iff_not] at *; omega)
      cells9 hsc ⟨MOVE_INVALID, INT_MIN⟩
    rcases hcase with ⟨_, hall⟩ | ⟨l1, x, l2, hL, hx, hax, _, h1, h2⟩
    · exfalso
      have := hall z hz hpz
      rw [hval z hz hpz rz hrz] at this
      simp only [decide_eq_false_iff_not, INT_MIN] at this
      omega
    · have hxm : x ∈ cells9 := by rw [hL]; simp
      obtain ⟨res, hres, _⟩ := hchild x hxm hx
      refine ⟨l1, x, l2, res, hL, hx, hres, ?_, ?_, ?_⟩
      · rw [hacc, hax, hval x hxm hx res hres]
      · intro y hy hpy
        have hym : y ∈ cells9 := by rw [hL]; simp [hy]
        obtain ⟨ry, hry, _⟩ := hchild y hym hpy
        refine ⟨ry, hry, ?_⟩
        have := h1 y hy hpy
        rw [hval x hxm hx res hres, hval y hym hpy ry hry] at this
        simp only [decide_eq_true_eq] at this
        rw [if_pos hsm]; omega
      · intro y hy hpy
        have hym : y ∈ cells9 := by rw [hL]; simp [hy]
        obtain ⟨ry, hry, _⟩ := hchild y hym hpy
        refine ⟨ry, hry, ?_⟩
        have := h2 y hy hpy
        rw [hval x hxm hx res hres, hval y hym hpy ry hry] at this
        simp only [decide_eq_false_iff_not] at this
        rw [if_pos hsm]; omega
  · rw [if_neg hsm]
    obtain ⟨acc, hacc, hcase⟩ := scan_fold (fun x y => decide (x < y)) (possibleAt b)
      (childResult n b sym m)
      (fun rc => ((childResult n b sym m rc).map (fun r => r.score)).getD 0)
      (by intro a b c h1 h2; simp only [decide_eq_true_eq] at *; omega)
      (by intro a b c h1 h2; simp only [decide_eq_true_eq, decide_eq_false_iff_not] at *; omega)
      cells9 hsc ⟨MOVE_INVALID, INT_MAX⟩
    rcases hcase with ⟨_, hall⟩ | ⟨l1, x, l2, hL, hx, hax, _, h1, h2⟩
    · exfalso
      have := hall z hz hpz
      rw [hval z hz hpz rz hrz] at this
      simp only [decide_eq_false_iff_not, INT_MAX] at this
      omega
    · have hxm : x ∈ cells9 := by rw [hL]; simp
      obtain ⟨res, hres, _⟩ := hchild x hxm hx
      refine ⟨l1, x, l2, res, hL, hx, hres, ?_, ?_, ?_⟩
      · rw [hacc, hax, hval x hxm hx res hres]
      · intro y hy hpy
        have hym : y ∈ cells9 := by rw [hL]; simp [hy]
        obtain ⟨ry, hry, _⟩ := hchild y hym hpy
        refine ⟨ry, hry, ?_⟩
        have := h1 y hy hpy
        rw [hval x hxm hx res hres, hval y hym hpy ry hry] at this
        simp only [decide_eq_true_eq] at this
        rw [if_neg hsm]; omega
      · intro y hy hpy
        have hym : y ∈ cells9 := by rw [hL]; simp [hy]
        obtain ⟨ry, hry, _⟩ := hchild y hym hpy
        refine ⟨ry, hry, ?_⟩
        have := h2 y hy hpy
        rw [hval x hxm hx res hres, hval y hym hpy ry hry] at this
        simp only [decide_eq_false_iff_not] at this
        rw [if_neg hsm]; omega

/-! ## Termination and independence of the depth bound -/

theorem gbms_total (n : Nat) : ∀ (b : Board) (sym m : Sym), sym ≠ SYM_EMPTY →
    countEmpty b < n →
    ∃ sm, get_best_move_and_score n b sym m = some sm ∧ -1 ≤ sm.score ∧ sm.score ≤ 1 := by
  induction n with
  | zero => intro b sym m _ h; exact absurd h (Nat.not_lt_zero _)
  | succ n ih =>
    intro b sym m hs hn
    by_cases hw1 : board_get_winner b = m
    · exact ⟨⟨MOVE_INVALID, 1⟩, by rw [gbms_succ, if_pos hw1], by decide, by decide⟩
    by_cases hw2 : board_get_winner b = sym_invert m
    · exact ⟨⟨MOVE_INVALID, -1⟩, by rw [gbms_succ, if_neg hw1, if_pos hw2], by decide, by decide⟩
    by_cases hf : board_is_full b = true
    · exact ⟨⟨MOVE_INVALID, 0⟩, by rw [gbms_succ, if_neg hw1, if_neg hw2, if_pos hf],
        by decide, by decide⟩
    have hnf : board_is_full b = false := by simpa using hf
    have hchild : ∀ rc ∈ cells9, possibleAt b rc = true →
        ∃ res, childResult n b sym m rc = some res ∧ -1 ≤ res.score ∧ res.score ≤ 1 := by
      intro rc hrc hp
      have hc := countEmpty_set b rc sym hrc hp hs
      exact ih _ _ m (sym_invert_ne_empty sym hs) (by omega)
    obtain ⟨l1, x, l2, res, hL, hx, hres, hg, _, _⟩ :=
      gbms_step_of_children n b sym m hw1 hw2 hnf hchild
    have hxm : x ∈ cells9 := by rw [hL]; simp
    obtain ⟨res2, hres2, hlo, hhi⟩ := hchild x hxm hx
    rw [hres] at hres2
    cases Option.some.inj hres2
    exact ⟨_, hg, hlo, hhi⟩

theorem scan_fold_mono (better : Int → Int → Bool) (possible : Int × Int → Bool)
    (child child2 : Int × Int → Option ScoredMove)
    (hcc : ∀ rc r, child rc = some r → child2 rc = some r)
    (L : List (Int × Int)) :
    ∀ (acc v : ScoredMove), L.foldlM (scanStep better possible child) acc = some v →
      L.foldlM (scanStep better possible child2) acc = some v := by
  induction L with
  | nil => intro acc v h; exact h
  | cons a t ih =>
    intro acc v h
    rw [List.foldlM_cons] at h ⊢
    cases hs : scanStep better possible child acc a with
    | none => rw [hs] at h; exact absurd h (by simp)
    | some acc1 =>
      have hs2 : scanStep better possible child2 acc a = some acc1 := by
        unfold scanStep at hs ⊢
        by_cases hp : (!possible a) = true
        · rw [if_pos hp] at hs ⊢; exact hs
        · rw [if_neg hp] at hs ⊢
          cases hc : child a with
          | none => rw [hc] at hs; exact absurd hs (by simp)
          | some r => rw [hc] at hs; rw [hcc a r hc]; exact hs
      rw [hs] at h
      rw [hs2]
      exact ih acc1 v h

theorem gbms_mono (n : Nat) : ∀ (b : Board) (sym m : Sym) (v : ScoredMove),
    get_best_move_and_score n b sym m = some v →
    get_best_move_and_score (n + 1) b sym m = some v := by
  induction n with
  | zero => intro b sym m v h; exact absurd h (by simp [get_best_move_and_score])
  | succ n ih =>
    intro b sym m v h
    have hcc : ∀ rc r, childResult n b sym m rc = some r →
        childResult (n + 1) b sym m rc = some r :=
      fun rc r hr => ih _ _ _ r hr
    rw [gbms_succ] at h ⊢
    split_ifs at h ⊢
    · exact h
    · exact h
    · exact h
    · exact scan_fold_mono _ _ _ _ hcc cells9 _ v h
    · exact scan_fold_mono _ _ _ _ hcc cells9 _ v h

theorem gbms_stable (n k : Nat) (hnk : n ≤ k) (b : Board) (sym m : Sym) (v : ScoredMove)
    (h : get_best_move_and_score n b sym m = some v) :
    get_best_move_and_score k b sym m = some v := by
  induction k with
  | zero =>
    have : n = 0 := by omega
    subst this; exact h
  | succ k ih =>
    by_cases hk : n ≤ k
    · exact gbms_mono k b sym m v (ih hk)
    · have : n = k + 1 := by omega
      subst this; exact h

theorem countEmpty_le_nine (b : Board) : countEmpty b ≤ 9 := by
  unfold countEmpty
  calc (Finset.univ.filter fun i : Fin 9 => b.cells i = SYM_EMPTY).card
      ≤ (Finset.univ : Finset (Fin 9)).card := Finset.card_filter_le _ _
    _ = 9 := by simp

theorem isPlayer_ne_empty {s : Sym} (h : isPlayer s) : s ≠ SYM_EMPTY := by
  rcases h with h | h <;> rw [h] <;> decide

/-- One level of the solver on a board that is not terminal, for a symbol to
move that is not Empty and a depth bound no smaller than the number of Empty
cells: the result is the first cell of the scan whose recursive score is
extremal. -/
theorem gbms_step (n : Nat) (b : Board) (sym m : Sym) (hs : sym ≠ SYM_EMPTY)
    (hn : countEmpty b ≤ n)
    (hw1 : board_get_winner b ≠ m) (hw2 : board_get_winner b ≠ sym_invert m)
    (hnf : board_is_full b = false) :
    ∃ l1 x l2 res, cells9 = l1 ++ x :: l2 ∧ possibleAt b x = true ∧
      childResult n b sym m x = some res ∧
      get_best_move_and_score (n + 1) b sym m = some ⟨move_create x.1 x.2, res.score⟩ ∧
      (∀ y ∈ l1, possibleAt b y = true → ∃ ry, childResult n b sym m y = some ry ∧
        if sym = m then ry.score < res.score else res.score < ry.score) ∧
      (∀ y ∈ l2, possibleAt b y = true → ∃ ry, childResult n b sym m y = some ry ∧
        if sym = m then ry.score ≤ res.score else res.score ≤ ry.score) := by
  apply gbms_step_of_children n b sym m hw1 hw2 hnf
  intro rc hrc hp
  have hc := countEmpty_set b rc sym hrc hp hs
  exact gbms_total n _ _ m (sym_invert_ne_empty sym hs) (by omega)

/-! ## The solver's contract -/

/-- C3: for a maximizer that is a player symbol and any symbol to move, a board
won by the maximizer gives score +1, a board won by the other player gives
score -1, a full board with no winner gives score 0, each with the invalid move
(-1, -1), for every positive depth bound. -/
theorem gbms_terminal (b : Board) (sym m : Sym) (fuel : Nat) (hm : isPlayer m) :
    (board_get_winner b = m →
      get_best_move_and_score (fuel + 1) b sym m = some ⟨MOVE_INVALID, 1⟩) ∧
    (board_get_winner b = sym_invert m →
      get_best_move_and_score (fuel + 1) b sym m = some ⟨MOVE_INVALID, -1⟩) ∧
    (board_is_full b = true → board_get_winner b = SYM_EMPTY →
      get_best_move_and_score (fuel + 1) b sym m = some ⟨MOVE_INVALID, 0⟩) ∧
    MOVE_INVALID = ⟨-1, -1⟩ := by
  have hne : m ≠ sym_invert m := by
    rcases hm with h | h <;> rw [h] <;> decide
  have hm0 : SYM_EMPTY ≠ m := fun h => isPlayer_ne_empty hm h.symm
  have hi0 : SYM_EMPTY ≠ sym_invert m := by
    rcases hm with h | h <;> rw [h] <;> decide
  refine ⟨?_, ?_, ?_, rfl⟩
  · intro hw
    rw [gbms_succ, if_pos hw]
  · intro hw
    have hw1 : board_get_winner b ≠ m := by rw [hw]; exact fun h => hne h.symm
    rw [gbms_succ, if_neg hw1, if_pos hw]
  · intro hf hw
    have hw1 : board_get_winner b ≠ m := by rw [hw]; exact hm0
    have hw2 : board_get_winner b ≠ sym_invert m := by rw [hw]; exact hi0
    rw [gbms_succ, if_neg hw1, if_neg hw2, if_pos hf]

theorem gbms_terminal_witness :
    get_best_move_and_score (0 + 1) scenarioD SYM_OPP SYM_SELF = some ⟨MOVE_INVALID, 0⟩ :=
  (gbms_terminal scenarioD SYM_OPP SYM_SELF 0 (by decide)).2.2.1 (by decide) (by decide)

/-- C5: on a board of Empty/Self/Opponent cells, with player symbols to move
and to maximize, and a depth bound above the number of Empty cells, the solver
returns a score that is -1, 0 or 1, hence neither `INT_MIN` nor `INT_MAX`. -/
theorem gbms_score_range (b : Board) (sym m : Sym) (fuel : Nat) (_hv : validBoard b)
    (hs : isPlayer sym) (_hm : isPlayer m) (hfuel : countEmpty b < fuel) :
    ∃ sm, get_best_move_and_score fuel b sym m = some sm ∧
      (sm.score = -1 ∨ sm.score = 0 ∨ sm.score = 1) ∧
      sm.score ≠ INT_MIN ∧ sm.score ≠ INT_MAX := by
  obtain ⟨sm, hsm, hlo, hhi⟩ := gbms_total fuel b sym m (isPlayer_ne_empty hs) hfuel
  refine ⟨sm, hsm, by omega, ?_, ?_⟩
  · simp only [INT_MIN]; omega
  · simp only [INT_MAX]; omega

theorem gbms_score_range_witness :
    ∃ sm, get_best_move_and_score 6 scenarioB SYM_SELF SYM_SELF = some sm ∧
      (sm.score = -1 ∨ sm.score = 0 ∨ sm.score = 1) ∧
      sm.score ≠ INT_MIN ∧ sm.score ≠ INT_MAX :=
  gbms_score_range scenarioB SYM_SELF SYM_SELF 6 (by decide) (by decide) (by decide)
    (by decide)

/-- C1: on a board of Empty/Self/Opponent cells with no winner and an Empty
cell, with player symbols to move and to maximize, the score returned is the
score of the recursive call for some Empty cell, and it bounds the score of the
recursive call for every Empty cell: from above when the symbol to move is the
maximizer (a maximum), from below otherwise (a minimum). -/
theorem gbms_minimax (b : Board) (sym m : Sym) (fuel : Nat) (_hv : validBoard b)
    (hs : isPlayer sym) (hm : isPlayer m)
    (hnw : board_get_winner b = SYM_EMPTY) (hnf : board_is_full b = false)
    (hfuel : countEmpty b ≤ fuel) :
    ∃ sm, get_best_move_and_score (fuel + 1) b sym m = some sm ∧
      (∃ r c, inRange r ∧ inRange c ∧ board_get_sym b r c = SYM_EMPTY ∧
        ∃ ch, get_best_move_and_score fuel (board_set_sym b r c sym) (sym_invert sym) m =
          some ch ∧ ch.score = sm.score) ∧
      (∀ r c, inRange r → inRange c → board_get_sym b r c = SYM_EMPTY →
        ∃ ch, get_best_move_and_score fuel (board_set_sym b r c sym) (sym_invert sym) m =
          some ch ∧ if sym = m then ch.score ≤ sm.score else sm.score ≤ ch.score) := by
  have hw1 : board_get_winner b ≠ m := by
    rw [hnw]; exact fun h => isPlayer_ne_empty hm h.symm
  have hw2 : board_get_winner b ≠ sym_invert m := by
    rw [hnw]; rcases hm with h | h <;> rw [h] <;> decide
  obtain ⟨l1, x, l2, res, hL, hx, hres, hg, h1, h2⟩ :=
    gbms_step fuel b sym m (isPlayer_ne_empty hs) hfuel hw1 hw2 hnf
  have hxm : x ∈ cells9 := by rw [hL]; simp
  have hxr := (mem_cells9_iff x).mp hxm
  refine ⟨_, hg, ⟨x.1, x.2, hxr.1, hxr.2, (possibleAt_iff b x).mp hx, res, hres, rfl⟩, ?_⟩
  intro r c hr hc he
  have hym : (r, c) ∈ cells9 := (mem_cells9_iff (r, c)).mpr ⟨hr, hc⟩
  have hpy : possibleAt b (r, c) = true := (possibleAt_iff b (r, c)).mpr he
  rw [hL] at hym
  rcases List.mem_append.mp hym with hy | hy
  · obtain ⟨ry, hry, hcmp⟩ := h1 (r, c) hy hpy
    refine ⟨ry, hry, ?_⟩
    split_ifs at hcmp ⊢ <;> exact le_of_lt hcmp
  · rcases List.mem_cons.mp hy with hy | hy
    · refine ⟨res, by rw [← hy] at hres; exact hres, ?_⟩
      split_ifs <;> exact le_refl _
    · exact h2 (r, c) hy hpy

theorem gbms_minimax_witness :
    ∃ sm, get_best_move_and_score (5 + 1) scenarioB SYM_SELF SYM_SELF = some sm ∧
      (∃ r c, inRange r ∧ inRange c ∧ board_get_sym scenarioB r c = SYM_EMPTY ∧
        ∃ ch, get_best_move_and_score 5 (board_set_sym scenarioB r c SYM_SELF)
          (sym_invert SYM_SELF) SYM_SELF = some ch ∧ ch.score = sm.score) ∧
      (∀ r c, inRange r → inRange c → board_get_sym scenarioB r c = SYM_EMPTY →
        ∃ ch, get_best_move_and_score 5 (board_set_sym scenarioB r c SYM_SELF)
          (sym_invert SYM_SELF) SYM_SELF = some ch ∧
          if SYM_SELF = SYM_SELF then ch.score ≤ sm.score else sm.score ≤ ch.score) :=
  gbms_minimax scenarioB SYM_SELF SYM_SELF 5 (by decide) (by decide) (by decide)
    (by decide) (by decide) (by decide)

theorem cells9_sorted : cells9.Pairwise rowMajorLt := by
  decide

theorem mem_prefix_of_rowMajorLt (l1 l2 : List (Int × Int)) (x y : Int × Int)
    (hL : cells9 = l1 ++ x :: l2) (hy : y ∈ cells9) (hlt : rowMajorLt y x) : y ∈ l1 := by
  have hsorted := cells9_sorted
  rw [hL] at hsorted hy
  rcases List.mem_append.mp hy with h | h
  · exact h
  · exfalso
    have hx2 := (List.pairwise_cons.mp (List.pairwise_append.mp hsorted).2.1).1
    unfold rowMajorLt at hlt
    rcases List.mem_cons.mp h with h | h
    · rw [h] at hlt; omega
    · have := hx2 y h
      unfold rowMajorLt at this
      omega

theorem scenarioB_result : get_best_move_and_score 6 scenarioB SYM_SELF SYM_SELF =
    some ⟨⟨0, 2⟩, 1⟩ := by
  decide!

/-- C2: on a board of Empty/Self/Opponent cells with no winner and an Empty
cell, with player symbols to move and to maximize, the move returned is an
in-range Empty cell whose recursive score is the returned score, and no Empty
cell before it in row-major order has that score. On Scenario B
(`X X _ / O O _ / _ _ _`, Self to move and maximizing) the result is move (0, 2)
with score 1. -/
theorem gbms_first_best (b : Board) (sym m : Sym) (fuel : Nat) (_hv : validBoard b)
    (hs : isPlayer sym) (hm : isPlayer m)
    (hnw : board_get_winner b = SYM_EMPTY) (hnf : board_is_full b = false)
    (hfuel : countEmpty b ≤ fuel) :
    (∃ sm, get_best_move_and_score (fuel + 1) b sym m = some sm ∧
      inRange sm.move.r ∧ inRange sm.move.c ∧
      board_get_sym b sm.move.r sm.move.c = SYM_EMPTY ∧
      (∃ ch, get_best_move_and_score fuel (board_set_sym b sm.move.r sm.move.c sym)
          (sym_invert sym) m = some ch ∧ ch.score = sm.score) ∧
      (∀ r c, inRange r → inRange c → board_get_sym b r c = SYM_EMPTY →
        rowMajorLt (r, c) (sm.move.r, sm.move.c) →
        ∃ ch, get_best_move_and_score fuel (board_set_sym b r c sym) (sym_invert sym) m =
          some ch ∧ ch.score ≠ sm.score)) ∧
    (∀ k, get_best_move_and_score (k + 6) scenarioB SYM_SELF SYM_SELF =
      some ⟨⟨0, 2⟩, 1⟩) := by
  have hw1 : board_get_winner b ≠ m := by
    rw [hnw]; exact fun h => isPlayer_ne_empty hm h.symm
  have hw2 : board_get_winner b ≠ sym_invert m := by
    rw [hnw]; rcases hm with h | h <;> rw [h] <;> decide
  obtain ⟨l1, x, l2, res, hL, hx, hres, hg, h1, _⟩ :=
    gbms_step fuel b sym m (isPlayer_ne_empty hs) hfuel hw1 hw2 hnf
  have hxm : x ∈ cells9 := by rw [hL]; simp
  have hxr := (mem_cells9_iff x).mp hxm
  refine ⟨⟨_, hg, hxr.1, hxr.2, (possibleAt_iff b x).mp hx, ⟨res, hres, rfl⟩, ?_⟩, ?_⟩
  · intro r c hr hc he hlt
    have hym : (r, c) ∈ cells9 := (mem_cells9_iff (r, c)).mpr ⟨hr, hc⟩
    have hpy : possibleAt b (r, c) = true := (possibleAt_iff b (r, c)).mpr he
    have hy1 : (r, c) ∈ l1 := mem_prefix_of_rowMajorLt l1 l2 x (r, c) hL hym hlt
    obtain ⟨ry, hry, hcmp⟩ := h1 (r, c) hy1 hpy
    refine ⟨ry, hry, ?_⟩
    split_ifs at hcmp
    · exact ne_of_lt hcmp
    · exact ne_of_gt hcmp
  · intro k
    exact gbms_stable 6 (k + 6) (by omega) _ _ _ _ scenarioB_result

theorem gbms_first_best_witness :
    (∃ sm, get_best_move_and_score (5 + 1) scenarioB SYM_SELF SYM_SELF = some sm ∧
      inRange sm.move.r ∧ inRange sm.move.c ∧
      board_get_sym scenarioB sm.move.r sm.move.c = SYM_EMPTY ∧
      (∃ ch, get_best_move_and_score 5 (board_set_sym scenarioB sm.move.r sm.move.c SYM_SELF)
          (sym_invert SYM_SELF) SYM_SELF = some ch ∧ ch.score = sm.score) ∧
      (∀ r c, inRange r → inRange c → board_get_sym scenarioB r c = SYM_EMPTY →
        rowMajorLt (r, c) (sm.move.r, sm.move.c) →
        ∃ ch, get_best_move_and_score 5 (board_set_sym scenarioB r c SYM_SELF)
          (sym_invert SYM_SELF) SYM_SELF = some ch ∧ ch.score ≠ sm.score)) ∧
    (∀ k, get_best_move_and_score (k + 6) scenarioB SYM_SELF SYM_SELF =
      some ⟨⟨0, 2⟩, 1⟩) :=
  gbms_first_best scenarioB SYM_SELF SYM_SELF 5 (by decide) (by decide) (by decide)
    (by decide) (by decide) (by decide)

/-! ## The evaluation-friendly solver agrees with the solver -/

theorem forceSym_eq {α : Type} (s : Sym) (k : Sym → α) : forceSym s k = k s := by
  unfold forceSym
  split_ifs with h0 h1 h2
  · rw [h0]
  · rw [h1]
  · rw [h2]
  · rfl

theorem set_mk9_0 (a0 a1 a2 a3 a4 a5 a6 a7 a8 s : Sym) :
    board_set_sym (mk9 a0 a1 a2 a3 a4 a5 a6 a7 a8) 0 0 s = mk9 s a1 a2 a3 a4 a5 a6 a7 a8 :=
  congrArg Board.mk (funext fun i => by fin_cases i <;> rfl)

theorem set_mk9_1 (a0 a1 a2 a3 a4 a5 a6 a7 a8 s : Sym) :
    board_set_sym (mk9 a0 a1 a2 a3 a4 a5 a6 a7 a8) 0 1 s = mk9 a0 s a2 a3 a4 a5 a6 a7 a8 :=
  congrArg Board.mk (funext fun i => by fin_cases i <;> rfl)

theorem set_mk9_2 (a0 a1 a2 a3 a4 a5 a6 a7 a8 s : Sym) :
    board_set_sym (mk9 a0 a1 a2 a3 a4 a5 a6 a7 a8) 0 2 s = mk9 a0 a1 s a3 a4 a5 a6 a7 a8 :=
  congrArg Board.mk (funext fun i => by fin_cases i <;> rfl)

theorem set_mk9_3 (a0 a1 a2 a3 a4 a5 a6 a7 a8 s : Sym) :
    board_set_sym (mk9 a0 a1 a2 a3 a4 a5 a6 a7 a8) 1 0 s = mk9 a0 a1 a2 s a4 a5 a6 a7 a8 :=
  congrArg Board.mk (funext fun i => by fin_cases i <;> rfl)

theorem set_mk9_4 (a0 a1 a2 a3 a4 a5 a6 a7 a8 s : Sym) :
    board_set_sym (mk9 a0 a1 a2 a3 a4 a5 a6 a7 a8) 1 1 s = mk9 a0 a1 a2 a3 s a5 a6 a7 a8 :=
  congrArg Board.mk (funext fun i => by fin_cases i <;> rfl)

theorem set_mk9_5 (a0 a1 a2 a3 a4 a5 a6 a7 a8 s : Sym) :
    board_set_sym (mk9 a0 a1 a2 a3 a4 a5 a6 a7 a8) 1 2 s = mk9 a0 a1 a2 a3 a4 s a6 a7 a8 :=
  congrArg Board.mk (funext fun i => by fin_cases i <;> rfl)

theorem set_mk9_6 (a0 a1 a2 a3 a4 a5 a6 a7 a8 s : Sym) :
    board_set_sym (mk9 a0 a1 a2 a3 a4 a5 a6 a7 a8) 2 0 s = mk9 a0 a1 a2 a3 a4 a5 s a7 a8 :=
  congrArg Board.mk (funext fun i => by fin_cases i <;> rfl)

theorem set_mk9_7 (a0 a1 a2 a3 a4 a5 a6 a7 a8 s : Sym) :
    board_set_sym (mk9 a0 a1 a2 a3 a4 a5 a6 a7 a8) 2 1 s = mk9 a0 a1 a2 a3 a4 a5 a6 s a8 :=
  congrArg Board.mk (funext fun i => by fin_cases i <;> rfl)

theorem set_mk9_8 (a0 a1 a2 a3 a4 a5 a6 a7 a8 s : Sym) :
    board_set_sym (mk9 a0 a1 a2 a3 a4 a5 a6 a7 a8) 2 2 s = mk9 a0 a1 a2 a3 a4 a5 a6 a7 s :=
  congrArg Board.mk (funext fun i => by fin_cases i <;> rfl)

theorem mk9_cells_0 (a0 a1 a2 a3 a4 a5 a6 a7 a8 : Sym) : (mk9 a0 a1 a2 a3 a4 a5 a6 a7 a8).cells 0 = a0 := rfl
theorem mk9_cells_1 (a0 a1 a2 a3 a4 a5 a6 a7 a8 : Sym) : (mk9 a0 a1 a2 a3 a4 a5 a6 a7 a8).cells 1 = a1 := rfl
theorem mk9_cells_2 (a0 a1 a2 a3 a4 a5 a6 a7 a8 : Sym) : (mk9 a0 a1 a2 a3 a4 a5 a6 a7 a8).cells 2 = a2 := rfl
theorem mk9_cells_3 (a0 a1 a2 a3 a4 a5 a6 a7 a8 : Sym) : (mk9 a0 a1 a2 a3 a4 a5 a6 a7 a8).cells 3 = a3 := rfl
theorem mk9_cells_4 (a0 a1 a2 a3 a4 a5 a6 a7 a8 : Sym) : (mk9 a0 a1 a2 a3 a4 a5 a6 a7 a8).cells 4 = a4 := rfl
theorem mk9_cells_5 (a0 a1 a2 a3 a4 a5 a6 a7 a8 : Sym) : (mk9 a0 a1 a2 a3 a4 a5 a6 a7 a8).cells 5 = a5 := rfl
theorem mk9_cells_6 (a0 a1 a2 a3 a4 a5 a6 a7 a8 : Sym) : (mk9 a0 a1 a2 a3 a4 a5 a6 a7 a8).cells 6 = a6 := rfl
theorem mk9_cells_7 (a0 a1 a2 a3 a4 a5 a6 a7 a8 : Sym) : (mk9 a0 a1 a2 a3 a4 a5 a6 a7 a8).cells 7 = a7 := rfl
theorem mk9_cells_8 (a0 a1 a2 a3 a4 a5 a6 a7 a8 : Sym) : (mk9 a0 a1 a2 a3 a4 a5 a6 a7 a8).cells 8 = a8 := rfl

theorem winner9_eq (a0 a1 a2 a3 a4 a5 a6 a7 a8 : Sym) :
    winner9 a0 a1 a2 a3 a4 a5 a6 a7 a8 = board_get_winner (mk9 a0 a1 a2 a3 a4 a5 a6 a7 a8) := by
  rw [board_get_winner_eq_findSome]
  simp only [winLines, List.findSome?, lineResult, lineComplete, winner9,
    get_0_0, get_0_1, get_0_2, get_1_0, get_1_1, get_1_2, get_2_0, get_2_1, get_2_2,
    mk9_cells_0, mk9_cells_1, mk9_cells_2, mk9_cells_3, mk9_cells_4, mk9_cells_5,
    mk9_cells_6, mk9_cells_7, mk9_cells_8]
  by_cases h0 : a0 ≠ SYM_EMPTY ∧ a1 = a0 ∧ a2 = a0
  · simp only [if_pos h0]; rfl
  simp only [if_neg h0]
  by_cases h1 : a3 ≠ SYM_EMPTY ∧ a4 = a3 ∧ a5 = a3
  · simp only [if_pos h1]; rfl
  simp only [if_neg h1]
  by_cases h2 : a6 ≠ SYM_EMPTY ∧ a7 = a6 ∧ a8 = a6
  · simp only [if_pos h2]; rfl
  simp only [if_neg h2]
  by_cases h3 : a0 ≠ SYM_EMPTY ∧ a3 = a0 ∧ a6 = a0
  · simp only [if_pos h3]; rfl
  simp only [if_neg h3]
  by_cases h4 : a1 ≠ SYM_EMPTY ∧ a4 = a1 ∧ a7 = a1
  · simp only [if_pos h4]; rfl
  simp only [if_neg h4]
  by_cases h5 : a2 ≠ SYM_EMPTY ∧ a5 = a2 ∧ a8 = a2
  · simp only [if_pos h5]; rfl
  simp only [if_neg h5]
  by_cases h6 : a0 ≠ SYM_EMPTY ∧ a4 = a0 ∧ a8 = a0
  · simp only [if_pos h6]; rfl
  simp only [if_neg h6]
  by_cases h7 : a2 ≠ SYM_EMPTY ∧ a4 = a2 ∧ a6 = a2
  · simp only [if_pos h7]; rfl
  simp only [if_neg h7]
  rfl

theorem full9_eq (a0 a1 a2 a3 a4 a5 a6 a7 a8 : Sym) :
    full9 a0 a1 a2 a3 a4 a5 a6 a7 a8 = board_is_full (mk9 a0 a1 a2 a3 a4 a5 a6 a7 a8) := by
  simp only [full9, board_is_full, loopFrom0, List.any_cons, List.any_nil, Bool.or_false,
    get_0_0, get_0_1, get_0_2, get_1_0, get_1_1, get_1_2, get_2_0, get_2_1, get_2_2,
    mk9_cells_0, mk9_cells_1, mk9_cells_2, mk9_cells_3, mk9_cells_4, mk9_cells_5,
    mk9_cells_6, mk9_cells_7, mk9_cells_8, Bool.or_assoc]

theorem scanStep_max_eq (possible : Int × Int → Bool) (child : Int × Int → Option ScoredMove)
    (acc : ScoredMove) (rc : Int × Int) (cell : Sym)
    (hp : possible rc = decide (cell = SYM_EMPTY)) :
    scanStep (fun x y => decide (x > y)) possible child acc rc =
      stepMax cell (move_create rc.1 rc.2) (child rc) acc := by
  unfold scanStep stepMax
  rw [hp]
  by_cases h : cell = SYM_EMPTY
  · simp only [h, decide_True, Bool.not_true, if_true, decide_eq_true_eq]
    rfl
  · simp only [h, decide_False, Bool.not_false, if_true, if_false]

theorem scanStep_min_eq (possible : Int × Int → Bool) (child : Int × Int → Option ScoredMove)
    (acc : ScoredMove) (rc : Int × Int) (cell : Sym)
    (hp : possible rc = decide (cell = SYM_EMPTY)) :
    scanStep (fun x y => decide (x < y)) possible child acc rc =
      stepMin cell (move_create rc.1 rc.2) (child rc) acc := by
  unfold scanStep stepMin
  rw [hp]
  by_cases h : cell = SYM_EMPTY
  · simp only [h, decide_True, Bool.not_true, if_true, decide_eq_true_eq]
    rfl
  · simp only [h, decide_False, Bool.not_false, if_true, if_false]

theorem fold9_eq (f : ScoredMove → Int × Int → Option ScoredMove) (init : ScoredMove) :
    cells9.foldlM f init =
      ((((((((((some init).bind fun a => f a (0, 0)).bind fun a => f a (0, 1)).bind
        fun a => f a (0, 2)).bind fun a => f a (1, 0)).bind fun a => f a (1, 1)).bind
        fun a => f a (1, 2)).bind fun a => f a (2, 0)).bind fun a => f a (2, 1)).bind
        fun a => f a (2, 2)) := by
  simp only [cells9, List.foldlM_cons, List.foldlM_nil, Option.bind_eq_bind, Option.bind_assoc,
    Option.some_bind, Option.pure_def, Option.bind_some]

theorem childResult_mk9 (n : Nat) (b b2 : Board) (sym m : Sym) (rc : Int × Int)
    (v : Option ScoredMove)
    (hset : board_set_sym b rc.1 rc.2 sym = b2)
    (hv : v = get_best_move_and_score n b2 (sym_invert sym) m) :
    childResult n b sym m rc = v := by
  rw [hv, ← hset]
  rfl

theorem fastSolve_eq (n : Nat) : ∀ (a0 a1 a2 a3 a4 a5 a6 a7 a8 sym m : Sym),
    fastSolve n a0 a1 a2 a3 a4 a5 a6 a7 a8 sym m =
      get_best_move_and_score n (mk9 a0 a1 a2 a3 a4 a5 a6 a7 a8) sym m := by
  induction n with
  | zero => intros; rfl
  | succ n ih =>
    intro a0 a1 a2 a3 a4 a5 a6 a7 a8 sym m
    have c0 : childResult n (mk9 a0 a1 a2 a3 a4 a5 a6 a7 a8) sym m (0, 0) =
        fastSolve n sym a1 a2 a3 a4 a5 a6 a7 a8 (sym_invert sym) m :=
      childResult_mk9 n _ _ sym m _ _ (set_mk9_0 a0 a1 a2 a3 a4 a5 a6 a7 a8 sym) (ih _ _ _ _ _ _ _ _ _ _ _)
    have c1 : childResult n (mk9 a0 a1 a2 a3 a4 a5 a6 a7 a8) sym m (0, 1) =
        fastSolve n a0 sym a2 a3 a4 a5 a6 a7 a8 (sym_invert sym) m :=
      childResult_mk9 n _ _ sym m _ _ (set_mk9_1 a0 a1 a2 a3 a4 a5 a6 a7 a8 sym) (ih _ _ _ _ _ _ _ _ _ _ _)
    have c2 : childResult n (mk9 a0 a1 a2 a3 a4 a5 a6 a7 a8) sym m (0, 2) =
        fastSolve n a0 a1 sym a3 a4 a5 a6 a7 a8 (sym_invert sym) m :=
      childResult_mk9 n _ _ sym m _ _ (set_mk9_2 a0 a1 a2 a3 a4 a5 a6 a7 a8 sym) (ih _ _ _ _ _ _ _ _ _ _ _)
    have c3 : childResult n (mk9 a0 a1 a2 a3 a4 a5 a6 a7 a8) sym m (1, 0) =
        fastSolve n a0 a1 a2 sym a4 a5 a6 a7 a8 (sym_invert sym) m :=
      childResult_mk9 n _ _ sym m _ _ (set_mk9_3 a0 a1 a2 a3 a4 a5 a6 a7 a8 sym) (ih _ _ _ _ _ _ _ _ _ _ _)
    have c4 : childResult n (mk9 a0 a1 a2 a3 a4 a5 a6 a7 a8) sym m (1, 1) =
        fastSolve n a0 a1 a2 a3 sym a5 a6 a7 a8 (sym_invert sym) m :=
      childResult_mk9 n _ _ sym m _ _ (set_mk9_4 a0 a1 a2 a3 a4 a5 a6 a7 a8 sym) (ih _ _ _ _ _ _ _ _ _ _ _)
    have c5 : childResult n (mk9 a0 a1 a2 a3 a4 a5 a6 a7 a8) sym m (1, 2) =
        fastSolve n a0 a1 a2 a3 a4 sym a6 a7 a8 (sym_invert sym) m :=
      childResult_mk9 n _ _ sym m _ _ (set_mk9_5 a0 a1 a2 a3 a4 a5 a6 a7 a8 sym) (ih _ _ _ _ _ _ _ _ _ _ _)
    have c6 : childResult n (mk9 a0 a1 a2 a3 a4 a5 a6 a7 a8) sym m (2, 0) =
        fastSolve n a0 a1 a2 a3 a4 a5 sym a7 a8 (sym_invert sym) m :=
      childResult_mk9 n _ _ sym m _ _ (set_mk9_6 a0 a1 a2 a3 a4 a5 a6 a7 a8 sym) (ih _ _ _ _ _ _ _ _ _ _ _)
    have c7 : childResult n (mk9 a0 a1 a2 a3 a4 a5 a6 a7 a8) sym m (2, 1) =
        fastSolve n a0 a1 a2 a3 a4 a5 a6 sym a8 (sym_invert sym) m :=
      childResult_mk9 n _ _ sym m _ _ (set_mk9_7 a0 a1 a2 a3 a4 a5 a6 a7 a8 sym) (ih _ _ _ _ _ _ _ _ _ _ _)
    have c8 : childResult n (mk9 a0 a1 a2 a3 a4 a5 a6 a7 a8) sym m (2, 2) =
        fastSolve n a0 a1 a2 a3 a4 a5 a6 a7 sym (sym_invert sym) m :=
      childResult_mk9 n _ _ sym m _ _ (set_mk9_8 a0 a1 a2 a3 a4 a5 a6 a7 a8 sym) (ih _ _ _ _ _ _ _ _ _ _ _)
    rw [gbms_succ, fastSolve, ← winner9_eq, ← full9_eq]
    simp only [forceSym_eq]
    by_cases hw1 : winner9 a0 a1 a2 a3 a4 a5 a6 a7 a8 = m
    · rw [if_pos hw1, if_pos hw1]
    rw [if_neg hw1, if_neg hw1]
    by_cases hw2 : winner9 a0 a1 a2 a3 a4 a5 a6 a7 a8 = sym_invert m
    · rw [if_pos hw2, if_pos hw2]
    rw [if_neg hw2, if_neg hw2]
    by_cases hf : full9 a0 a1 a2 a3 a4 a5 a6 a7 a8 = true
    · rw [if_pos hf, if_pos hf]
    rw [if_neg hf, if_neg hf]
    by_cases hsm : sym = m
    · rw [if_pos hsm, if_pos hsm, fold9_eq]
      simp only [scanStep_max_eq (possibleAt (mk9 a0 a1 a2 a3 a4 a5 a6 a7 a8)) _ _ (0, 0) a0 rfl,
        scanStep_max_eq (possibleAt (mk9 a0 a1 a2 a3 a4 a5 a6 a7 a8)) _ _ (0, 1) a1 rfl,
        scanStep_max_eq (possibleAt (mk9 a0 a1 a2 a3 a4 a5 a6 a7 a8)) _ _ (0, 2) a2 rfl,
        scanStep_max_eq (possibleAt (mk9 a0 a1 a2 a3 a4 a5 a6 a7 a8)) _ _ (1, 0) a3 rfl,
        scanStep_max_eq (possibleAt (mk9 a0 a1 a2 a3 a4 a5 a6 a7 a8)) _ _ (1, 1) a4 rfl,
        scanStep_max_eq (possibleAt (mk9 a0 a1 a2 a3 a4 a5 a6 a7 a8)) _ _ (1, 2) a5 rfl,
        scanStep_max_eq (possibleAt (mk9 a0 a1 a2 a3 a4 a5 a6 a7 a8)) _ _ (2, 0) a6 rfl,
        scanStep_max_eq (possibleAt (mk9 a0 a1 a2 a3 a4 a5 a6 a7 a8)) _ _ (2, 1) a7 rfl,
        scanStep_max_eq (possibleAt (mk9 a0 a1 a2 a3 a4 a5 a6 a7 a8)) _ _ (2, 2) a8 rfl,
        c0, c1, c2, c3, c4, c5, c6, c7, c8]
      rfl
    · rw [if_neg hsm, if_neg hsm, fold9_eq]
      simp only [scanStep_min_eq (possibleAt (mk9 a0 a1 a2 a3 a4 a5 a6 a7 a8)) _ _ (0, 0) a0 rfl,
        scanStep_min_eq (possibleAt (mk9 a0 a1 a2 a3 a4 a5 a6 a7 a8)) _ _ (0, 1) a1 rfl,
        scanStep_min_eq (possibleAt (mk9 a0 a1 a2 a3 a4 a5 a6 a7 a8)) _ _ (0, 2) a2 rfl,
        scanStep_min_eq (possibleAt (mk9 a0 a1 a2 a3 a4 a5 a6 a7 a8)) _ _ (1, 0) a3 rfl,
        scanStep_min_eq (possibleAt (mk9 a0 a1 a2 a3 a4 a5 a6 a7 a8)) _ _ (1, 1) a4 rfl,
        scanStep_min_eq (possibleAt (mk9 a0 a1 a2 a3 a4 a5 a6 a7 a8)) _ _ (1, 2) a5 rfl,
        scanStep_min_eq (possibleAt (mk9 a0 a1 a2 a3 a4 a5 a6 a7 a8)) _ _ (2, 0) a6 rfl,
        scanStep_min_eq (possibleAt (mk9 a0 a1 a2 a3 a4 a5 a6 a7 a8)) _ _ (2, 1) a7 rfl,
        scanStep_min_eq (possibleAt (mk9 a0 a1 a2 a3 a4 a5 a6 a7 a8)) _ _ (2, 2) a8 rfl,
        c0, c1, c2, c3, c4, c5, c6, c7, c8]
      rfl

/-! ## The empty board -/

theorem board_create_eq_mk9 : board_create = mk9 0 0 0 0 0 0 0 0 0 :=
  congrArg Board.mk (funext fun i => by fin_cases i <;> rfl)

theorem fastSolve_empty :
    fastSolve 10 0 0 0 0 0 0 0 0 0 1 1 = some ⟨⟨0, 0⟩, 0⟩ := by
  decide!

/-- C4: on the empty board with Self to move and maximizing, for every depth
bound of at least 10, the solver returns score 0 and a move that is a corner or
the centre; the move is the corner (0, 0). -/
theorem gbms_empty_board (k : Nat) :
    ∃ sm, get_best_move_and_score (k + 10) board_create SYM_SELF SYM_SELF = some sm ∧
      sm.score = 0 ∧
      (sm.move = ⟨0, 0⟩ ∨ sm.move = ⟨0, 2⟩ ∨ sm.move = ⟨2, 0⟩ ∨ sm.move = ⟨2, 2⟩ ∨
        sm.move = ⟨1, 1⟩) ∧
      sm.move = ⟨0, 0⟩ := by
  have h10 : get_best_move_and_score 10 board_create SYM_SELF SYM_SELF =
      some ⟨⟨0, 0⟩, 0⟩ := by
    rw [board_create_eq_mk9, ← fastSolve_eq]
    exact fastSolve_empty
  exact ⟨⟨⟨0, 0⟩, 0⟩, gbms_stable 10 (k + 10) (by omega) _ _ _ _ h10, rfl, Or.inl rfl, rfl⟩

/-! ## Termination and validity of the returned move -/

/-- C11: on a board of Empty/Self/Opponent cells with player symbols to move
and to maximize, the solver returns a result for every depth bound above the
number of Empty cells; each board it recurses on (the board with the symbol to
move played on an Empty cell) has exactly one Empty cell fewer; there are at
most 9 Empty cells, so the depth bound 10 (the call and 9 nested levels) is
always enough. -/
theorem gbms_terminates (b : Board) (sym m : Sym) (_hv : validBoard b)
    (hs : isPlayer sym) (_hm : isPlayer m) :
    (∀ fuel, countEmpty b < fuel → ∃ sm, get_best_move_and_score fuel b sym m = some sm) ∧
    (∀ r c, inRange r → inRange c → board_get_sym b r c = SYM_EMPTY →
      countEmpty (board_set_sym b r c sym) + 1 = countEmpty b) ∧
    countEmpty b ≤ 9 ∧
    (∃ sm, get_best_move_and_score 10 b sym m = some sm) := by
  have hs0 := isPlayer_ne_empty hs
  have h9 := countEmpty_le_nine b
  refine ⟨?_, ?_, h9, ?_⟩
  · intro fuel hf
    obtain ⟨sm, hsm, _⟩ := gbms_total fuel b sym m hs0 hf
    exact ⟨sm, hsm⟩
  · intro r c hr hc he
    exact countEmpty_set b (r, c) sym ((mem_cells9_iff (r, c)).mpr ⟨hr, hc⟩)
      ((possibleAt_iff b (r, c)).mpr he) hs0
  · obtain ⟨sm, hsm, _⟩ := gbms_total 10 b sym m hs0 (by omega)
    exact ⟨sm, hsm⟩

theorem gbms_terminates_witness :
    (∀ fuel, countEmpty scenarioB < fuel →
      ∃ sm, get_best_move_and_score fuel scenarioB SYM_SELF SYM_SELF = some sm) ∧
    (∀ r c, inRange r → inRange c → board_get_sym scenarioB r c = SYM_EMPTY →
      countEmpty (board_set_sym scenarioB r c SYM_SELF) + 1 = countEmpty scenarioB) ∧
    countEmpty scenarioB ≤ 9 ∧
    (∃ sm, get_best_move_and_score 10 scenarioB SYM_SELF SYM_SELF = some sm) :=
  gbms_terminates scenarioB SYM_SELF SYM_SELF (by decide) (by decide) (by decide)

theorem move_create_ne_invalid (r c : Int) (hr : inRange r) :
    move_create r c ≠ MOVE_INVALID := by
  intro h
  have hr2 : r = -1 := congrArg Move.r h
  unfold inRange at hr
  omega

/-- C12: on a board of Empty/Self/Opponent cells with player symbols to move
and to maximize, and a depth bound above the number of Empty cells: when the
board has no winner and is not full, the returned move has both coordinates in
`[0, 2]` and its cell is Empty on the input board; and the returned move is the
invalid sentinel (-1, -1) exactly when the board has a winner or is full. -/
theorem gbms_move_valid (b : Board) (sym m : Sym) (fuel : Nat) (hv : validBoard b)
    (hs : isPlayer sym) (hm : isPlayer m) (hfuel : countEmpty b < fuel) :
    ∃ sm, get_best_move_and_score fuel b sym m = some sm ∧
      (board_get_winner b = SYM_EMPTY → board_is_full b = false →
        inRange sm.move.r ∧ inRange sm.move.c ∧
        board_get_sym b sm.move.r sm.move.c = SYM_EMPTY) ∧
      (sm.move = MOVE_INVALID ↔ (board_get_winner b ≠ SYM_EMPTY ∨ board_is_full b = true)) := by
  obtain ⟨n, rfl⟩ : ∃ n, fuel = n + 1 := ⟨fuel - 1, by omega⟩
  have hm0 : SYM_EMPTY ≠ m := fun h => isPlayer_ne_empty hm h.symm
  have hi0 : SYM_EMPTY ≠ sym_invert m := by
    rcases hm with h | h <;> rw [h] <;> decide
  by_cases hw : board_get_winner b = SYM_EMPTY
  · have hw1 : board_get_winner b ≠ m := by rw [hw]; exact hm0
    have hw2 : board_get_winner b ≠ sym_invert m := by rw [hw]; exact hi0
    by_cases hf : board_is_full b = true
    · refine ⟨⟨MOVE_INVALID, 0⟩, by rw [gbms_succ, if_neg hw1, if_neg hw2, if_pos hf], ?_, ?_⟩
      · intro _ hnf; rw [hf] at hnf; exact absurd hnf (by decide)
      · exact ⟨fun _ => Or.inr hf, fun _ => rfl⟩
    · have hnf : board_is_full b = false := by simpa using hf
      obtain ⟨l1, x, l2, res, hL, hx, _, hg, _, _⟩ :=
        gbms_step n b sym m (isPlayer_ne_empty hs) (by omega) hw1 hw2 hnf
      have hxm : x ∈ cells9 := by rw [hL]; simp
      have hxr := (mem_cells9_iff x).mp hxm
      refine ⟨_, hg, fun _ _ => ⟨hxr.1, hxr.2, (possibleAt_iff b x).mp hx⟩, ?_⟩
      constructor
      · intro hinv
        exact absurd hinv (move_create_ne_invalid x.1 x.2 hxr.1)
      · rintro (h | h)
        · exact absurd hw h
        · exact absurd h hf
  · have hp : isPlayer (board_get_winner b) := by
      rcases board_get_winner_valid b hv with h | h
      · exact absurd h hw
      · exact h
    by_cases hw1 : board_get_winner b = m
    · exact ⟨⟨MOVE_INVALID, 1⟩, by rw [gbms_succ, if_pos hw1], fun h0 => absurd h0 hw,
        fun _ => Or.inl hw, fun _ => rfl⟩
    · have hw2 : board_get_winner b = sym_invert m := by
        rcases hp with h | h <;> rcases hm with h2 | h2 <;> rw [h, h2] at hw1 ⊢ <;>
          first | rfl | exact absurd rfl hw1
      exact ⟨⟨MOVE_INVALID, -1⟩, by rw [gbms_succ, if_neg hw1, if_pos hw2],
        fun h0 => absurd h0 hw, fun _ => Or.inl hw, fun _ => rfl⟩

theorem gbms_move_valid_witness :
    ∃ sm, get_best_move_and_score 6 scenarioB SYM_SELF SYM_SELF = some sm ∧
      (board_get_winner scenarioB = SYM_EMPTY → board_is_full scenarioB = false →
        inRange sm.move.r ∧ inRange sm.move.c ∧
        board_get_sym scenarioB sm.move.r sm.move.c = SYM_EMPTY) ∧
      (sm.move = MOVE_INVALID ↔
        (board_get_winner scenarioB ≠ SYM_EMPTY ∨ board_is_full scenarioB = true)) :=
  gbms_move_valid scenarioB SYM_SELF SYM_SELF 6 (by decide) (by decide) (by decide)
    (by decide)

/-! ## Zero-sum symmetry -/

theorem scan_fold_neg (possible : Int × Int → Bool)
    (child child2 : Int × Int → Option ScoredMove) (L : List (Int × Int))
    (hch : ∀ rc ∈ L, possible rc = true → ∃ res res2, child rc = some res ∧
      child2 rc = some res2 ∧ res2.score = -res.score ∧ -1 ≤ res.score ∧ res.score ≤ 1) :
    ∀ (acc acc2 : ScoredMove), acc.move = acc2.move →
      (acc2.score = -acc.score ∨ (acc.score = INT_MIN ∧ acc2.score = INT_MAX)) →
      ∃ r r2, L.foldlM (scanStep (fun x y => decide (x > y)) possible child) acc = some r ∧
        L.foldlM (scanStep (fun x y => decide (x < y)) possible child2) acc2 = some r2 ∧
        r.move = r2.move ∧
        (r2.score = -r.score ∨ (r.score = INT_MIN ∧ r2.score = INT_MAX)) := by
  induction L with
  | nil => intro acc acc2 hmv hrel; exact ⟨acc, acc2, rfl, rfl, hmv, hrel⟩
  | cons a t ih =>
    intro acc acc2 hmv hrel
    have iht := ih (fun rc h => hch rc (List.mem_cons_of_mem _ h))
    rw [List.foldlM_cons, List.foldlM_cons]
    cases hp : possible a with
    | false =>
      have e1 : scanStep (fun x y => decide (x > y)) possible child acc a = some acc := by
        simp only [scanStep, hp, Bool.not_false, if_true]
      have e2 : scanStep (fun x y => decide (x < y)) possible child2 acc2 a = some acc2 := by
        simp only [scanStep, hp, Bool.not_false, if_true]
      rw [e1, e2]
      exact iht acc acc2 hmv hrel
    | true =>
      obtain ⟨res, res2, hres, hres2, hneg, hlo, hhi⟩ := hch a (List.mem_cons_self _ _) hp
      by_cases hb : res.score > acc.score
      · have hb2 : res2.score < acc2.score := by
          rcases hrel with h | ⟨_, h⟩
          · omega
          · rw [h]; simp only [INT_MAX]; omega
        have e1 : scanStep (fun x y => decide (x > y)) possible child acc a =
            some ⟨move_create a.1 a.2, res.score⟩ := by
          simp only [scanStep, hp, Bool.not_true, hres, Option.bind, decide_eq_true_eq, hb,
            if_true]
          rfl
        have e2 : scanStep (fun x y => decide (x < y)) possible child2 acc2 a =
            some ⟨move_create a.1 a.2, res2.score⟩ := by
          simp only [scanStep, hp, Bool.not_true, hres2, Option.bind, decide_eq_true_eq, hb2,
            if_true]
          rfl
        rw [e1, e2]
        exact iht _ _ rfl (Or.inl hneg)
      · have hb2 : ¬ res2.score < acc2.score := by
          rcases hrel with h | ⟨h, _⟩
          · omega
          · rw [h] at hb; simp only [INT_MIN] at hb; omega
        have e1 : scanStep (fun x y => decide (x > y)) possible child acc a = some acc := by
          simp only [scanStep, hp, Bool.not_true, hres, Option.bind, decide_eq_true_eq, hb]
          rfl
        have e2 : scanStep (fun x y => decide (x < y)) possible child2 acc2 a = some acc2 := by
          simp only [scanStep, hp, Bool.not_true, hres2, Option.bind, decide_eq_true_eq, hb2]
          rfl
        rw [e1, e2]
        exact iht acc acc2 hmv hrel

theorem sym_invert_invert {m : Sym} (hm : isPlayer m) : sym_invert (sym_invert m) = m := by
  rcases hm with h | h <;> rw [h] <;> decide

theorem isPlayer_invert {m : Sym} (hm : isPlayer m) : isPlayer (sym_invert m) := by
  rcases hm with h | h <;> rw [h] <;> decide

theorem sym_invert_ne_self {m : Sym} (hm : isPlayer m) : sym_invert m ≠ m := by
  rcases hm with h | h <;> rw [h] <;> decide

theorem eq_or_eq_invert {s m : Sym} (hs : isPlayer s) (hm : isPlayer m) :
    s = m ∨ s = sym_invert m := by
  rcases hs with h | h <;> rcases hm with h2 | h2 <;> rw [h, h2] <;> decide

theorem gbms_neg (n : Nat) : ∀ (b : Board) (sym m : Sym), isPlayer sym → isPlayer m →
    countEmpty b < n →
    ∃ sm, get_best_move_and_score n b sym m = some sm ∧
      get_best_move_and_score n b sym (sym_invert m) = some ⟨sm.move, -sm.score⟩ := by
  induction n with
  | zero => intro b sym m _ _ h; exact absurd h (Nat.not_lt_zero _)
  | succ n ih =>
    intro b sym m hs hm hn
    have hmi := sym_invert_invert hm
    have hne := sym_invert_ne_self hm
    have hs0 := isPlayer_ne_empty hs
    by_cases hw1 : board_get_winner b = m
    · have hw1' : board_get_winner b ≠ sym_invert m := by rw [hw1]; exact fun h => hne h.symm
      refine ⟨⟨MOVE_INVALID, 1⟩, by rw [gbms_succ, if_pos hw1], ?_⟩
      rw [gbms_succ, if_neg hw1', hmi, if_pos hw1]
    by_cases hw2 : board_get_winner b = sym_invert m
    · refine ⟨⟨MOVE_INVALID, -1⟩, by rw [gbms_succ, if_neg hw1, if_pos hw2], ?_⟩
      rw [gbms_succ, if_pos hw2]
      rfl
    by_cases hf : board_is_full b = true
    · refine ⟨⟨MOVE_INVALID, 0⟩, by rw [gbms_succ, if_neg hw1, if_neg hw2, if_pos hf], ?_⟩
      rw [gbms_succ, if_neg hw2, hmi, if_neg hw1, if_pos hf]
      rfl
    have hnf : board_is_full b = false := by simpa using hf
    -- the result for `m`, and the fact that its score is of magnitude at most 1
    obtain ⟨sm, hsm, hlo, hhi⟩ := gbms_total (n + 1) b sym m hs0 hn
    obtain ⟨sm2, hsm2, hlo2, hhi2⟩ := gbms_total (n + 1) b sym (sym_invert m) hs0 hn
    refine ⟨sm, hsm, ?_⟩
    rw [hsm2]
    have hchild : ∀ rc ∈ cells9, possibleAt b rc = true →
        ∃ res, childResult n b sym m rc = some res ∧
          childResult n b sym (sym_invert m) rc = some ⟨res.move, -res.score⟩ ∧
          -1 ≤ res.score ∧ res.score ≤ 1 := by
      intro rc hrc hp
      have hc := countEmpty_set b rc sym hrc hp hs0
      obtain ⟨res, hres, hres2⟩ := ih (board_set_sym b rc.1 rc.2 sym) (sym_invert sym) m
        (isPlayer_invert hs) hm (by omega)
      obtain ⟨res', hres', hl, hh⟩ := gbms_total n (board_set_sym b rc.1 rc.2 sym)
        (sym_invert sym) m (sym_invert_ne_empty sym hs0) (by omega)
      rw [hres] at hres'
      cases Option.some.inj hres'
      exact ⟨res, hres, hres2, hl, hh⟩
    rw [gbms_succ, if_neg hw1, if_neg hw2, if_neg hf] at hsm
    rw [gbms_succ, if_neg hw2, hmi, if_neg hw1, if_neg hf] at hsm2
    by_cases hsym : sym = m
    · have hsym2 : sym ≠ sym_invert m := by rw [hsym]; exact fun h => hne h.symm
      rw [if_pos hsym] at hsm
      rw [if_neg hsym2] at hsm2
      obtain ⟨r, r2, hr, hr2, hmv, hrel⟩ := scan_fold_neg (possibleAt b)
        (childResult n b sym m) (childResult n b sym (sym_invert m)) cells9
        (fun rc hrc hp => by
          obtain ⟨res, h1, h2, h3, h4⟩ := hchild rc hrc hp
          exact ⟨res, _, h1, h2, rfl, h3, h4⟩)
        ⟨MOVE_INVALID, INT_MIN⟩ ⟨MOVE_INVALID, INT_MAX⟩ rfl (Or.inr ⟨rfl, rfl⟩)
      rw [hsm] at hr
      rw [hsm2] at hr2
      cases Option.some.inj hr
      cases Option.some.inj hr2
      rcases hrel with h | ⟨h, _⟩
      · cases sm2
        simp only at hmv h
        rw [hmv, h]
      · rw [h] at hlo; simp only [INT_MIN] at hlo; omega
    · have hsym2 : sym = sym_invert m := by
        rcases eq_or_eq_invert hs hm with h | h
        · exact absurd h hsym
        · exact h
      rw [if_neg hsym] at hsm
      rw [if_pos hsym2] at hsm2
      obtain ⟨r, r2, hr, hr2, hmv, hrel⟩ := scan_fold_neg (possibleAt b)
        (childResult n b sym (sym_invert m)) (childResult n b sym m) cells9
        (fun rc hrc hp => by
          obtain ⟨res, h1, h2, h3, h4⟩ := hchild rc hrc hp
          exact ⟨_, res, h2, h1, by simp, by simp only; omega, by simp only; omega⟩)
        ⟨MOVE_INVALID, INT_MIN⟩ ⟨MOVE_INVALID, INT_MAX⟩ rfl (Or.inr ⟨rfl, rfl⟩)
      rw [hsm2] at hr
      rw [hsm] at hr2
      cases Option.some.inj hr
      cases Option.some.inj hr2
      rcases hrel with h | ⟨h, _⟩
      · cases sm2
        simp only at hmv h
        rw [← hmv, h, neg_neg]
      · rw [h] at hlo2; simp only [INT_MIN] at hlo2; omega

/-- C19: on a board of Empty/Self/Opponent cells with player symbols to move
and to maximize, and a depth bound above the number of Empty cells, the solver
run for the other maximizer returns the same move and the negated score. -/
theorem gbms_zero_sum (b : Board) (sym m : Sym) (fuel : Nat) (_hv : validBoard b)
    (hs : isPlayer sym) (hm : isPlayer m) (hfuel : countEmpty b < fuel) :
    ∃ sm, get_best_move_and_score fuel b sym m = some sm ∧
      get_best_move_and_score fuel b sym (sym_invert m) = some ⟨sm.move, -sm.score⟩ :=
  gbms_neg fuel b sym m hs hm hfuel

theorem gbms_zero_sum_witness :
    ∃ sm, get_best_move_and_score 6 scenarioB SYM_SELF SYM_SELF = some sm ∧
      get_best_move_and_score 6 scenarioB SYM_SELF (sym_invert SYM_SELF) =
        some ⟨sm.move, -sm.score⟩ :=
  gbms_zero_sum scenarioB SYM_SELF SYM_SELF 6 (by decide) (by decide) (by decide) (by decide)

/-! ## Complete lines in legal play -/

theorem board_get_set_same (b : Board) (s : Sym) (r c : Int) (hr : inRange r) (hc : inRange c) :
    board_get_sym (board_set_sym b r c s) r c = s := by
  have h1 := index_of_inRange hr hc
  rw [board_set_sym_of_index b r c s h1, board_get_sym_of_index _ r c h1]
  exact Function.update_same _ _ _

theorem board_get_set_ne (b : Board) (s : Sym) (r c r2 c2 : Int) (hr : inRange r)
    (hc : inRange c) (hr2 : inRange r2) (hc2 : inRange c2) (hne : (r2, c2) ≠ (r, c)) :
    board_get_sym (board_set_sym b r c s) r2 c2 = board_get_sym b r2 c2 := by
  have h1 := index_of_inRange hr hc
  have h2 := index_of_inRange hr2 hc2
  rw [board_set_sym_of_index b r c s h1, board_get_sym_of_index _ r2 c2 h2,
    board_get_sym_of_index b r2 c2 h2]
  apply Function.update_noteq
  intro h
  apply hne
  have hv := Fin.mk.inj h
  unfold inRange at hr hc hr2 hc2
  have hrr : r2 = r := by omega
  have hcc : c2 = c := by omega
  rw [hrr, hcc]

theorem no_complete_of_winner_empty (b : Board) (h : board_get_winner b = SYM_EMPTY) :
    ∀ l ∈ winLines, ¬ lineComplete b l := by
  rw [board_get_winner_eq_find] at h
  cases hf : winLines.find? (fun l => decide (lineComplete b l)) with
  | none =>
    intro l hl
    have := List.find?_eq_none.mp hf l hl
    simpa using this
  | some l0 =>
    have hc : lineComplete b l0 := by simpa using List.find?_some hf
    rw [hf] at h
    exact absurd h hc.1

theorem winLines_inRange : ∀ l ∈ winLines,
    (inRange l.p0.1 ∧ inRange l.p0.2) ∧ (inRange l.p1.1 ∧ inRange l.p1.2) ∧
    (inRange l.p2.1 ∧ inRange l.p2.2) := by
  decide

theorem lineComplete_after_move (b : Board) (p : Sym) (r c : Int) (hr : inRange r)
    (hc : inRange c) (l : Line) (hl : l ∈ winLines)
    (hnone : ¬ lineComplete b l) (hcomp : lineComplete (board_set_sym b r c p) l) :
    lineSym (board_set_sym b r c p) l = p := by
  obtain ⟨⟨h0r, h0c⟩, ⟨h1r, h1c⟩, ⟨h2r, h2c⟩⟩ := winLines_inRange l hl
  obtain ⟨hne, he1, he2⟩ := hcomp
  unfold lineSym
  by_cases e0 : (l.p0.1, l.p0.2) = (r, c)
  · rw [(Prod.mk.inj e0).1, (Prod.mk.inj e0).2]
    exact board_get_set_same b p r c hr hc
  by_cases e1 : (l.p1.1, l.p1.2) = (r, c)
  · rw [← he1, (Prod.mk.inj e1).1, (Prod.mk.inj e1).2]
    exact board_get_set_same b p r c hr hc
  by_cases e2 : (l.p2.1, l.p2.2) = (r, c)
  · rw [← he2, (Prod.mk.inj e2).1, (Prod.mk.inj e2).2]
    exact board_get_set_same b p r c hr hc
  exfalso
  apply hnone
  rw [board_get_set_ne b p r c _ _ hr hc h0r h0c e0] at hne he1 he2
  rw [board_get_set_ne b p r c _ _ hr hc h1r h1c e1] at he1
  rw [board_get_set_ne b p r c _ _ hr hc h2r h2c e2] at he2
  exact ⟨hne, he1, he2⟩

theorem legal_complete_lines_agree (b : Board) (p : Sym) (h : LegalState b p) :
    ∀ l1 ∈ winLines, ∀ l2 ∈ winLines, lineComplete b l1 → lineComplete b l2 →
      lineSym b l1 = lineSym b l2 := by
  cases h with
  | start p hp =>
    intro l1 hl1 _ _ hc1 _
    exfalso
    revert hc1
    revert l1
    decide
  | move b0 p0 r c h0 hw hf hr hc he =>
    intro l1 hl1 l2 hl2 hc1 hc2
    rw [lineComplete_after_move b0 p0 r c hr hc l1 hl1
        (no_complete_of_winner_empty b0 hw l1 hl1) hc1,
      lineComplete_after_move b0 p0 r c hr hc l2 hl2
        (no_complete_of_winner_empty b0 hw l2 hl2) hc2]

theorem twoLinesBoard_legal : LegalState twoLinesBoard SYM_OPP := by
  have h0 : LegalState (mk9 0 0 0 0 0 0 0 0 0) 1 := by
    rw [← board_create_eq_mk9]; exact LegalState.start 1 (by decide)
  have h1 := LegalState.move _ _ 0 1 h0 (by decide) (by decide) (by decide) (by decide)
    (by decide)
  rw [set_mk9_1] at h1
  have h2 := LegalState.move _ _ 1 1 h1 (by decide) (by decide) (by decide) (by decide)
    (by decide)
  rw [set_mk9_4] at h2
  have h3 := LegalState.move _ _ 0 2 h2 (by decide) (by decide) (by decide) (by decide)
    (by decide)
  rw [set_mk9_2] at h3
  have h4 := LegalState.move _ _ 1 2 h3 (by decide) (by decide) (by decide) (by decide)
    (by decide)
  rw [set_mk9_5] at h4
  have h5 := LegalState.move _ _ 1 0 h4 (by decide) (by decide) (by decide) (by decide)
    (by decide)
  rw [set_mk9_3] at h5
  have h6 := LegalState.move _ _ 2 1 h5 (by decide) (by decide) (by decide) (by decide)
    (by decide)
  rw [set_mk9_7] at h6
  have h7 := LegalState.move _ _ 2 0 h6 (by decide) (by decide) (by decide) (by decide)
    (by decide)
  rw [set_mk9_6] at h7
  have h8 := LegalState.move _ _ 2 2 h7 (by decide) (by decide) (by decide) (by decide)
    (by decide)
  rw [set_mk9_8] at h8
  have h9 := LegalState.move _ _ 0 0 h8 (by decide) (by decide) (by decide) (by decide)
    (by decide)
  rw [set_mk9_0] at h9
  exact h9

/-- C18, as stated, fails: `X X X / X O O / X O O` is reached by legal play (X
starts; the last move, X at (0, 0), is made on a board with no winner) and both
its top row and its left column are complete. -/
theorem legal_state_two_complete_lines :
    LegalState twoLinesBoard SYM_OPP ∧
    (⟨(0, 0), (0, 1), (0, 2)⟩ : Line) ∈ winLines ∧
    (⟨(0, 0), (1, 0), (2, 0)⟩ : Line) ∈ winLines ∧
    lineComplete twoLinesBoard ⟨(0, 0), (0, 1), (0, 2)⟩ ∧
    lineComplete twoLinesBoard ⟨(0, 0), (1, 0), (2, 0)⟩ ∧
    (⟨(0, 0), (0, 1), (0, 2)⟩ : Line) ≠ ⟨(0, 0), (1, 0), (2, 0)⟩ :=
  ⟨twoLinesBoard_legal, by decide, by decide, by decide, by decide, by decide⟩

/-- C18, amended: in every legal game state reachable from the empty board, all
complete lines hold the same symbol, so the winner scan returns the result of
`board_get_winner` for every order of the eight lines. -/
theorem legal_winner_scan_order (b : Board) (p : Sym) (h : LegalState b p) :
    (∀ l1 ∈ winLines, ∀ l2 ∈ winLines, lineComplete b l1 → lineComplete b l2 →
      lineSym b l1 = lineSym b l2) ∧
    (∀ ls : List Line, (∀ l, l ∈ ls ↔ l ∈ winLines) →
      scanWinner b ls = board_get_winner b) := by
  have hagree := legal_complete_lines_agree b p h
  refine ⟨hagree, ?_⟩
  intro ls hls
  rw [board_get_winner_eq_find]
  unfold scanWinner
  cases h1 : ls.find? (fun l => decide (lineComplete b l)) with
  | none =>
    cases h2 : winLines.find? (fun l => decide (lineComplete b l)) with
    | none => rfl
    | some l2 =>
      exfalso
      have hc2 : lineComplete b l2 := by simpa using List.find?_some h2
      have hm2 : l2 ∈ ls := (hls l2).mpr (List.mem_of_find?_eq_some h2)
      have := List.find?_eq_none.mp h1 l2 hm2
      simp only [decide_eq_true_eq] at this
      exact this hc2
  | some l1 =>
    have hc1 : lineComplete b l1 := by simpa using List.find?_some h1
    have hm1 : l1 ∈ winLines := (hls l1).mp (List.mem_of_find?_eq_some h1)
    cases h2 : winLines.find? (fun l => decide (lineComplete b l)) with
    | none =>
      exfalso
      have := List.find?_eq_none.mp h2 l1 hm1
      simp only [decide_eq_true_eq] at this
      exact this hc1
    | some l2 =>
      have hc2 : lineComplete b l2 := by simpa using List.find?_some h2
      have hm2 : l2 ∈ winLines := List.mem_of_find?_eq_some h2
      simp only [Option.map_some', Option.getD_some]
      exact hagree l1 hm1 l2 hm2 hc1 hc2

theorem legal_winner_scan_order_witness :
    (∀ l1 ∈ winLines, ∀ l2 ∈ winLines, lineComplete twoLinesBoard l1 →
      lineComplete twoLinesBoard l2 → lineSym twoLinesBoard l1 = lineSym twoLinesBoard l2) ∧
    (∀ ls : List Line, (∀ l, l ∈ ls ↔ l ∈ winLines) →
      scanWinner twoLinesBoard ls = board_get_winner twoLinesBoard) :=
  legal_winner_scan_order twoLinesBoard SYM_OPP twoLinesBoard_legal

/-! ## The structure of an emitted turn -/

theorem nested_foldlM {σ : Type} (f : σ → Int → Int → Option σ) (init : σ) :
    loopFrom0.foldlM (fun acc r => loopFrom0.foldlM (fun acc c => f acc r c) acc) init =
      cells9.foldlM (fun acc rc => f acc rc.1 rc.2) init := by
  simp only [loopFrom0, cells9, List.foldlM_cons, List.foldlM_nil, bind_assoc, pure_bind, bind_pure]

theorem turn_fold_rest (f : Bool → Int × Int → Option (List PrintfCall)) (L : List (Int × Int)) :
    ∀ out0 : List PrintfCall,
      L.foldlM (fun st rc => (f st.2 rc).map fun o => (st.1 ++ o, false)) (out0, false) =
        (L.mapM (f false)).map fun bs => (out0 ++ bs.flatten, false) := by
  induction L with
  | nil => intro out0; rw [List.mapM_nil]; simp
  | cons a t ih =>
    intro out0
    rw [List.foldlM_cons, List.mapM_cons]
    cases h : f false a with
    | none => simp [h]
    | some o =>
      simp only [h, Option.map_some', Option.bind_eq_bind, Option.some_bind, ih]
      cases List.mapM (f false) t with
      | none => rfl
      | some bs => simp [List.append_assoc]

theorem mapM_option_congr {α β : Type} (f g : α → Option β) (L : List α)
    (h : ∀ x ∈ L, f x = g x) : L.mapM f = L.mapM g := by
  induction L with
  | nil => rfl
  | cons a t ih =>
    rw [List.mapM_cons, List.mapM_cons, h a (List.mem_cons_self _ _),
      ih (fun x hx => h x (List.mem_cons_of_mem _ hx))]

theorem generate_turn_succ (d sf : Nat) (b : Board) (auto : Sym) :
    generate_turn (d + 1) sf b auto =
      (cells9.mapM (fun rc => generate_turn_cell (fun b2 => generate_turn d sf b2 auto)
          sf b auto (decide (rc = (0, 0))) rc.1 rc.2)).map
        fun branches => turnOpen ++ branches.flatten ++ turnDefault := by
  rw [generate_turn]
  rw [nested_foldlM (fun st r c =>
    (generate_turn_cell (fun b2 => generate_turn d sf b2 auto) sf b auto st.2 r c).map
      fun out => (st.1 ++ out, false))]
  have hrest := turn_fold_rest (fun first rc =>
    generate_turn_cell (fun b2 => generate_turn d sf b2 auto) sf b auto first rc.1 rc.2)
    [(0, 1), (0, 2), (1, 0), (1, 1), (1, 2), (2, 0), (2, 1), (2, 2)]
  have hcongr := mapM_option_congr
    (fun rc : Int × Int => generate_turn_cell (fun b2 => generate_turn d sf b2 auto)
      sf b auto (decide (rc = (0, 0))) rc.1 rc.2)
    (fun rc : Int × Int => generate_turn_cell (fun b2 => generate_turn d sf b2 auto)
      sf b auto false rc.1 rc.2)
    [(0, 1), (0, 2), (1, 0), (1, 1), (1, 2), (2, 0), (2, 1), (2, 2)]
    (by
      intro x hx
      have hne : x ≠ (0, 0) := by
        intro h0; rw [h0] at hx; revert hx; decide
      simp only [hne, decide_False])
  show Option.map _ (List.foldlM _ _ ((0, 0) :: [(0, 1), (0, 2), (1, 0), (1, 1), (1, 2),
    (2, 0), (2, 1), (2, 2)])) = Option.map _ (List.mapM _ ((0, 0) :: [(0, 1), (0, 2), (1, 0),
    (1, 1), (1, 2), (2, 0), (2, 1), (2, 2)]))
  rw [List.foldlM_cons, List.mapM_cons, hcongr]
  simp only [decide_True]
  cases h0 : generate_turn_cell (fun b2 => generate_turn d sf b2 auto) sf b auto true 0 0 with
  | none => rfl
  | some o =>
    simp only [Option.map_some', Option.bind_eq_bind, Option.some_bind]
    rw [hrest]
    cases List.mapM (fun rc : Int × Int => generate_turn_cell
        (fun b2 => generate_turn d sf b2 auto) sf b auto false rc.1 rc.2)
        [(0, 1), (0, 2), (1, 0), (1, 1), (1, 2), (2, 0), (2, 1), (2, 2)] with
    | none => rfl
    | some bs => simp [turnOpen, turnDefault, List.append_assoc]

theorem generate_turn_cell_eq_spec (nested : Board → Option (List PrintfCall)) (sf : Nat)
    (b : Board) (rc : Int × Int) :
    generate_turn_cell nested sf b SYM_SELF (decide (rc = (0, 0))) rc.1 rc.2 =
      specBranch nested sf b SYM_SELF rc := by
  unfold generate_turn_cell specBranch
  have hinv : sym_invert SYM_SELF = SYM_OPP := rfl
  have hkey : (if (!decide (rc = (0, 0))) = true then [emit "else "] else []) =
      (if rc = (0, 0) then [] else [emit "else "]) := by
    by_cases h : rc = (0, 0) <;> simp [h]
  simp only [hkey, hinv]
  by_cases he : board_get_sym b rc.1 rc.2 = SYM_EMPTY
  · simp only [he, board_move_is_possible, decide_True, Bool.not_true, if_false, ne_eq,
      not_true_eq_false, Bool.false_eq_true]
    cases get_best_move sf (board_set_sym b rc.1 rc.2 SYM_OPP) SYM_SELF SYM_SELF with
    | none => rfl
    | some mv => rfl
  · simp only [he, board_move_is_possible, decide_False, Bool.not_false, if_true, ne_eq,
      not_false_eq_true, List.append_assoc, List.cons_append, List.nil_append]

theorem generate_turn_eq_specTurn (d : Nat) : ∀ (sf : Nat) (b : Board),
    generate_turn d sf b SYM_SELF = specTurn d sf b SYM_SELF := by
  induction d with
  | zero => intro sf b; rfl
  | succ d ih =>
    intro sf b
    have hn : (fun b2 => generate_turn d sf b2 SYM_SELF) =
        (fun b2 => specTurn d sf b2 SYM_SELF) := funext (ih sf)
    rw [generate_turn_succ, specTurn, hn]
    congr 1
    exact mapM_option_congr _ _ _ (fun rc _ => generate_turn_cell_eq_spec _ sf b rc)

/-! ## Facts about one branch of the traversal -/

theorem board_clone_eq (b : Board) : board_clone b = b := rfl

theorem board_set_sym_out_of_range (b : Board) (r c : Int) (s : Sym)
    (h : r * 3 + c < 0 ∨ 9 ≤ r * 3 + c) : board_set_sym b r c s = b := by
  have hn : r * BOARD_SIZE + c < 0 ∨ r * BOARD_SIZE + c ≥ BOARD_SIZE_SQ := by
    simp only [BOARD_SIZE_SQ, BOARD_SIZE]; omega
  simp only [board_set_sym, board_set_sym_mut, dif_pos hn, board_clone_eq]

theorem board_set_sym_invalid (b : Board) (s : Sym) :
    board_set_sym b MOVE_INVALID.r MOVE_INVALID.c s = b :=
  board_set_sym_out_of_range b _ _ s (by decide)

theorem validBoard_set (b : Board) (r c : Int) (s : Sym) (hv : validBoard b)
    (hs : isPlayer s) : validBoard (board_set_sym b r c s) := by
  by_cases h : 0 ≤ r * 3 + c ∧ r * 3 + c < 9
  · rw [board_set_sym_of_index b r c s h]
    intro i
    by_cases hi : i = ⟨(r * 3 + c).toNat, by omega⟩
    · rw [hi]
      simp only [Function.update_same]
      right; exact hs
    · simp only [Function.update_noteq hi]
      exact hv i
  · rw [board_set_sym_out_of_range b r c s (by omega)]
    exact hv

theorem winner_or_tie_empty_of_recurses (a : Board) (hv : validBoard a) (h : recurses a) :
    board_get_winner a = SYM_EMPTY ∧ board_is_full a = false := by
  obtain ⟨h1, h2, h3⟩ := h
  unfold board_get_winner_or_tie at h1 h2 h3
  by_cases hc : board_get_winner a = SYM_EMPTY ∧ board_is_full a = true
  · simp only [if_pos hc, ne_eq, not_true_eq_false] at h1
  · simp only [if_neg hc] at h2 h3
    rcases board_get_winner_valid a hv with hw | hw | hw
    · refine ⟨hw, ?_⟩
      cases hf : board_is_full a with
      | false => rfl
      | true => exact absurd ⟨hw, hf⟩ hc
    · exact absurd hw h2
    · exact absurd hw h3

/-- What is known of a branch of `generate_turn` that recurses, on a board of
Empty/Self/Opponent cells with a player as the automatic player: the human move
and the reply each fill one Empty cell. -/
theorem recursing_branch (sf : Nat) (auto : Sym) (b : Board) (rc : Int × Int) (mv : Move)
    (hv : validBoard b) (ha : isPlayer auto) (hrc : rc ∈ cells9)
    (hp : possibleAt b rc = true)
    (hmv : get_best_move sf (userBoard auto b rc) auto auto = some mv)
    (hrec : recurses (autoBoard auto b rc mv)) :
    validBoard (autoBoard auto b rc mv) ∧
    countEmpty (userBoard auto b rc) + 1 = countEmpty b ∧
    inRange mv.r ∧ inRange mv.c ∧
    board_get_sym (userBoard auto b rc) mv.r mv.c = SYM_EMPTY ∧
    countEmpty (autoBoard auto b rc mv) + 2 = countEmpty b := by
  have hua : isPlayer (sym_invert auto) := isPlayer_invert ha
  have hvu : validBoard (userBoard auto b rc) := validBoard_set b _ _ _ hv hua
  have hva : validBoard (autoBoard auto b rc mv) := validBoard_set _ _ _ _ hvu ha
  have hcu : countEmpty (userBoard auto b rc) + 1 = countEmpty b :=
    countEmpty_set b rc _ hrc hp (isPlayer_ne_empty hua)
  obtain ⟨hwa, hfa⟩ := winner_or_tie_empty_of_recurses _ hva hrec
  -- the solver's result on the user board, at a depth bound large enough
  obtain ⟨sm, hsm, hmvsm⟩ : ∃ sm, get_best_move_and_score sf (userBoard auto b rc) auto auto =
      some sm ∧ sm.move = mv := by
    unfold get_best_move at hmv
    cases hg : get_best_move_and_score sf (userBoard auto b rc) auto auto with
    | none => rw [hg] at hmv; exact absurd hmv (by simp)
    | some sm => rw [hg] at hmv; exact ⟨sm, rfl, Option.some.inj hmv⟩
  have hbig := gbms_stable sf (sf + countEmpty (userBoard auto b rc) + 1) (by omega) _ _ _ _ hsm
  have ha0 : SYM_EMPTY ≠ auto := fun h => isPlayer_ne_empty ha h.symm
  have hi0 : SYM_EMPTY ≠ sym_invert auto := fun h => isPlayer_ne_empty hua h.symm
  -- when the user board is terminal the reply is the invalid move, the board
  -- after the reply is the user board, and the branch does not recurse
  have hinvalid : sm.move = MOVE_INVALID → autoBoard auto b rc mv = userBoard auto b rc := by
    intro hm
    unfold autoBoard
    rw [← hmvsm, hm]
    exact board_set_sym_invalid _ _
  by_cases hw1 : board_get_winner (userBoard auto b rc) = auto
  · exfalso
    rw [gbms_succ, if_pos hw1] at hbig
    have hau := hinvalid (by rw [← Option.some.inj hbig])
    rw [hau, hw1] at hwa
    exact ha0 hwa.symm
  by_cases hw2 : board_get_winner (userBoard auto b rc) = sym_invert auto
  · exfalso
    rw [gbms_succ, if_neg hw1, if_pos hw2] at hbig
    have hau := hinvalid (by rw [← Option.some.inj hbig])
    rw [hau, hw2] at hwa
    exact hi0 hwa.symm
  by_cases hf : board_is_full (userBoard auto b rc) = true
  · exfalso
    rw [gbms_succ, if_neg hw1, if_neg hw2, if_pos hf] at hbig
    have hau := hinvalid (by rw [← Option.some.inj hbig])
    rw [hau, hf] at hfa
    exact absurd hfa (by decide)
  have hnf : board_is_full (userBoard auto b rc) = false := by simpa using hf
  obtain ⟨l1, x, l2, res, hL, hx, _, hg, _, _⟩ :=
    gbms_step (sf + countEmpty (userBoard auto b rc)) (userBoard auto b rc) auto auto
      (isPlayer_ne_empty ha) (by omega) hw1 hw2 hnf
  rw [hbig] at hg
  have hmx : mv = move_create x.1 x.2 := by rw [← hmvsm, Option.some.inj hg]
  have hxm : x ∈ cells9 := by rw [hL]; simp
  have hxr := (mem_cells9_iff x).mp hxm
  have hca : countEmpty (autoBoard auto b rc mv) + 1 = countEmpty (userBoard auto b rc) := by
    unfold autoBoard
    rw [hmx]
    exact countEmpty_set _ x auto hxm hx (isPlayer_ne_empty ha)
  refine ⟨hva, hcu, ?_, ?_, ?_, by omega⟩
  · rw [hmx]; exact hxr.1
  · rw [hmx]; exact hxr.2
  · rw [hmx]; exact (possibleAt_iff _ x).mp hx

theorem generate_turn_cell_occupied (nested : Board → Option (List PrintfCall)) (sf : Nat)
    (b : Board) (auto : Sym) (first : Bool) (rc : Int × Int)
    (hp : possibleAt b rc = false) :
    generate_turn_cell nested sf b auto first rc.1 rc.2 =
      some (branchOccupied first rc.1 rc.2) := by
  unfold possibleAt at hp
  unfold generate_turn_cell
  simp only [hp, Bool.not_false, if_true]
  rfl

theorem generate_turn_cell_possible (nested : Board → Option (List PrintfCall)) (sf : Nat)
    (b : Board) (auto : Sym) (first : Bool) (rc : Int × Int) (mv : Move)
    (hp : possibleAt b rc = true)
    (hmv : get_best_move sf (userBoard auto b rc) auto auto = some mv) :
    generate_turn_cell nested sf b auto first rc.1 rc.2 =
      (branchOutcome nested (autoBoard auto b rc mv)).map fun mid =>
        branchShown auto b first rc mv ++ mid ++ branchClose := by
  unfold possibleAt at hp
  unfold userBoard at hmv
  unfold generate_turn_cell branchOutcome branchShown branchHead branchClose autoBoard userBoard
  simp only [hp, Bool.not_true, Bool.false_eq_true, if_false, hmv, Option.some_bind,
    Option.bind_eq_bind]
  by_cases h1 : board_get_winner_or_tie
      (board_set_sym (board_set_sym b rc.1 rc.2 (sym_invert auto)) mv.r mv.c auto) = SYM_INVALID
  · simp only [if_pos h1]; rfl
  simp only [if_neg h1]
  by_cases h2 : board_get_winner_or_tie
      (board_set_sym (board_set_sym b rc.1 rc.2 (sym_invert auto)) mv.r mv.c auto) = SYM_SELF
  · simp only [if_pos h2]; rfl
  simp only [if_neg h2]
  by_cases h3 : board_get_winner_or_tie
      (board_set_sym (board_set_sym b rc.1 rc.2 (sym_invert auto)) mv.r mv.c auto) = SYM_OPP
  · simp only [if_pos h3]; rfl
  simp only [if_neg h3]

theorem mapM_option_some {α β : Type} (f : α → Option β) (L : List α)
    (h : ∀ x ∈ L, ∃ y, f x = some y) : ∃ ys, L.mapM f = some ys := by
  induction L with
  | nil => exact ⟨[], rfl⟩
  | cons a t ih =>
    obtain ⟨y, hy⟩ := h a (List.mem_cons_self _ _)
    obtain ⟨ys, hys⟩ := ih (fun x hx => h x (List.mem_cons_of_mem _ hx))
    exact ⟨y :: ys, by rw [List.mapM_cons, hy, hys]; rfl⟩

theorem get_best_move_total (sf : Nat) (b : Board) (sym m : Sym) (hs : sym ≠ SYM_EMPTY)
    (hn : countEmpty b < sf) : ∃ mv, get_best_move sf b sym m = some mv := by
  obtain ⟨sm, hsm, _⟩ := gbms_total sf b sym m hs hn
  exact ⟨sm.move, by unfold get_best_move; rw [hsm]; rfl⟩

theorem generate_turn_total (d : Nat) : ∀ (sf : Nat) (b : Board) (auto : Sym),
    validBoard b → isPlayer auto → countEmpty b < 2 * d → countEmpty b ≤ sf →
    ∃ out, generate_turn d sf b auto = some out := by
  induction d with
  | zero => intro sf b auto _ _ h; exact absurd h (by omega)
  | succ d ih =>
    intro sf b auto hv ha hd hsf
    rw [generate_turn_succ]
    obtain ⟨bs, hbs⟩ := mapM_option_some
      (fun rc : Int × Int => generate_turn_cell (fun b2 => generate_turn d sf b2 auto)
        sf b auto (decide (rc = (0, 0))) rc.1 rc.2) cells9 (by
      intro rc hrc
      cases hp : possibleAt b rc with
      | false => exact ⟨_, generate_turn_cell_occupied _ sf b auto _ rc hp⟩
      | true =>
        have hcu : countEmpty (userBoard auto b rc) + 1 = countEmpty b :=
          countEmpty_set b rc _ hrc hp (isPlayer_ne_empty (isPlayer_invert ha))
        obtain ⟨mv, hmv⟩ := get_best_move_total sf (userBoard auto b rc) auto auto
          (isPlayer_ne_empty ha) (by omega)
        show ∃ y, generate_turn_cell _ sf b auto _ rc.1 rc.2 = some y
        rw [generate_turn_cell_possible _ sf b auto _ rc mv hp hmv]
        unfold branchOutcome
        by_cases h1 : board_get_winner_or_tie (autoBoard auto b rc mv) = SYM_INVALID
        · rw [if_pos h1]; exact ⟨_, rfl⟩
        rw [if_neg h1]
        by_cases h2 : board_get_winner_or_tie (autoBoard auto b rc mv) = SYM_SELF
        · rw [if_pos h2]; exact ⟨_, rfl⟩
        rw [if_neg h2]
        by_cases h3 : board_get_winner_or_tie (autoBoard auto b rc mv) = SYM_OPP
        · rw [if_pos h3]; exact ⟨_, rfl⟩
        rw [if_neg h3]
        obtain ⟨hva, _, _, _, _, hca⟩ :=
          recursing_branch sf auto b rc mv hv ha hrc hp hmv ⟨h1, h2, h3⟩
        obtain ⟨out, hout⟩ := ih sf (autoBoard auto b rc mv) auto hva ha (by omega) (by omega)
        show ∃ y, Option.map _ (generate_turn d sf (autoBoard auto b rc mv) auto) = some y
        rw [hout]
        exact ⟨_, rfl⟩)
    rw [hbs]
    exact ⟨_, rfl⟩

/-- C17: on a board of Empty/Self/Opponent cells with a player as the automatic
player, the board of every nested `generate_turn` call (made for an Empty cell,
with the reply returned by the solver, when the outcome after the reply is none
of Tie, Self, Opponent) has exactly two Empty cells fewer; and `generate_turn`
returns its output for every nesting bound `d` with `countEmpty b < 2 * d`, in
particular with as many nested levels as there are Empty cells. -/
theorem generate_turn_terminates (b : Board) (auto : Sym) (hv : validBoard b)
    (ha : isPlayer auto) :
    (∀ (sf : Nat) (r c : Int) (mv : Move), inRange r → inRange c →
      board_get_sym b r c = SYM_EMPTY →
      get_best_move sf (board_set_sym b r c (sym_invert auto)) auto auto = some mv →
      recurses (board_set_sym (board_set_sym b r c (sym_invert auto)) mv.r mv.c auto) →
      countEmpty (board_set_sym (board_set_sym b r c (sym_invert auto)) mv.r mv.c auto) + 2 =
        countEmpty b) ∧
    (∀ d sf : Nat, countEmpty b < 2 * d → countEmpty b ≤ sf →
      ∃ out, generate_turn d sf b auto = some out) ∧
    (∃ out, generate_turn (countEmpty b + 1) (countEmpty b) b auto = some out) := by
  refine ⟨?_, ?_, ?_⟩
  · intro sf r c mv hr hc he hmv hrec
    exact (recursing_branch sf auto b (r, c) mv hv ha ((mem_cells9_iff (r, c)).mpr ⟨hr, hc⟩)
      ((possibleAt_iff b (r, c)).mpr he) hmv hrec).2.2.2.2.2
  · intro d sf hd hsf
    exact generate_turn_total d sf b auto hv ha hd hsf
  · exact generate_turn_total _ _ b auto hv ha (by omega) (le_refl _)

theorem generate_turn_terminates_witness :
    ∃ out, generate_turn (countEmpty oppAutoBoard + 1) (countEmpty oppAutoBoard) oppAutoBoard
      SYM_OPP = some out :=
  (generate_turn_terminates oppAutoBoard SYM_OPP (by decide) (by decide)).2.2

/-! ## The traversal check agrees with the traversal -/

theorem board_eq_mk9 (b : Board) :
    b = mk9 (b.cells 0) (b.cells 1) (b.cells 2) (b.cells 3) (b.cells 4) (b.cells 5)
      (b.cells 6) (b.cells 7) (b.cells 8) := by
  cases b with
  | mk f => exact congrArg Board.mk (funext fun i => by fin_cases i <;> rfl)

theorem board_set_sym_of_flat_index (b : Board) (r c : Int) (s : Sym) (i : Nat) (hi : i < 9)
    (h : r * 3 + c = i) :
    board_set_sym b r c s = ⟨Function.update b.cells ⟨i, hi⟩ s⟩ := by
  rw [board_set_sym_of_index b r c s (by omega)]
  have hidx : (⟨(r * 3 + c).toNat, by omega⟩ : Fin 9) = ⟨i, hi⟩ := Fin.ext (by simp only; omega)
  rw [hidx]

theorem update_mk9_0 (a0 a1 a2 a3 a4 a5 a6 a7 a8 s : Sym) :
    (⟨Function.update (mk9 a0 a1 a2 a3 a4 a5 a6 a7 a8).cells ⟨0, by decide⟩ s⟩ : Board) = mk9 s a1 a2 a3 a4 a5 a6 a7 a8 :=
  congrArg Board.mk (funext fun i => by fin_cases i <;> rfl)

theorem update_mk9_1 (a0 a1 a2 a3 a4 a5 a6 a7 a8 s : Sym) :
    (⟨Function.update (mk9 a0 a1 a2 a3 a4 a5 a6 a7 a8).cells ⟨1, by decide⟩ s⟩ : Board) = mk9 a0 s a2 a3 a4 a5 a6 a7 a8 :=
  congrArg Board.mk (funext fun i => by fin_cases i <;> rfl)

theorem update_mk9_2 (a0 a1 a2 a3 a4 a5 a6 a7 a8 s : Sym) :
    (⟨Function.update (mk9 a0 a1 a2 a3 a4 a5 a6 a7 a8).cells ⟨2, by decide⟩ s⟩ : Board) = mk9 a0 a1 s a3 a4 a5 a6 a7 a8 :=
  congrArg Board.mk (funext fun i => by fin_cases i <;> rfl)

theorem update_mk9_3 (a0 a1 a2 a3 a4 a5 a6 a7 a8 s : Sym) :
    (⟨Function.update (mk9 a0 a1 a2 a3 a4 a5 a6 a7 a8).cells ⟨3, by decide⟩ s⟩ : Board) = mk9 a0 a1 a2 s a4 a5 a6 a7 a8 :=
  congrArg Board.mk (funext fun i => by fin_cases i <;> rfl)

theorem update_mk9_4 (a0 a1 a2 a3 a4 a5 a6 a7 a8 s : Sym) :
    (⟨Function.update (mk9 a0 a1 a2 a3 a4 a5 a6 a7 a8).cells ⟨4, by decide⟩ s⟩ : Board) = mk9 a0 a1 a2 a3 s a5 a6 a7 a8 :=
  congrArg Board.mk (funext fun i => by fin_cases i <;> rfl)

theorem update_mk9_5 (a0 a1 a2 a3 a4 a5 a6 a7 a8 s : Sym) :
    (⟨Function.update (mk9 a0 a1 a2 a3 a4 a5 a6 a7 a8).cells ⟨5, by decide⟩ s⟩ : Board) = mk9 a0 a1 a2 a3 a4 s a6 a7 a8 :=
  congrArg Board.mk (funext fun i => by fin_cases i <;> rfl)

theorem update_mk9_6 (a0 a1 a2 a3 a4 a5 a6 a7 a8 s : Sym) :
    (⟨Function.update (mk9 a0 a1 a2 a3 a4 a5 a6 a7 a8).cells ⟨6, by decide⟩ s⟩ : Board) = mk9 a0 a1 a2 a3 a4 a5 s a7 a8 :=
  congrArg Board.mk (funext fun i => by fin_cases i <;> rfl)

theorem update_mk9_7 (a0 a1 a2 a3 a4 a5 a6 a7 a8 s : Sym) :
    (⟨Function.update (mk9 a0 a1 a2 a3 a4 a5 a6 a7 a8).cells ⟨7, by decide⟩ s⟩ : Board) = mk9 a0 a1 a2 a3 a4 a5 a6 s a8 :=
  congrArg Board.mk (funext fun i => by fin_cases i <;> rfl)

theorem update_mk9_8 (a0 a1 a2 a3 a4 a5 a6 a7 a8 s : Sym) :
    (⟨Function.update (mk9 a0 a1 a2 a3 a4 a5 a6 a7 a8).cells ⟨8, by decide⟩ s⟩ : Board) = mk9 a0 a1 a2 a3 a4 a5 a6 a7 s :=
  congrArg Board.mk (funext fun i => by fin_cases i <;> rfl)

theorem withSet9_eq {α : Type} (k : Board → α) (a0 a1 a2 a3 a4 a5 a6 a7 a8 : Sym) (r c : Int) (s : Sym) :
    withSet9 (fun c0 c1 c2 c3 c4 c5 c6 c7 c8 => k (mk9 c0 c1 c2 c3 c4 c5 c6 c7 c8))
      a0 a1 a2 a3 a4 a5 a6 a7 a8 (r * 3 + c) s = k (board_set_sym (mk9 a0 a1 a2 a3 a4 a5 a6 a7 a8) r c s) := by
  unfold withSet9
  by_cases h0 : r * 3 + c = 0
  · rw [if_pos h0, board_set_sym_of_flat_index _ r c s 0 (by decide) (by omega), update_mk9_0]
  rw [if_neg h0]
  by_cases h1 : r * 3 + c = 1
  · rw [if_pos h1, board_set_sym_of_flat_index _ r c s 1 (by decide) (by omega), update_mk9_1]
  rw [if_neg h1]
  by_cases h2 : r * 3 + c = 2
  · rw [if_pos h2, board_set_sym_of_flat_index _ r c s 2 (by decide) (by omega), update_mk9_2]
  rw [if_neg h2]
  by_cases h3 : r * 3 + c = 3
  · rw [if_pos h3, board_set_sym_of_flat_index _ r c s 3 (by decide) (by omega), update_mk9_3]
  rw [if_neg h3]
  by_cases h4 : r * 3 + c = 4
  · rw [if_pos h4, board_set_sym_of_flat_index _ r c s 4 (by decide) (by omega), update_mk9_4]
  rw [if_neg h4]
  by_cases h5 : r * 3 + c = 5
  · rw [if_pos h5, board_set_sym_of_flat_index _ r c s 5 (by decide) (by omega), update_mk9_5]
  rw [if_neg h5]
  by_cases h6 : r * 3 + c = 6
  · rw [if_pos h6, board_set_sym_of_flat_index _ r c s 6 (by decide) (by omega), update_mk9_6]
  rw [if_neg h6]
  by_cases h7 : r * 3 + c = 7
  · rw [if_pos h7, board_set_sym_of_flat_index _ r c s 7 (by decide) (by omega), update_mk9_7]
  rw [if_neg h7]
  by_cases h8 : r * 3 + c = 8
  · rw [if_pos h8, board_set_sym_of_flat_index _ r c s 8 (by decide) (by omega), update_mk9_8]
  rw [if_neg h8]
  rw [board_set_sym_out_of_range _ r c s (by omega)]

theorem get_best_move_of_fastSolve (k : Nat) (a0 a1 a2 a3 a4 a5 a6 a7 a8 : Sym) (sm : ScoredMove)
    (h : fastSolve 10 a0 a1 a2 a3 a4 a5 a6 a7 a8 1 1 = some sm) :
    get_best_move (k + 10) (mk9 a0 a1 a2 a3 a4 a5 a6 a7 a8) SYM_SELF SYM_SELF = some sm.move := by
  rw [fastSolve_eq] at h
  have h2 := gbms_stable 10 (k + 10) (by omega) _ _ _ _ h
  unfold get_best_move
  rw [h2]
  rfl

theorem winner_or_tie_ne_opp (a : Board) (h : board_get_winner a ≠ SYM_OPP) :
    board_get_winner_or_tie a ≠ SYM_OPP := by
  unfold board_get_winner_or_tie
  by_cases hc : board_get_winner a = SYM_EMPTY ∧ board_is_full a = true
  · simp only [if_pos hc]; decide
  · simp only [if_neg hc]; exact h

theorem fastBranch_sound (next : Sym → Sym → Sym → Sym → Sym → Sym → Sym → Sym → Sym → Bool)
    (u0 u1 u2 u3 u4 u5 u6 u7 u8 : Sym) (k : Nat) (mv : Move)
    (h : fastBranch next u0 u1 u2 u3 u4 u5 u6 u7 u8 = true)
    (hmv : get_best_move (k + 10) (mk9 u0 u1 u2 u3 u4 u5 u6 u7 u8) SYM_SELF SYM_SELF = some mv) :
    board_get_winner_or_tie (board_set_sym (mk9 u0 u1 u2 u3 u4 u5 u6 u7 u8) mv.r mv.c SYM_SELF) ≠ SYM_OPP ∧
    (recurses (board_set_sym (mk9 u0 u1 u2 u3 u4 u5 u6 u7 u8) mv.r mv.c SYM_SELF) →
      next ((board_set_sym (mk9 u0 u1 u2 u3 u4 u5 u6 u7 u8) mv.r mv.c SYM_SELF).cells 0)
        ((board_set_sym (mk9 u0 u1 u2 u3 u4 u5 u6 u7 u8) mv.r mv.c SYM_SELF).cells 1)
        ((board_set_sym (mk9 u0 u1 u2 u3 u4 u5 u6 u7 u8) mv.r mv.c SYM_SELF).cells 2)
        ((board_set_sym (mk9 u0 u1 u2 u3 u4 u5 u6 u7 u8) mv.r mv.c SYM_SELF).cells 3)
        ((board_set_sym (mk9 u0 u1 u2 u3 u4 u5 u6 u7 u8) mv.r mv.c SYM_SELF).cells 4)
        ((board_set_sym (mk9 u0 u1 u2 u3 u4 u5 u6 u7 u8) mv.r mv.c SYM_SELF).cells 5)
        ((board_set_sym (mk9 u0 u1 u2 u3 u4 u5 u6 u7 u8) mv.r mv.c SYM_SELF).cells 6)
        ((board_set_sym (mk9 u0 u1 u2 u3 u4 u5 u6 u7 u8) mv.r mv.c SYM_SELF).cells 7)
        ((board_set_sym (mk9 u0 u1 u2 u3 u4 u5 u6 u7 u8) mv.r mv.c SYM_SELF).cells 8) = true) := by
  unfold fastBranch at h
  cases hfs : fastSolve 10 u0 u1 u2 u3 u4 u5 u6 u7 u8 1 1 with
  | none => rw [hfs] at h; simp at h
  | some sm =>
    rw [hfs] at h
    have hmv2 := get_best_move_of_fastSolve k u0 u1 u2 u3 u4 u5 u6 u7 u8 sm hfs
    rw [hmv] at hmv2
    have hm : mv = sm.move := Option.some.inj hmv2
    simp only at h
    rw [← hm] at h
    have hK := withSet9_eq (fun a : Board =>
        if board_get_winner a = 2 then false
        else if board_get_winner a = 1 then true
        else if board_get_winner a = 0 ∧ board_is_full a = true then true
        else next (a.cells 0) (a.cells 1) (a.cells 2) (a.cells 3) (a.cells 4) (a.cells 5)
          (a.cells 6) (a.cells 7) (a.cells 8)) u0 u1 u2 u3 u4 u5 u6 u7 u8 mv.r mv.c 1
    simp only [← winner9_eq, ← full9_eq, mk9_cells_0, mk9_cells_1, mk9_cells_2, mk9_cells_3,
      mk9_cells_4, mk9_cells_5, mk9_cells_6, mk9_cells_7, mk9_cells_8] at hK
    rw [hK] at h
    by_cases h2 : board_get_winner (board_set_sym (mk9 u0 u1 u2 u3 u4 u5 u6 u7 u8) mv.r mv.c SYM_SELF) = 2
    · rw [if_pos h2] at h; exact absurd h (by decide)
    rw [if_neg h2] at h
    refine ⟨winner_or_tie_ne_opp _ h2, ?_⟩
    intro hrec
    obtain ⟨r1, r2, _⟩ := hrec
    unfold board_get_winner_or_tie at r1 r2
    by_cases hc : board_get_winner (board_set_sym (mk9 u0 u1 u2 u3 u4 u5 u6 u7 u8) mv.r mv.c SYM_SELF) = SYM_EMPTY ∧
        board_is_full (board_set_sym (mk9 u0 u1 u2 u3 u4 u5 u6 u7 u8) mv.r mv.c SYM_SELF) = true
    · simp only [if_pos hc, ne_eq, not_true_eq_false] at r1
    · simp only [if_neg hc] at r2
      rw [if_neg r2, if_neg hc] at h
      exact h

theorem fastTraverse_branch (d : Nat) (a0 a1 a2 a3 a4 a5 a6 a7 a8 : Sym) (rc : Int × Int)
    (h : fastTraverse (d + 1) a0 a1 a2 a3 a4 a5 a6 a7 a8 = true) (hrc : rc ∈ cells9)
    (hp : possibleAt (mk9 a0 a1 a2 a3 a4 a5 a6 a7 a8) rc = true) :
    ∃ u0 u1 u2 u3 u4 u5 u6 u7 u8 : Sym, userBoard SYM_SELF (mk9 a0 a1 a2 a3 a4 a5 a6 a7 a8) rc = mk9 u0 u1 u2 u3 u4 u5 u6 u7 u8 ∧
      fastBranch (fastTraverse d) u0 u1 u2 u3 u4 u5 u6 u7 u8 = true := by
  rw [fastTraverse] at h
  simp only [Bool.and_eq_true] at h
  obtain ⟨⟨⟨⟨⟨⟨⟨⟨c0, c1⟩, c2⟩, c3⟩, c4⟩, c5⟩, c6⟩, c7⟩, c8⟩ := h
  simp only [cells9, List.mem_cons, List.mem_singleton, List.not_mem_nil, or_false] at hrc
  rcases hrc with rfl | rfl | rfl | rfl | rfl | rfl | rfl | rfl | rfl
  · have he : a0 = 0 := (possibleAt_iff _ _).mp hp
    rw [if_pos he] at c0
    exact ⟨2, a1, a2, a3, a4, a5, a6, a7, a8, set_mk9_0 a0 a1 a2 a3 a4 a5 a6 a7 a8 2, c0⟩
  · have he : a1 = 0 := (possibleAt_iff _ _).mp hp
    rw [if_pos he] at c1
    exact ⟨a0, 2, a2, a3, a4, a5, a6, a7, a8, set_mk9_1 a0 a1 a2 a3 a4 a5 a6 a7 a8 2, c1⟩
  · have he : a2 = 0 := (possibleAt_iff _ _).mp hp
    rw [if_pos he] at c2
    exact ⟨a0, a1, 2, a3, a4, a5, a6, a7, a8, set_mk9_2 a0 a1 a2 a3 a4 a5 a6 a7 a8 2, c2⟩
  · have he : a3 = 0 := (possibleAt_iff _ _).mp hp
    rw [if_pos he] at c3
    exact ⟨a0, a1, a2, 2, a4, a5, a6, a7, a8, set_mk9_3 a0 a1 a2 a3 a4 a5 a6 a7 a8 2, c3⟩
  · have he : a4 = 0 := (possibleAt_iff _ _).mp hp
    rw [if_pos he] at c4
    exact ⟨a0, a1, a2, a3, 2, a5, a6, a7, a8, set_mk9_4 a0 a1 a2 a3 a4 a5 a6 a7 a8 2, c4⟩
  · have he : a5 = 0 := (possibleAt_iff _ _).mp hp
    rw [if_pos he] at c5
    exact ⟨a0, a1, a2, a3, a4, 2, a6, a7, a8, set_mk9_5 a0 a1 a2 a3 a4 a5 a6 a7 a8 2, c5⟩
  · have he : a6 = 0 := (possibleAt_iff _ _).mp hp
    rw [if_pos he] at c6
    exact ⟨a0, a1, a2, a3, a4, a5, 2, a7, a8, set_mk9_6 a0 a1 a2 a3 a4 a5 a6 a7 a8 2, c6⟩
  · have he : a7 = 0 := (possibleAt_iff _ _).mp hp
    rw [if_pos he] at c7
    exact ⟨a0, a1, a2, a3, a4, a5, a6, 2, a8, set_mk9_7 a0 a1 a2 a3 a4 a5 a6 a7 a8 2, c7⟩
  · have he : a8 = 0 := (possibleAt_iff _ _).mp hp
    rw [if_pos he] at c8
    exact ⟨a0, a1, a2, a3, a4, a5, a6, a7, 2, set_mk9_8 a0 a1 a2 a3 a4 a5 a6 a7 a8 2, c8⟩

theorem fastTraverse_sound (d : Nat) : ∀ (b : Board),
    fastTraverse d (b.cells 0) (b.cells 1) (b.cells 2) (b.cells 3) (b.cells 4) (b.cells 5)
      (b.cells 6) (b.cells 7) (b.cells 8) = true →
    ∀ (k : Nat) (b2 : Board), GenReach (k + 10) SYM_SELF b b2 → noOpponentWin (k + 10) b2 := by
  induction d with
  | zero => intro b h; simp [fastTraverse] at h
  | succ d ih =>
    intro b h k b2 hreach
    have hb := board_eq_mk9 b
    have key : ∀ rc ∈ cells9, possibleAt b rc = true →
        ∃ u0 u1 u2 u3 u4 u5 u6 u7 u8 : Sym,
          userBoard SYM_SELF b rc = mk9 u0 u1 u2 u3 u4 u5 u6 u7 u8 ∧
          fastBranch (fastTraverse d) u0 u1 u2 u3 u4 u5 u6 u7 u8 = true := by
      intro rc hrc hp
      have hp2 : possibleAt (mk9 (b.cells 0) (b.cells 1) (b.cells 2) (b.cells 3) (b.cells 4)
          (b.cells 5) (b.cells 6) (b.cells 7) (b.cells 8)) rc = true := by
        rw [← hb]; exact hp
      have := fastTraverse_branch d _ _ _ _ _ _ _ _ _ rc h hrc hp2
      rw [← hb] at this
      exact this
    cases hreach with
    | refl =>
      intro rc hrc hp mv hmv
      obtain ⟨u0, u1, u2, u3, u4, u5, u6, u7, u8, hu, hfb⟩ := key rc hrc hp
      unfold autoBoard
      rw [hu] at hmv ⊢
      exact (fastBranch_sound _ u0 u1 u2 u3 u4 u5 u6 u7 u8 k mv hfb hmv).1
    | step _ _ rc mv hrc hp hmv hrec hrest =>
      obtain ⟨u0, u1, u2, u3, u4, u5, u6, u7, u8, hu, hfb⟩ := key rc hrc hp
      unfold autoBoard at hrec hrest
      rw [hu] at hmv hrec hrest
      exact ih _ ((fastBranch_sound _ u0 u1 u2 u3 u4 u5 u6 u7 u8 k mv hfb hmv).2 hrec) k b2 hrest

theorem fastTraverse_empty : fastTraverse 5 0 0 0 0 0 0 0 0 0 = true := by
  decide!

theorem traversal_noOpponentWin (k : Nat) (b : Board)
    (h : GenReach (k + 10) SYM_SELF board_create b) : noOpponentWin (k + 10) b :=
  fastTraverse_sound 5 board_create fastTraverse_empty k b h

/-! ## Where the emitted calls come from -/

theorem mapM_option_mem {α β : Type} (f : α → Option β) (L : List α) :
    ∀ ys, L.mapM f = some ys →
      (∀ x ∈ L, ∃ y ∈ ys, f x = some y) ∧ (∀ y ∈ ys, ∃ x ∈ L, f x = some y) := by
  induction L with
  | nil =>
    intro ys h
    rw [List.mapM_nil] at h
    cases Option.some.inj h
    exact ⟨fun x hx => absurd hx (List.not_mem_nil _), fun y hy => absurd hy (List.not_mem_nil _)⟩
  | cons a t ih =>
    intro ys h
    rw [List.mapM_cons] at h
    cases ha : f a with
    | none => rw [ha] at h; simp at h
    | some y0 =>
      cases ht : t.mapM f with
      | none => rw [ha, ht] at h; simp at h
      | some ys0 =>
        rw [ha, ht] at h
        have hys : ys = y0 :: ys0 := (Option.some.inj h).symm
        obtain ⟨h1, h2⟩ := ih ys0 ht
        subst hys
        constructor
        · intro x hx
          rcases List.mem_cons.mp hx with rfl | hx
          · exact ⟨y0, List.mem_cons_self _ _, ha⟩
          · obtain ⟨y, hy, hfy⟩ := h1 x hx
            exact ⟨y, List.mem_cons_of_mem _ hy, hfy⟩
        · intro y hy
          rcases List.mem_cons.mp hy with rfl | hy
          · exact ⟨a, List.mem_cons_self _ _, ha⟩
          · obtain ⟨x, hx, hfx⟩ := h2 y hy
            exact ⟨x, List.mem_cons_of_mem _ hx, hfx⟩

theorem mem_generate_turn (d sf : Nat) (b : Board) (auto : Sym) (out : List PrintfCall)
    (h : generate_turn (d + 1) sf b auto = some out) (x : PrintfCall) :
    x ∈ out ↔ (x ∈ turnOpen ∨ x ∈ turnDefault ∨ ∃ rc ∈ cells9, ∃ o,
      generate_turn_cell (fun b2 => generate_turn d sf b2 auto) sf b auto
        (decide (rc = (0, 0))) rc.1 rc.2 = some o ∧ x ∈ o) := by
  rw [generate_turn_succ] at h
  cases hm : cells9.mapM (fun rc : Int × Int => generate_turn_cell
      (fun b2 => generate_turn d sf b2 auto) sf b auto (decide (rc = (0, 0))) rc.1 rc.2) with
  | none => rw [hm] at h; simp at h
  | some bs =>
    rw [hm] at h
    have hout : out = turnOpen ++ bs.flatten ++ turnDefault := (Option.some.inj h).symm
    obtain ⟨h1, h2⟩ := mapM_option_mem _ _ bs hm
    rw [hout]
    simp only [List.mem_append, List.mem_flatten]
    constructor
    · rintro ((hx | ⟨o, ho, hx⟩) | hx)
      · exact Or.inl hx
      · obtain ⟨rc, hrc, hfo⟩ := h2 o ho
        exact Or.inr (Or.inr ⟨rc, hrc, o, hfo, hx⟩)
      · exact Or.inr (Or.inl hx)
    · rintro (hx | hx | ⟨rc, hrc, o, hfo, hx⟩)
      · exact Or.inl (Or.inl hx)
      · exact Or.inr hx
      · obtain ⟨o2, ho2, hfo2⟩ := h1 rc hrc
        rw [hfo] at hfo2
        cases Option.some.inj hfo2
        exact Or.inl (Or.inr ⟨o, ho2, hx⟩)

theorem generate_board_print_mem (b : Board) (x : PrintfCall)
    (hx : x ∈ generate_board_print b) :
    x = emit "printf(\"" ∨ x = emit " X " ∨ x = emit " O " ∨ x = emit " - " ∨
      x = emit "\\n\");\n" := by
  unfold generate_board_print at hx
  simp only [loopFrom0, List.flatMap_cons, List.flatMap_nil, List.mem_append, List.mem_cons,
    List.mem_singleton, List.not_mem_nil, or_false, List.append_nil] at hx
  rcases hx with ((h | h | h | h) | h) | ((h | h | h | h) | h) | ((h | h | h | h) | h)
  all_goals first
    | exact Or.inl h
    | exact Or.inr (Or.inr (Or.inr (Or.inr h)))
    | (split_ifs at h <;> simp only [List.mem_singleton] at h <;> simp [h])

theorem generate_turn_cell_some (nested : Board → Option (List PrintfCall)) (sf : Nat)
    (b : Board) (auto : Sym) (first : Bool) (rc : Int × Int) (o : List PrintfCall)
    (hp : possibleAt b rc = true)
    (h : generate_turn_cell nested sf b auto first rc.1 rc.2 = some o) :
    ∃ mv mid, get_best_move sf (userBoard auto b rc) auto auto = some mv ∧
      branchOutcome nested (autoBoard auto b rc mv) = some mid ∧
      o = branchShown auto b first rc mv ++ mid ++ branchClose := by
  cases hmv : get_best_move sf (userBoard auto b rc) auto auto with
  | none =>
    exfalso
    unfold possibleAt at hp
    unfold userBoard at hmv
    unfold generate_turn_cell at h
    simp only [hp, Bool.not_true, Bool.false_eq_true, if_false, hmv, Option.none_bind,
      Option.bind_eq_bind] at h
    exact absurd h (by simp)
  | some mv =>
    rw [generate_turn_cell_possible nested sf b auto first rc mv hp hmv] at h
    cases hmid : branchOutcome nested (autoBoard auto b rc mv) with
    | none => rw [hmid] at h; exact absurd h (by simp)
    | some mid =>
      rw [hmid] at h
      exact ⟨mv, mid, rfl, hmid, (Option.some.inj h).symm⟩

theorem emitIf_ne_youWin (r c : Int) : emitYouWin ≠ emitIf r c := by
  intro h
  have hf : emitYouWin.fmt = "if (input.r == %d && input.c == %d) \x7b\n" :=
    congrArg PrintfCall.fmt h
  revert hf
  decide

theorem emitComputerMove_ne_youWin (mv : Move) : emitYouWin ≠ emitComputerMove mv := by
  intro h
  have hf : emitYouWin.fmt = "    printf(\"Computer's move: %d,%d\\n\");\n" :=
    congrArg PrintfCall.fmt h
  revert hf
  decide

theorem youWin_not_mem_board_print (b : Board) : emitYouWin ∉ generate_board_print b := by
  intro h
  rcases generate_board_print_mem b _ h with h | h | h | h | h <;> revert h <;> decide

theorem youWin_not_mem_head (first : Bool) (r c : Int) : emitYouWin ∉ branchHead first r c := by
  intro h
  unfold branchHead at h
  rcases List.mem_append.mp h with h | h
  · split_ifs at h
    · simp only [List.mem_singleton] at h; revert h; decide
    · exact absurd h (List.not_mem_nil _)
  · simp only [List.mem_singleton] at h
    exact emitIf_ne_youWin r c h

theorem generate_turn_no_you_win (sf : Nat) (d : Nat) : ∀ (b : Board) (out : List PrintfCall),
    (∀ b2, GenReach sf SYM_SELF b b2 → noOpponentWin sf b2) →
    generate_turn d sf b SYM_SELF = some out → emitYouWin ∉ out := by
  induction d with
  | zero => intro b out _ h; exact absurd h (by simp [generate_turn])
  | succ d ih =>
    intro b out hsafe h hmem
    rw [mem_generate_turn d sf b SYM_SELF out h] at hmem
    rcases hmem with hx | hx | ⟨rc, hrc, o, hfo, hx⟩
    · revert hx; decide
    · revert hx; decide
    · cases hp : possibleAt b rc with
      | false =>
        rw [generate_turn_cell_occupied _ sf b SYM_SELF _ rc hp] at hfo
        rw [← Option.some.inj hfo] at hx
        unfold branchOccupied at hx
        rcases List.mem_append.mp hx with hx | hx
        · rcases List.mem_append.mp hx with hx | hx
          · exact youWin_not_mem_head _ _ _ hx
          · revert hx; decide
        · revert hx; decide
      | true =>
        obtain ⟨mv, mid, hmv, hmid, ho⟩ := generate_turn_cell_some _ sf b SYM_SELF _ rc o hp hfo
        rw [ho] at hx
        have hnot := hsafe b (GenReach.refl b) rc hrc hp mv hmv
        rcases List.mem_append.mp hx with hx | hx
        · rcases List.mem_append.mp hx with hx | hx
          · unfold branchShown at hx
            rcases List.mem_append.mp hx with hx | hx
            · rcases List.mem_append.mp hx with hx | hx
              · rcases List.mem_append.mp hx with hx | hx
                · exact youWin_not_mem_head _ _ _ hx
                · exact youWin_not_mem_board_print _ hx
              · simp only [List.mem_singleton] at hx
                exact emitComputerMove_ne_youWin mv hx
            · exact youWin_not_mem_board_print _ hx
          · unfold branchOutcome at hmid
            by_cases h1 : board_get_winner_or_tie (autoBoard SYM_SELF b rc mv) = SYM_INVALID
            · rw [if_pos h1] at hmid
              rw [← Option.some.inj hmid] at hx
              revert hx; decide
            rw [if_neg h1] at hmid
            by_cases h2 : board_get_winner_or_tie (autoBoard SYM_SELF b rc mv) = SYM_SELF
            · rw [if_pos h2] at hmid
              rw [← Option.some.inj hmid] at hx
              revert hx; decide
            rw [if_neg h2, if_neg hnot] at hmid
            exact ih _ mid
              (fun b2 hb2 => hsafe b2 (GenReach.step b b2 rc mv hrc hp hmv ⟨h1, h2, hnot⟩ hb2))
              hmid hx
        · revert hx; decide

theorem branch_of_generate_turn (d sf : Nat) (b : Board) (auto : Sym) (out : List PrintfCall)
    (h : generate_turn (d + 1) sf b auto = some out) (rc : Int × Int) (hrc : rc ∈ cells9) :
    ∃ o, generate_turn_cell (fun b2 => generate_turn d sf b2 auto) sf b auto
        (decide (rc = (0, 0))) rc.1 rc.2 = some o ∧ ∀ x ∈ o, x ∈ out := by
  have hmem := mem_generate_turn d sf b auto out h
  rw [generate_turn_succ] at h
  cases hm : cells9.mapM (fun rc : Int × Int => generate_turn_cell
      (fun b2 => generate_turn d sf b2 auto) sf b auto (decide (rc = (0, 0))) rc.1 rc.2) with
  | none => rw [hm] at h; simp at h
  | some bs =>
    obtain ⟨o, _, ho⟩ := (mapM_option_mem _ _ bs hm).1 rc hrc
    exact ⟨o, ho, fun x hx => (hmem x).mpr (Or.inr (Or.inr ⟨rc, hrc, o, ho, hx⟩))⟩

theorem branchOutcome_of_recurses (nested : Board → Option (List PrintfCall)) (a : Board)
    (h : recurses a) : branchOutcome nested a = nested a := by
  unfold branchOutcome
  rw [if_neg h.1, if_neg h.2.1, if_neg h.2.2]

theorem generate_turn_reach (sf : Nat) (auto : Sym) (b b2 : Board)
    (hreach : GenReach sf auto b b2) :
    ∀ (d : Nat) (out : List PrintfCall), generate_turn d sf b auto = some out →
      ∃ d2 out2, generate_turn d2 sf b2 auto = some out2 ∧ ∀ x ∈ out2, x ∈ out := by
  induction hreach with
  | refl b => intro d out h; exact ⟨d, out, h, fun _ hx => hx⟩
  | step b b2 rc mv hrc hp hmv hrec _ ih =>
    intro d out h
    cases d with
    | zero => exact absurd h (by simp [generate_turn])
    | succ d =>
      obtain ⟨o, ho, hsub⟩ := branch_of_generate_turn d sf b auto out h rc hrc
      obtain ⟨mv2, mid, hmv2, hmid, hoeq⟩ := generate_turn_cell_some _ sf b auto _ rc o hp ho
      rw [hmv] at hmv2
      cases Option.some.inj hmv2
      rw [branchOutcome_of_recurses _ _ hrec] at hmid
      obtain ⟨d2, out2, h2, hsub2⟩ := ih d mid hmid
      refine ⟨d2, out2, h2, fun x hx => hsub x ?_⟩
      rw [hoeq]
      simp only [List.mem_append]
      exact Or.inl (Or.inr (hsub2 x hx))

theorem genReach_step_mk9 (k : Nat) (b a b2 : Board) (rc : Int × Int) (sm : ScoredMove)
    (u0 u1 u2 u3 u4 u5 u6 u7 u8 : Sym) (hrc : rc ∈ cells9) (hp : possibleAt b rc = true)
    (hu : userBoard SYM_SELF b rc = mk9 u0 u1 u2 u3 u4 u5 u6 u7 u8)
    (hfs : fastSolve 10 u0 u1 u2 u3 u4 u5 u6 u7 u8 1 1 = some sm)
    (ha : board_set_sym (mk9 u0 u1 u2 u3 u4 u5 u6 u7 u8) sm.move.r sm.move.c SYM_SELF = a)
    (hrec : recurses a) (hrest : GenReach (k + 10) SYM_SELF a b2) :
    GenReach (k + 10) SYM_SELF b b2 := by
  have hmv : get_best_move (k + 10) (userBoard SYM_SELF b rc) SYM_SELF SYM_SELF =
      some sm.move := by
    rw [hu]; exact get_best_move_of_fastSolve k _ _ _ _ _ _ _ _ _ sm hfs
  have hab : autoBoard SYM_SELF b rc sm.move = a := by
    unfold autoBoard; rw [hu]; exact ha
  refine GenReach.step b b2 rc sm.move hrc hp hmv ?_ ?_
  · rw [hab]; exact hrec
  · rw [hab]; exact hrest

theorem fastSolve_path1 : fastSolve 10 2 0 0 0 0 0 0 0 0 1 1 = some ⟨⟨1, 1⟩, 0⟩ := by
  decide!

theorem fastSolve_path2 : fastSolve 10 2 2 0 0 1 0 0 0 0 1 1 = some ⟨⟨0, 2⟩, 0⟩ := by
  decide!

theorem fastSolve_path3 : fastSolve 10 2 2 1 0 1 0 2 0 0 1 1 = some ⟨⟨1, 0⟩, 0⟩ := by
  decide!

theorem fastSolve_path4 : fastSolve 10 2 2 1 1 1 2 2 0 0 1 1 = some ⟨⟨2, 1⟩, 0⟩ := by
  decide!

theorem fastSolve_path5 : fastSolve 10 2 2 1 1 1 2 2 1 2 1 1 = some ⟨MOVE_INVALID, 0⟩ := by
  decide!

theorem lastCellBoard_reached (k : Nat) :
    GenReach (k + 10) SYM_SELF board_create lastCellBoard := by
  rw [board_create_eq_mk9]
  refine genReach_step_mk9 k _ (mk9 2 0 0 0 1 0 0 0 0) _ (0, 0) _ 2 0 0 0 0 0 0 0 0
    (by decide) (by decide) (set_mk9_0 _ _ _ _ _ _ _ _ _ _) fastSolve_path1
    (set_mk9_4 _ _ _ _ _ _ _ _ _ _) (by decide) ?_
  refine genReach_step_mk9 k _ (mk9 2 2 1 0 1 0 0 0 0) _ (0, 1) _ 2 2 0 0 1 0 0 0 0
    (by decide) (by decide) (set_mk9_1 _ _ _ _ _ _ _ _ _ _) fastSolve_path2
    (set_mk9_2 _ _ _ _ _ _ _ _ _ _) (by decide) ?_
  refine genReach_step_mk9 k _ (mk9 2 2 1 1 1 0 2 0 0) _ (2, 0) _ 2 2 1 0 1 0 2 0 0
    (by decide) (by decide) (set_mk9_6 _ _ _ _ _ _ _ _ _ _) fastSolve_path3
    (set_mk9_3 _ _ _ _ _ _ _ _ _ _) (by decide) ?_
  refine genReach_step_mk9 k _ (mk9 2 2 1 1 1 2 2 1 0) _ (1, 2) _ 2 2 1 1 1 2 2 0 0
    (by decide) (by decide) (set_mk9_5 _ _ _ _ _ _ _ _ _ _) fastSolve_path4
    (set_mk9_7 _ _ _ _ _ _ _ _ _ _) (by decide) ?_
  exact GenReach.refl _

/-! ## The generator against the solver -/

/-- C13: with Self as the automatic player, on every board (reached by the
traversal or not), `generate_turn` emits the turn the specification describes;
its output is the opening, the nine branches in row-major order of the cells,
and the default branch; and the branch of an Empty cell `(r, c)` announces the
move `get_best_move(board_set_sym(board, r, c, Opponent), Self, Self)` and, when
it recurses, nests the turn of that user board with the announced move played
for Self. -/
theorem generate_turn_matches_solver (d sf : Nat) (b : Board) :
    generate_turn d sf b SYM_SELF = specTurn d sf b SYM_SELF ∧
    generate_turn (d + 1) sf b SYM_SELF =
      (cells9.mapM (fun rc => generate_turn_cell (fun b2 => generate_turn d sf b2 SYM_SELF)
          sf b SYM_SELF (decide (rc = (0, 0))) rc.1 rc.2)).map
        (fun branches => turnOpen ++ branches.flatten ++ turnDefault) ∧
    ∀ r c, inRange r → inRange c → board_get_sym b r c = SYM_EMPTY → ∀ first : Bool,
      generate_turn_cell (fun b2 => generate_turn d sf b2 SYM_SELF) sf b SYM_SELF first r c =
        (get_best_move sf (board_set_sym b r c SYM_OPP) SYM_SELF SYM_SELF).bind fun mv =>
          (branchOutcome (fun b2 => generate_turn d sf b2 SYM_SELF)
            (board_set_sym (board_set_sym b r c SYM_OPP) mv.r mv.c SYM_SELF)).map fun mid =>
            branchHead first r c ++ generate_board_print (board_set_sym b r c SYM_OPP) ++
              [emitComputerMove mv] ++
              generate_board_print
                (board_set_sym (board_set_sym b r c SYM_OPP) mv.r mv.c SYM_SELF) ++
              mid ++ branchClose := by
  refine ⟨generate_turn_eq_specTurn d sf b, generate_turn_succ d sf b SYM_SELF, ?_⟩
  intro r c _ _ he first
  have hp : possibleAt b (r, c) = true := (possibleAt_iff b (r, c)).mpr he
  cases hmv : get_best_move sf (board_set_sym b r c SYM_OPP) SYM_SELF SYM_SELF with
  | none =>
    unfold possibleAt at hp
    unfold generate_turn_cell
    have hinv : sym_invert SYM_SELF = SYM_OPP := rfl
    simp only [hp, hinv, Bool.not_true, Bool.false_eq_true, if_false, hmv, Option.none_bind,
      Option.bind_eq_bind]
  | some mv =>
    exact generate_turn_cell_possible _ sf b SYM_SELF first (r, c) mv hp hmv

theorem generate_turn_matches_solver_witness :
    generate_turn_cell (fun b2 => generate_turn 0 10 b2 SYM_SELF) 10 lastCellBoard SYM_SELF
        false 2 2 =
      (get_best_move 10 (board_set_sym lastCellBoard 2 2 SYM_OPP) SYM_SELF SYM_SELF).bind
        fun mv =>
          (branchOutcome (fun b2 => generate_turn 0 10 b2 SYM_SELF)
            (board_set_sym (board_set_sym lastCellBoard 2 2 SYM_OPP) mv.r mv.c SYM_SELF)).map
            fun mid =>
              branchHead false 2 2 ++
                generate_board_print (board_set_sym lastCellBoard 2 2 SYM_OPP) ++
                [emitComputerMove mv] ++
                generate_board_print
                  (board_set_sym (board_set_sym lastCellBoard 2 2 SYM_OPP) mv.r mv.c SYM_SELF) ++
                mid ++ branchClose :=
  (generate_turn_matches_solver 0 10 lastCellBoard).2.2 2 2 (by decide) (by decide) (by decide)
    false

theorem generate_code_some (d sf : Nat) (out : List PrintfCall)
    (h : generate_code d sf = some out) :
    ∃ out0, generate_turn d sf board_create SYM_SELF = some out0 ∧
      out = [emit generatedPrelude] ++ out0 ++ [emit "\x7d\n"] := by
  unfold generate_code at h
  cases h0 : generate_turn d sf board_create SYM_SELF with
  | none => rw [h0] at h; exact absurd h (by simp)
  | some out0 => rw [h0] at h; exact ⟨out0, rfl, (Option.some.inj h).symm⟩

theorem generate_code_total (k : Nat) : ∃ out, generate_code 5 (k + 10) = some out := by
  have h9 := countEmpty_le_nine board_create
  obtain ⟨out0, h0⟩ := generate_turn_total 5 (k + 10) board_create SYM_SELF (by decide)
    (by decide) (by omega) (by omega)
  exact ⟨_, by unfold generate_code; rw [h0]; rfl⟩

/-- C14: the traversal of `generate_turn` from the empty board with Self as the
automatic player reaches the board `O O X / X X O / O X _`; for the human move
on its last Empty cell (2, 2) the solver returns the sentinel (-1, -1), whose
coordinates are not in `[0, 2]`, and every output of `generate_code` contains
the announcement `Computer's move: -1,-1`. -/
theorem generate_code_announces_sentinel (k : Nat) :
    GenReach (k + 10) SYM_SELF board_create lastCellBoard ∧
    board_get_sym lastCellBoard 2 2 = SYM_EMPTY ∧
    get_best_move (k + 10) (board_set_sym lastCellBoard 2 2 SYM_OPP) SYM_SELF SYM_SELF =
      some MOVE_INVALID ∧
    ¬ inRange MOVE_INVALID.r ∧ ¬ inRange MOVE_INVALID.c ∧
    (∀ d out, generate_code d (k + 10) = some out → emitComputerMove MOVE_INVALID ∈ out) ∧
    (∃ out, generate_code 5 (k + 10) = some out) := by
  have hmv : get_best_move (k + 10) (board_set_sym lastCellBoard 2 2 SYM_OPP) SYM_SELF
      SYM_SELF = some MOVE_INVALID := by
    have hu : board_set_sym lastCellBoard 2 2 SYM_OPP = mk9 2 2 1 1 1 2 2 1 2 :=
      set_mk9_8 _ _ _ _ _ _ _ _ _ _
    rw [hu]
    exact get_best_move_of_fastSolve k _ _ _ _ _ _ _ _ _ _ fastSolve_path5
  refine ⟨lastCellBoard_reached k, by decide, hmv, by decide, by decide, ?_,
    generate_code_total k⟩
  intro d out h
  obtain ⟨out0, h0, hout⟩ := generate_code_some d (k + 10) out h
  obtain ⟨d2, out2, h2, hsub⟩ := generate_turn_reach (k + 10) SYM_SELF _ _
    (lastCellBoard_reached k) d out0 h0
  cases d2 with
  | zero => exact absurd h2 (by simp [generate_turn])
  | succ d2 =>
    obtain ⟨o, ho, hsub2⟩ := branch_of_generate_turn d2 (k + 10) lastCellBoard SYM_SELF out2 h2
      (2, 2) (by decide)
    obtain ⟨mv, mid, hmv2, _, hoeq⟩ := generate_turn_cell_some _ (k + 10) lastCellBoard
      SYM_SELF _ (2, 2) o (by decide) ho
    have hmv3 : get_best_move (k + 10) (userBoard SYM_SELF lastCellBoard (2, 2)) SYM_SELF
        SYM_SELF = some MOVE_INVALID := hmv
    rw [hmv3] at hmv2
    have hm : mv = MOVE_INVALID := (Option.some.inj hmv2).symm
    rw [hout]
    simp only [List.mem_append]
    refine Or.inl (Or.inr (hsub _ (hsub2 _ ?_)))
    rw [hoeq, hm]
    unfold branchShown
    exact List.mem_append_left _ (List.mem_append_left _ (List.mem_append_left _
      (List.mem_append_right _ (List.mem_singleton.mpr rfl))))

/-! ## The computer never loses -/

theorem winner_ne_opp_of_outcome (a : Board) (h : board_get_winner_or_tie a ≠ SYM_OPP) :
    board_get_winner a ≠ SYM_OPP := by
  intro hw
  apply h
  unfold board_get_winner_or_tie
  have hc : ¬ (board_get_winner a = SYM_EMPTY ∧ board_is_full a = true) := by
    rw [hw]; rintro ⟨h0, _⟩; exact absurd h0 (by decide)
  simp only [if_neg hc]
  exact hw

theorem genReach_invariant (sf : Nat) (b b2 : Board) (h : GenReach sf SYM_SELF b b2) :
    validBoard b ∧ board_get_winner b ≠ SYM_OPP →
    validBoard b2 ∧ board_get_winner b2 ≠ SYM_OPP := by
  induction h with
  | refl b => exact fun hb => hb
  | step b b2 rc mv _ _ _ hrec _ ih =>
    intro hb
    apply ih
    constructor
    · exact validBoard_set _ _ _ _ (validBoard_set _ _ _ _ hb.1 (by decide)) (by decide)
    · exact winner_ne_opp_of_outcome _ hrec.2.2

/-- C20: in the traversal of `generate_turn` from the empty board with Self as
the automatic player (every reply chosen by `get_best_move(userBoard, Self,
Self)`), no board reached has winner Opponent: neither the board of a
`generate_turn` call, nor a board after a human move, nor a board after the
reply; so no output of `generate_code` contains the `You win!` literal, and
`generate_code` does produce its output. -/
theorem computer_never_loses (k : Nat) :
    (∀ b, GenReach (k + 10) SYM_SELF board_create b →
      board_get_winner b ≠ SYM_OPP ∧
      ∀ r c, inRange r → inRange c → board_get_sym b r c = SYM_EMPTY →
        ∃ mv, get_best_move (k + 10) (board_set_sym b r c SYM_OPP) SYM_SELF SYM_SELF =
            some mv ∧
          board_get_winner (board_set_sym b r c SYM_OPP) ≠ SYM_OPP ∧
          board_get_winner
            (board_set_sym (board_set_sym b r c SYM_OPP) mv.r mv.c SYM_SELF) ≠ SYM_OPP ∧
          board_get_winner_or_tie
            (board_set_sym (board_set_sym b r c SYM_OPP) mv.r mv.c SYM_SELF) ≠ SYM_OPP) ∧
    (∀ d out, generate_code d (k + 10) = some out → emitYouWin ∉ out) ∧
    (∃ out, generate_code 5 (k + 10) = some out) := by
  refine ⟨?_, ?_, generate_code_total k⟩
  · intro b hreach
    obtain ⟨hv, hw⟩ := genReach_invariant _ _ _ hreach ⟨by decide, by decide⟩
    refine ⟨hw, ?_⟩
    intro r c hr hc he
    have hrc : (r, c) ∈ cells9 := (mem_cells9_iff (r, c)).mpr ⟨hr, hc⟩
    have hp : possibleAt b (r, c) = true := (possibleAt_iff b (r, c)).mpr he
    have hcu : countEmpty (board_set_sym b r c SYM_OPP) + 1 = countEmpty b :=
      countEmpty_set b (r, c) SYM_OPP hrc hp (by decide)
    have h9 := countEmpty_le_nine b
    obtain ⟨mv, hmv⟩ := get_best_move_total (k + 10) (board_set_sym b r c SYM_OPP) SYM_SELF
      SYM_SELF (by decide) (by omega)
    have hsafe := traversal_noOpponentWin k b hreach (r, c) hrc hp mv hmv
    refine ⟨mv, hmv, ?_, winner_ne_opp_of_outcome _ hsafe, hsafe⟩
    intro hwu
    -- a user board won by Opponent is terminal: the reply is the sentinel and
    -- the board after the reply is the user board
    have hg : get_best_move_and_score (k + 9 + 1) (board_set_sym b r c SYM_OPP) SYM_SELF
        SYM_SELF = some ⟨MOVE_INVALID, -1⟩ := by
      have h1 : board_get_winner (board_set_sym b r c SYM_OPP) ≠ SYM_SELF := by
        rw [hwu]; decide
      have h2 : board_get_winner (board_set_sym b r c SYM_OPP) = sym_invert SYM_SELF := hwu
      rw [gbms_succ, if_neg h1, if_pos h2]
    have hmv2 : get_best_move (k + 10) (board_set_sym b r c SYM_OPP) SYM_SELF SYM_SELF =
        some MOVE_INVALID := by
      unfold get_best_move
      rw [show k + 10 = k + 9 + 1 from rfl, hg]
      rfl
    have hmv3 : get_best_move (k + 10) (board_set_sym b r c SYM_OPP) SYM_SELF SYM_SELF =
        some mv := hmv
    rw [hmv2] at hmv3
    have hm : mv = MOVE_INVALID := (Option.some.inj hmv3).symm
    apply winner_ne_opp_of_outcome _ hsafe
    unfold autoBoard userBoard
    rw [hm, board_set_sym_invalid]
    exact hwu
  · intro d out h
    obtain ⟨out0, h0, hout⟩ := generate_code_some d (k + 10) out h
    have hno := generate_turn_no_you_win (k + 10) d board_create out0
      (fun b2 hb2 => traversal_noOpponentWin k b2 hb2) h0
    rw [hout]
    intro hmem
    rcases List.mem_append.mp hmem with hmem | hmem
    · rcases List.mem_append.mp hmem with hmem | hmem
      · revert hmem; decide
      · exact hno hmem
    · revert hmem; decide

theorem computer_never_loses_witness :
    ∃ mv, get_best_move (0 + 10) (board_set_sym lastCellBoard 2 2 SYM_OPP) SYM_SELF SYM_SELF =
        some mv ∧
      board_get_winner (board_set_sym lastCellBoard 2 2 SYM_OPP) ≠ SYM_OPP ∧
      board_get_winner
        (board_set_sym (board_set_sym lastCellBoard 2 2 SYM_OPP) mv.r mv.c SYM_SELF) ≠
          SYM_OPP ∧
      board_get_winner_or_tie
        (board_set_sym (board_set_sym lastCellBoard 2 2 SYM_OPP) mv.r mv.c SYM_SELF) ≠
          SYM_OPP :=
  ((computer_never_loses 0).1 lastCellBoard (lastCellBoard_reached 0)).2 2 2 (by decide)
    (by decide) (by decide)

/-! ## The outcome literals with Opponent as the automatic player -/

theorem oppAuto_reply_22 :
    get_best_move 3 (userBoard SYM_OPP oppAutoBoard (2, 2)) SYM_OPP SYM_OPP = some ⟨0, 2⟩ := by
  decide!

theorem oppAuto_reply_02 :
    get_best_move 3 (userBoard SYM_OPP oppAutoBoard (0, 2)) SYM_OPP SYM_OPP =
      some MOVE_INVALID := by
  decide!

/-- C15: with Opponent as the automatic player, on the board
`O O _ / X X O / X O _`: for the human move (2, 2) the reply (0, 2) wins for the
automatic player and the branch emits `You win!`; for the human move (0, 2) the
human wins and the branch emits `You lose!`. The literals are chosen by
comparing the outcome with Self and Opponent, not with `auto_player`. -/
theorem generate_turn_opponent_literals
    (nested : Board → Option (List PrintfCall)) :
    (board_get_sym oppAutoBoard 2 2 = SYM_EMPTY ∧
      get_best_move 3 (userBoard SYM_OPP oppAutoBoard (2, 2)) SYM_OPP SYM_OPP = some ⟨0, 2⟩ ∧
      board_get_winner (autoBoard SYM_OPP oppAutoBoard (2, 2) ⟨0, 2⟩) = SYM_OPP ∧
      generate_turn_cell nested 3 oppAutoBoard SYM_OPP false 2 2 =
        some (branchShown SYM_OPP oppAutoBoard false (2, 2) ⟨0, 2⟩ ++ [emitYouWin] ++
          branchClose)) ∧
    (board_get_sym oppAutoBoard 0 2 = SYM_EMPTY ∧
      get_best_move 3 (userBoard SYM_OPP oppAutoBoard (0, 2)) SYM_OPP SYM_OPP =
        some MOVE_INVALID ∧
      board_get_winner (autoBoard SYM_OPP oppAutoBoard (0, 2) MOVE_INVALID) =
        sym_invert SYM_OPP ∧
      generate_turn_cell nested 3 oppAutoBoard SYM_OPP false 0 2 =
        some (branchShown SYM_OPP oppAutoBoard false (0, 2) MOVE_INVALID ++ [emitYouLose] ++
          branchClose)) := by
  refine ⟨⟨by decide, oppAuto_reply_22, by decide, ?_⟩, ⟨by decide, oppAuto_reply_02, by decide, ?_⟩⟩
  · have h := generate_turn_cell_possible nested 3 oppAutoBoard SYM_OPP false (2, 2) ⟨0, 2⟩
      (by decide) oppAuto_reply_22
    have ho : branchOutcome nested (autoBoard SYM_OPP oppAutoBoard (2, 2) ⟨0, 2⟩) =
        some [emitYouWin] := by
      unfold branchOutcome
      rw [if_neg (by decide), if_neg (by decide), if_pos (by decide)]
    rw [ho] at h
    exact h
  · have h := generate_turn_cell_possible nested 3 oppAutoBoard SYM_OPP false (0, 2)
      MOVE_INVALID (by decide) oppAuto_reply_02
    have ho : branchOutcome nested (autoBoard SYM_OPP oppAutoBoard (0, 2) MOVE_INVALID) =
        some [emitYouLose] := by
      unfold branchOutcome
      rw [if_neg (by decide), if_pos (by decide)]
    rw [ho] at h
    exact h

/-! ## Board rendering -/

theorem printedText_append (xs ys : List PrintfCall) :
    printedText (xs ++ ys) = printedText xs ++ printedText ys := by
  unfold printedText
  exact List.flatMap_append _ _ _

theorem printedText_emit (s : String) : printedText [emit s] = s.data := by
  simp [printedText, emit]

theorem printedText_nil : printedText [] = [] := rfl

theorem runStatements_append (p : List Char) : ∀ (mode : Nat) (rest : List Char),
    runStatements mode (p ++ rest) =
      match runPiece mode p with
      | none => none
      | some (mode2, printed) => (runStatements mode2 rest).map fun t => printed ++ t := by
  induction p with
  | nil =>
    intro mode rest
    simp only [List.nil_append, runPiece, List.nil_append]
    cases runStatements mode rest <;> rfl
  | cons c cs ih =>
    intro mode rest
    rw [List.cons_append, runStatements, runPiece]
    cases hstep : stepChar mode c with
    | none => rfl
    | some res =>
      obtain ⟨m2, pr⟩ := res
      simp only []
      rw [ih m2 rest]
      cases hp : runPiece m2 cs with
      | none => rfl
      | some res2 =>
        obtain ⟨m3, pr2⟩ := res2
        simp only [Option.map_some']
        cases runStatements m3 rest with
        | none => rfl
        | some t => simp [List.append_assoc]

theorem runPiece_row (s0 s1 s2 : Sym) :
    runPiece 0 ("printf(\"".data ++ genCell s0 ++ genCell s1 ++ genCell s2 ++
        "\\n\");\n".data) =
      some (0, genCell s0 ++ genCell s1 ++ genCell s2 ++ ['\n']) := by
  unfold genCell
  split_ifs <;> decide

theorem printedText_genCell (s : Sym) :
    printedText (if s = SYM_SELF then [emit " X "]
      else if s = SYM_OPP then [emit " O "] else [emit " - "]) = genCell s := by
  unfold genCell
  split_ifs <;> rfl

theorem run_generate_board_print (b : Board) :
    runStatements 0 (printedText (generate_board_print b)) = some (genRendering b) := by
  have hstruct : printedText (generate_board_print b) =
      ("printf(\"".data ++ genCell (board_get_sym b 0 0) ++ genCell (board_get_sym b 0 1) ++
        genCell (board_get_sym b 0 2) ++ "\\n\");\n".data) ++
      (("printf(\"".data ++ genCell (board_get_sym b 1 0) ++ genCell (board_get_sym b 1 1) ++
        genCell (board_get_sym b 1 2) ++ "\\n\");\n".data) ++
      (("printf(\"".data ++ genCell (board_get_sym b 2 0) ++ genCell (board_get_sym b 2 1) ++
        genCell (board_get_sym b 2 2) ++ "\\n\");\n".data) ++ [])) := by
    simp only [generate_board_print, loopFrom0, List.flatMap_cons, List.flatMap_nil,
      printedText_append, printedText_emit, printedText_nil, printedText_genCell,
      List.append_assoc, List.append_nil, List.nil_append]
  rw [hstruct, runStatements_append, runPiece_row]
  simp only
  rw [runStatements_append, runPiece_row]
  simp only
  rw [runStatements_append, runPiece_row]
  simp only [runStatements, if_true, Option.map_some', genRendering, genRow,
    List.append_assoc, List.append_nil]

theorem validBoard_get (b : Board) (hv : validBoard b) (r c : Int) (hr : inRange r)
    (hc : inRange c) :
    board_get_sym b r c = SYM_EMPTY ∨ board_get_sym b r c = SYM_SELF ∨
      board_get_sym b r c = SYM_OPP := by
  rw [board_get_sym_of_index b r c (index_of_inRange hr hc)]
  exact hv _

theorem printedText_printCell (s : Sym) (hs : s = SYM_EMPTY ∨ s = SYM_SELF ∨ s = SYM_OPP) :
    printedText (if s = SYM_EMPTY then [emit " "] else if s = SYM_SELF then [emit "X"]
      else if s = SYM_OPP then [emit "O"] else []) = specCell s := by
  rcases hs with h | h | h <;> rw [h] <;> rfl

theorem printedText_board_print (b : Board) (hv : validBoard b) :
    printedText (board_print b) = specRendering b := by
  have h00 := printedText_printCell _ (validBoard_get b hv 0 0 (by decide) (by decide))
  have h01 := printedText_printCell _ (validBoard_get b hv 0 1 (by decide) (by decide))
  have h02 := printedText_printCell _ (validBoard_get b hv 0 2 (by decide) (by decide))
  have h10 := printedText_printCell _ (validBoard_get b hv 1 0 (by decide) (by decide))
  have h11 := printedText_printCell _ (validBoard_get b hv 1 1 (by decide) (by decide))
  have h12 := printedText_printCell _ (validBoard_get b hv 1 2 (by decide) (by decide))
  have h20 := printedText_printCell _ (validBoard_get b hv 2 0 (by decide) (by decide))
  have h21 := printedText_printCell _ (validBoard_get b hv 2 1 (by decide) (by decide))
  have h22 := printedText_printCell _ (validBoard_get b hv 2 2 (by decide) (by decide))
  simp only [board_print, loopFrom0, BOARD_SIZE, List.flatMap_cons, List.flatMap_nil,
    printedText_append, printedText_emit, printedText_nil, h00, h01, h02, h10, h11, h12,
    h20, h21, h22, specRendering, specRow, List.append_assoc, List.append_nil,
    List.nil_append, show ((0 : Int) < 3 - 1) = True from by decide,
    show ((1 : Int) < 3 - 1) = True from by decide,
    show ((2 : Int) < 3 - 1) = False from by decide, if_true, if_false]
  rfl

theorem genRendering_ne_specRendering (b : Board) : genRendering b ≠ specRendering b := by
  intro h
  have hspec : ∀ s : Sym, ∃ x, specCell s = [x] := by
    intro s; unfold specCell; split_ifs <;> exact ⟨_, rfl⟩
  have hgen : ∀ s : Sym, ∃ y, (y = 'X' ∨ y = 'O' ∨ y = '-') ∧ genCell s = [' ', y, ' '] := by
    intro s; unfold genCell
    split_ifs
    · exact ⟨'X', Or.inl rfl, rfl⟩
    · exact ⟨'O', Or.inr (Or.inl rfl), rfl⟩
    · exact ⟨'-', Or.inr (Or.inr rfl), rfl⟩
  obtain ⟨x, hx⟩ := hspec (board_get_sym b 0 0)
  obtain ⟨y, hy, hg⟩ := hgen (board_get_sym b 0 0)
  unfold genRendering specRendering genRow specRow at h
  rw [hx, hg] at h
  simp only [List.append_assoc, List.cons_append, List.nil_append, List.cons.injEq] at h
  have h2 : y = '|' := h.2.1
  rcases hy with hy | hy | hy <;> rw [hy] at h2 <;> revert h2 <;> decide

/-- C16, as stated, fails: on the board `X X _ / O O _ / _ _ _` the statements
emitted by `generate_board_print` print ` X  X  - ` / ` O  O  - ` / ` -  -  - `,
which is not the text `X|X| ` / `-+-+-` / `O|O| ` / `-+-+-` / ` | | ` printed by
`board_print`. -/
theorem generate_board_print_differs :
    validBoard scenarioB ∧
    runStatements 0 (printedText (generate_board_print scenarioB)) =
      some " X  X  - \n O  O  - \n -  -  - \n".data ∧
    printedText (board_print scenarioB) = "X|X| \n-+-+-\nO|O| \n-+-+-\n | | \n".data ∧
    runStatements 0 (printedText (generate_board_print scenarioB)) ≠
      some (printedText (board_print scenarioB)) := by
  decide

/-- C16, amended: for every board with cells in {Empty, Self, Opponent}, the
statements emitted by `generate_board_print` print three rows of three cells,
each cell rendered as ` X ` for Self, ` O ` for Opponent and ` - ` for Empty,
with no separator between cells and no separator row; `board_print` prints the
rendering of the specification (cells blank, `X`, `O`, separated by `|`, with a
`-+-+-` row between rows), and the two texts differ. -/
theorem generate_board_print_rendering (b : Board) (hv : validBoard b) :
    runStatements 0 (printedText (generate_board_print b)) = some (genRendering b) ∧
    printedText (board_print b) = specRendering b ∧
    genRendering b ≠ specRendering b :=
  ⟨run_generate_board_print b, printedText_board_print b hv, genRendering_ne_specRendering b⟩

theorem generate_board_print_rendering_witness :
    runStatements 0 (printedText (generate_board_print scenarioD)) =
      some (genRendering scenarioD) ∧
    printedText (board_print scenarioD) = specRendering scenarioD ∧
    genRendering scenarioD ≠ specRendering scenarioD :=
  generate_board_print_rendering scenarioD (by decide)

end TicTacToe
